import Mathlib

/-!
# ASTP blockchain simulator: DAG store, phase detector, selector and consensus

A shallow embedding of the C sources (`config.h`, `dag.c`, `weighted_dag.c`,
`phases.c`, `transaction.c`, `consensus.c`, `bft.c`, `fast_voting.c`, `node.c`,
`zones.c` and the loop body of `main.c`) together with the properties
established about them.

Modelling conventions.

* C `int` values are `Int` (indices and sizes that are never negative are
  `Nat`).  No arithmetic in the modelled functions can overflow: the weights
  never leave the value `1`, the stored counts are bounded by the array
  capacities and the transaction counters of the node by the number of events
  handled.
* C `double` values are rationals and double arithmetic is exact rational
  arithmetic, except where a rounding or a special value decides the outcome:
  the amount of a transaction and the times of the driver's deadlines are
  values of `CDouble` (a finite number, an infinity or NaN) with the correctly
  rounded `+` and `-` of IEEE 754, and `sqrt_double` is the correctly rounded
  square root.  Elsewhere the exact model is harmless:
  - `(int)(w * WD_DECAY)`: for a 32-bit `w` the double product `w * 0.1`
    truncates to the same integer as the exact product `w / 10`;
  - the four hysteresis thresholds evaluate in double arithmetic to `45`,
    `55 + 2^-47`, `9` and `11`; the tps estimate is always `valid_count / 60`
    and no multiple of `1/60` lies in the gap between `55` and `55 + 2^-47`,
    so every comparison made by `detect_phase` has the outcome of the exact one;
  - `accept_count / zone_size >= 0.67`: a fraction of two `int`s that is not
    exactly `67/100` differs from it by at least `1 / (100 * zone_size)`.
* C arrays are total functions `Nat → α`; the code only reads cells below the
  stored count.  Memory returned by `malloc` holds a fixed placeholder.
* Loops are folds over the list of indices they visit, in visiting order; a
  loop that can return early is a recursion on the number of rounds left.
* The values `rand()` returns are an input stream `samples : Nat → Nat`.
* The library function `sqrt` is a parameter `sqrt : ℚ → ℚ` of the functions
  that call it; what is proved for every `sqrt` assumes nothing about it, and
  `sqrt_double` is the function IEEE 754 prescribes.  `INFINITY` is `none` in
  an `Option ℚ`.  A matrix is the row-major array the code indexes.
* What a collective hands to the caller (the rows of the peers in
  `MPI_Allgather`, the seeds broadcast by rank 0, the colours passed to
  `MPI_Comm_split`) is an input of the function that calls it.
-/

namespace Astp

/-! ## config.h -/

def PHASE_LOW : Int := 0
def PHASE_NORMAL : Int := 1
def PHASE_HIGH : Int := 2
def TAU_HIGH : ℚ := 50
def TAU_LOW : ℚ := 10
def HYSTERESIS : ℚ := 1 / 10
def WINDOW_SIZE : Nat := 60
def CONSECUTIVE_CHECKS : Nat := 2

def CONSENSUS_FAST_VOTING : Int := 0
def CONSENSUS_WEIGHTED_DAG : Int := 1
def CONSENSUS_BFT : Int := 2

def WD_MIN_WEIGHT : Int := 5
def WD_DECAY : ℚ := 1 / 10

def BFT_QUORUM : ℚ := 67 / 100

def MAX_TRANSACTIONS : Nat := 100000

/-- The C conversion `(int)x` of a double: truncation toward zero. -/
def c_int_of_double (x : ℚ) : Int :=
  if 0 ≤ x then ⌊x⌋ else ⌈x⌉

/-! ## The C type double -/

/-- A value of the C type `double` (IEEE 754 binary64): a finite number, an infinity or NaN.
The two zeros are one value: no code modelled here observes the sign of a zero.  The
constructor `finite` is applied to any rational; results of operations are binary64 numbers,
because they are rounded. -/
inductive CDouble where
  | finite (value : ℚ)
  | pos_inf
  | neg_inf
  | nan

/-- Rounding of a rational to the nearest integer, a tie going to the even neighbour. -/
def round_half_even (t : ℚ) : Int :=
  if t - ⌊t⌋ < 1 / 2 then ⌊t⌋
  else if 1 / 2 < t - ⌊t⌋ then ⌊t⌋ + 1
  else if ⌊t⌋ % 2 = 0 then ⌊t⌋ else ⌊t⌋ + 1

/-- The exponent of the binade of `x` in binary64: `floor(log2 |x|)`, and -1022 for zero and
the subnormal range. -/
def binade (x : ℚ) : Int := if x = 0 then -1022 else max (Int.log 2 |x|) (-1022)

/-- Rounding of `x` to the nearest multiple of `2^(e - 52)`, the spacing of the binary64
numbers of exponent `e` (53 significant bits), ties to even. -/
def round_at (e : Int) (x : ℚ) : ℚ := round_half_even (x / 2 ^ (e - 52)) * 2 ^ (e - 52)

/-- The binary64 number nearest to `x`, ties to even, before the overflow test. -/
def round_to_grid (x : ℚ) : ℚ := round_at (binade x) x

/-- Rounding of an exact result to a `double` in the default rounding mode (to nearest, ties
to even): from `2^1024 - 2^970` on, half a spacing above `DBL_MAX`, the result is an
infinity. -/
def round_double (x : ℚ) : CDouble :=
  if 2 ^ 1024 - 2 ^ 970 ≤ x then CDouble.pos_inf
  else if x ≤ -(2 ^ 1024 - 2 ^ 970) then CDouble.neg_inf
  else CDouble.finite (round_to_grid x)

/-- The operator `+` on `double`. -/
def double_add : CDouble → CDouble → CDouble
  | CDouble.finite a, CDouble.finite b => round_double (a + b)
  | CDouble.nan, _ => CDouble.nan
  | _, CDouble.nan => CDouble.nan
  | CDouble.pos_inf, CDouble.neg_inf => CDouble.nan
  | CDouble.neg_inf, CDouble.pos_inf => CDouble.nan
  | CDouble.pos_inf, _ => CDouble.pos_inf
  | CDouble.neg_inf, _ => CDouble.neg_inf
  | CDouble.finite _, CDouble.pos_inf => CDouble.pos_inf
  | CDouble.finite _, CDouble.neg_inf => CDouble.neg_inf

/-- The operator `-` on `double`. -/
def double_sub : CDouble → CDouble → CDouble
  | CDouble.finite a, CDouble.finite b => round_double (a - b)
  | CDouble.nan, _ => CDouble.nan
  | _, CDouble.nan => CDouble.nan
  | CDouble.pos_inf, CDouble.pos_inf => CDouble.nan
  | CDouble.neg_inf, CDouble.neg_inf => CDouble.nan
  | CDouble.pos_inf, _ => CDouble.pos_inf
  | CDouble.neg_inf, _ => CDouble.neg_inf
  | CDouble.finite _, CDouble.pos_inf => CDouble.neg_inf
  | CDouble.finite _, CDouble.neg_inf => CDouble.pos_inf

/-- The operator `<` on `double`: false as soon as one side is NaN. -/
def double_lt : CDouble → CDouble → Bool
  | CDouble.finite a, CDouble.finite b => decide (a < b)
  | CDouble.nan, _ => false
  | _, CDouble.nan => false
  | _, CDouble.neg_inf => false
  | CDouble.pos_inf, _ => false
  | CDouble.neg_inf, _ => true
  | CDouble.finite _, CDouble.pos_inf => true

/-- The operator `<=` on `double`: false as soon as one side is NaN. -/
def double_le : CDouble → CDouble → Bool
  | CDouble.finite a, CDouble.finite b => decide (a ≤ b)
  | CDouble.nan, _ => false
  | _, CDouble.nan => false
  | CDouble.neg_inf, _ => true
  | _, CDouble.pos_inf => true
  | CDouble.pos_inf, _ => false
  | CDouble.finite _, CDouble.neg_inf => false

/-- The library function `sqrt` of IEEE 754, which is correctly rounded, on a finite
argument: for `x > 0` the binary64 number nearest to the square root of `x`, ties to even.
With `2^e` the largest power of 2 that is at most the root and `u = 2^(e - 52)` the spacing
of the binary64 numbers there, `m = floor(sqrt(x) / u)` is an integer square root, and the
root lies below, above or at the midpoint `(m + 1/2) * u` as `x` compares to its square.  The
value 0 stands for the result on `x <= 0`: the code takes the root of a sum of squares. -/
def sqrt_double (x : ℚ) : ℚ :=
  if x ≤ 0 then 0
  else
    let e : Int := max (Int.log 2 x / 2) (-1022)
    let u : ℚ := 2 ^ (e - 52)
    let m : Nat := Nat.sqrt ⌊x / (u * u)⌋₊
    if x < ((m : ℚ) + 1 / 2) * ((m : ℚ) + 1 / 2) * (u * u) then (m : ℚ) * u
    else if ((m : ℚ) + 1 / 2) * ((m : ℚ) + 1 / 2) * (u * u) < x then ((m : ℚ) + 1) * u
    else if m % 2 = 0 then (m : ℚ) * u else ((m : ℚ) + 1) * u

/-! ## transaction.h, node.h, dag.h -/

/-- The record `Transaction`; `parents0` and `parents1` are `parents[0]` and `parents[1]`. -/
structure Transaction where
  tx_id : Int
  sender : Int
  receiver : Int
  amount : CDouble
  parents0 : Int
  parents1 : Int
  zone_id : Int
  phase : Int
  timestamp : ℚ

/-- An MPI communicator as one process sees it: what `MPI_Comm_size` and
`MPI_Comm_rank` report on it. -/
structure Comm where
  size : Nat
  rank : Nat

/-- The record `Node`; `zone_comm = none` is `MPI_COMM_NULL`. -/
structure Node where
  rank : Int
  total_nodes : Int
  zone_id : Int
  phase : Int
  x : ℚ
  y : ℚ
  latencies : Nat → ℚ
  affinity_counts : Nat → Int
  total_tx_count : Int
  zone_comm : Option Comm

/-- The record `DAG`: two parallel arrays, the number of stored transactions and the capacity. -/
structure DAG where
  transactions : Nat → Transaction
  weights : Nat → Int
  count : Nat
  capacity : Nat

/-- Placeholder content of memory that has been allocated but not written. -/
def blank_transaction : Transaction :=
  { tx_id := 0, sender := 0, receiver := 0, amount := CDouble.finite 0, parents0 := 0,
    parents1 := 0, zone_id := 0, phase := 0, timestamp := 0 }

/-! ## transaction.c -/

/-- Source `create_transaction`; `parents = none` is the null pointer. -/
def create_transaction (sender receiver : Int) (amount : CDouble)
    (parents : Option (Int × Int))
    (zone_id phase : Int) : Transaction :=
  { tx_id := 0
    sender := sender
    receiver := receiver
    amount := amount
    parents0 := match parents with
      | some p => p.1
      | none => -1
    parents1 := match parents with
      | some p => p.2
      | none => -1
    zone_id := zone_id
    phase := phase
    timestamp := 0 }

/-- Source `validate_transaction`. -/
def validate_transaction (tx : Transaction) : Int :=
  if double_le tx.amount (CDouble.finite 0) then 0
  else if tx.sender < 0 ∨ tx.receiver < 0 then 0
  else 1

/-! ## dag.c -/

/-- Source `create_dag`: `weights` comes from `calloc`, `transactions` from `malloc`. -/
def create_dag (capacity : Nat) : DAG :=
  { transactions := fun _ => blank_transaction
    weights := fun _ => 0
    count := 0
    capacity := capacity }

/-- Source `add_transaction`: the updated DAG and the returned flag. -/
def add_transaction (dag : DAG) (tx : Transaction) : DAG × Int :=
  if dag.count ≥ dag.capacity then (dag, 0)
  else
    ({ dag with
        transactions := Function.update dag.transactions dag.count tx
        weights := Function.update dag.weights dag.count 1
        count := dag.count + 1 }, 1)

/-- Source `get_weight`. -/
def get_weight (dag : DAG) (tx_id : Int) : Int :=
  if tx_id < 0 ∨ tx_id ≥ dag.count then 0 else dag.weights tx_id.toNat

/-- First loop of `update_weights`: `for (i = 0; i < count; i++) weights[i] = 1`. -/
def reset_weights (count : Nat) (weights : Nat → Int) : Nat → Int :=
  (List.range count).foldl (fun w i => Function.update w i 1) weights

/-- One step of the inner loop of `update_weights` for parent `i` and candidate child `j`. -/
def add_child_weight (dag : DAG) (i : Nat) (w : Nat → Int) (j : Nat) : Nat → Int :=
  if (dag.transactions j).parents0 = (i : Int) ∨ (dag.transactions j).parents1 = (i : Int) then
    Function.update w i (w i + c_int_of_double ((w j : ℚ) * WD_DECAY))
  else w

/-- Inner loop of `update_weights`: `for (j = i + 1; j < count; j++)`. -/
def add_children_weights (dag : DAG) (w : Nat → Int) (i : Nat) : Nat → Int :=
  (List.range' (i + 1) (dag.count - (i + 1))).foldl (add_child_weight dag i) w

/-- Source `update_weights`: reset, then `for (i = count - 1; i >= 0; i--)` the inner loop. -/
def update_weights (dag : DAG) : DAG :=
  { dag with
      weights := (List.range dag.count).reverse.foldl (add_children_weights dag)
        (reset_weights dag.count dag.weights) }

/-! ## weighted_dag.c -/

/-- The search loop of `weighted_dag_consensus`: the first index whose transaction has the
`tx_id` and `sender` of `tx`, or `-1`. -/
def find_tx_index (tx : Transaction) (dag : DAG) : Int :=
  match (List.range dag.count).find? (fun i =>
      decide ((dag.transactions i).tx_id = tx.tx_id ∧ (dag.transactions i).sender = tx.sender)) with
  | some i => (i : Int)
  | none => -1

/-- Source `weighted_dag_consensus`. -/
def weighted_dag_consensus (tx : Transaction) (_node : Node) (dag : DAG) : Int :=
  let tx_index := find_tx_index tx dag
  if tx_index = -1 then 0
  else
    let weight := get_weight dag tx_index
    if weight ≥ WD_MIN_WEIGHT then 1 else 0

/-! ## phases.h, phases.c -/

/-- The record `SlidingWindow`. -/
structure SlidingWindow where
  timestamps : Nat → ℚ
  head : Nat
  count : Nat
  capacity : Nat

/-- Source `create_window`. -/
def create_window (capacity : Nat) : SlidingWindow :=
  { timestamps := fun _ => 0, head := 0, count := 0, capacity := capacity }

/-- Source `add_timestamp`. -/
def add_timestamp (window : SlidingWindow) (timestamp : ℚ) : SlidingWindow :=
  { window with
      timestamps := Function.update window.timestamps window.head timestamp
      head := (window.head + 1) % window.capacity
      count := if window.count < window.capacity then window.count + 1 else window.count }

/-- The counting loop of `calculate_tps`: how many of the first `count` cells are younger than
`WINDOW_SIZE` seconds. -/
def valid_count (window : SlidingWindow) (current_time : ℚ) : Nat :=
  (List.range window.count).foldl
    (fun vc i => if current_time - window.timestamps i < (WINDOW_SIZE : ℚ) then vc + 1 else vc) 0

/-- Source `calculate_tps`. -/
def calculate_tps (window : SlidingWindow) (current_time : ℚ) : ℚ :=
  (valid_count window current_time : ℚ) / (WINDOW_SIZE : ℚ)

/-- The body of `detect_phase` once `tps` and `current_phase` have been read. -/
def detect_phase_of_tps (current_phase : Int) (tps : ℚ) : Int :=
  if current_phase = PHASE_HIGH then
    if tps < TAU_HIGH * (1 - HYSTERESIS) then
      (if tps > TAU_LOW then PHASE_NORMAL else PHASE_LOW)
    else current_phase
  else if current_phase = PHASE_NORMAL then
    if tps > TAU_HIGH * (1 + HYSTERESIS) then PHASE_HIGH
    else if tps < TAU_LOW * (1 - HYSTERESIS) then PHASE_LOW
    else current_phase
  else
    if tps > TAU_LOW * (1 + HYSTERESIS) then
      (if tps > TAU_HIGH then PHASE_HIGH else PHASE_NORMAL)
    else current_phase

/-- Source `detect_phase`. -/
def detect_phase (node : Node) (window : SlidingWindow) (current_time : ℚ) : Int :=
  detect_phase_of_tps node.phase (calculate_tps window current_time)

/-- The driver's phase step, `node->phase = detect_phase(node, window, current_time)`, run
over a sequence of windows; the list of phases it stores. -/
def run_detect_phase (node : Node) (current_time : ℚ) : List SlidingWindow → List Int
  | [] => []
  | window :: rest =>
    detect_phase node window current_time ::
      run_detect_phase { node with phase := detect_phase node window current_time }
        current_time rest

/-! ## consensus.c -/

/-- What the embedded interpreter hands back to `select_via_python`: no usable `select`
function (or no metrics dictionary), a call that raised, a result that is not a string, or a
string together with the C string `PyUnicode_AsUTF8` yields for it (`none` for `NULL`). -/
inductive AdvisorResult where
  | unavailable
  | raised
  | not_unicode
  | unicode (label : Option String)

/-- Source `map_label_to_algorithm`; `strcmp(a, b) == 0` is equality of C strings. -/
def map_label_to_algorithm (label : Option String) : Int :=
  match label with
  | none => -1
  | some l =>
    if l = "bft" ∨ l = "pbft" then CONSENSUS_BFT
    else if l = "dag" then CONSENSUS_WEIGHTED_DAG
    else if l = "fast_voting" ∨ l = "nakamoto" then CONSENSUS_FAST_VOTING
    else -1

/-- Source `select_via_python`, with the interpreter's answer for `(node, phase)` given. -/
def select_via_python (advisor : AdvisorResult) (_node : Node) (_phase : Int) : Int :=
  match advisor with
  | AdvisorResult.unavailable => -1
  | AdvisorResult.raised => -1
  | AdvisorResult.not_unicode => -1
  | AdvisorResult.unicode label => map_label_to_algorithm label

/-- Source `select_by_flowchart`; C's `%` is the truncating remainder. -/
def select_by_flowchart (node : Node) (phase : Int) : Int :=
  let permissioned := decide (Int.tmod node.zone_id 2 = 0)
  if permissioned then CONSENSUS_BFT
  else
    let high_scalability_needed := decide (phase = PHASE_HIGH)
    let tolerate_energy_usage := decide (phase ≠ PHASE_LOW)
    let decentralization_important := decide (phase ≠ PHASE_LOW)
    if high_scalability_needed then
      (if tolerate_energy_usage then CONSENSUS_FAST_VOTING else CONSENSUS_WEIGHTED_DAG)
    else if decentralization_important then CONSENSUS_WEIGHTED_DAG
    else CONSENSUS_BFT

/-- Source `get_consensus_algorithm`. -/
def get_consensus_algorithm (advisor : AdvisorResult) (node : Node) (phase : Int) : Int :=
  let ai_choice := select_via_python advisor node phase
  if ai_choice ≠ -1 then ai_choice else select_by_flowchart node phase

/-! ## bft.c -/

/-- The receive buffer after `MPI_Allgather`: cell `r` holds the vote sent by zone rank `r`,
the cell of the calling rank holds its own vote. -/
def allgather_votes (comm : Comm) (my_vote : Int) (peer_votes : Nat → Int) : Nat → Int :=
  Function.update peer_votes comm.rank my_vote

/-- The counting loop of `bft_consensus`. -/
def count_accepts (zone_size : Nat) (all_votes : Nat → Int) : Nat :=
  (List.range zone_size).foldl (fun accept_count i =>
    if all_votes i = 1 then accept_count + 1 else accept_count) 0

/-- Source `bft_consensus`; `peer_votes` are the votes the other zone members contribute to
the collective.  The MPI calls abort on `MPI_COMM_NULL`, which is the result `none`. -/
def bft_consensus (tx : Transaction) (node : Node) (peer_votes : Nat → Int) : Option Int :=
  match node.zone_comm with
  | none => none
  | some comm =>
    let zone_size := comm.size
    let my_vote : Int := if validate_transaction tx ≠ 0 then 1 else 0
    if zone_size ≤ 2 then some my_vote
    else
      let all_votes := allgather_votes comm my_vote peer_votes
      let accept_count := count_accepts zone_size all_votes
      let acceptance_ratio : ℚ := (accept_count : ℚ) / (zone_size : ℚ)
      if acceptance_ratio ≥ BFT_QUORUM then some 1 else some 0

/-! ## dag.c, continued -/

/-- Source `get_latest_transactions`: the two cells written into the returned array.  The array
has room for `count` cells, so a call with `count < 2` writes past it: `none`. -/
def get_latest_transactions (dag : DAG) (count : Nat) : Option (Int × Int) :=
  if count < 2 then none
  else if dag.count = 0 then some (-1, -1)
  else if dag.count = 1 then some (0, -1)
  else some ((dag.count : Int) - 2, (dag.count : Int) - 1)

/-! ## fast_voting.c -/

def FV_SAMPLE_SIZE : Nat := 10
def FV_QUORUM : Nat := 7
def FV_CONSECUTIVE_ROUNDS : Nat := 5

/-- The sampling loop of one round of `fast_voting_consensus`: the pair
`(accept_count, reject_count)`.  `samples k` is the value of the `k`-th call of `rand()`
made by the function. -/
def sample_votes (tx : Transaction) (zone_size : Nat) (samples : Nat → Nat) (round : Nat) :
    Nat × Nat :=
  (List.range FV_SAMPLE_SIZE).foldl (fun counts i =>
    let _sample_rank := samples (round * FV_SAMPLE_SIZE + i) % zone_size
    let vote : Int := if validate_transaction tx ≠ 0 then 1 else 0
    if vote = 1 then (counts.1 + 1, counts.2) else (counts.1, counts.2 + 1)) (0, 0)

/-- The round loop of `fast_voting_consensus` with `budget` rounds left, entered at loop
counter `round` with the given `preference` and `consecutive`: the returned value and the
number of sampling rounds executed when the function returns. -/
def fast_voting_rounds (tx : Transaction) (zone_size : Nat) (samples : Nat → Nat) :
    Nat → Nat → Int → Nat → Int × Nat
  | 0, round, _, _ => (0, round)
  | budget + 1, round, preference, consecutive =>
    let counts := sample_votes tx zone_size samples round
    let new_preference : Option Int :=
      if counts.1 ≥ FV_QUORUM then some 1
      else if counts.2 ≥ FV_QUORUM then some 0
      else none
    match new_preference with
    | none => fast_voting_rounds tx zone_size samples budget (round + 1) preference 0
    | some chosen =>
      let consecutive_next := if chosen = preference then consecutive + 1 else 1
      let preference_next := if chosen = preference then preference else chosen
      if consecutive_next ≥ FV_CONSECUTIVE_ROUNDS then (preference_next, round + 1)
      else
        fast_voting_rounds tx zone_size samples budget (round + 1) preference_next
          consecutive_next

/-- Source `fast_voting_consensus`, returning also the number of sampling rounds executed.
The MPI calls abort on `MPI_COMM_NULL`, which is the result `none`. -/
def fast_voting_run (tx : Transaction) (node : Node) (samples : Nat → Nat) :
    Option (Int × Nat) :=
  match node.zone_comm with
  | none => none
  | some comm =>
    let zone_size := comm.size
    if zone_size < FV_SAMPLE_SIZE then some (1, 0)
    else some (fast_voting_rounds tx zone_size samples (FV_CONSECUTIVE_ROUNDS + 10) 0 (-1) 0)

/-- Source `fast_voting_consensus`: the value returned. -/
def fast_voting_consensus (tx : Transaction) (node : Node) (samples : Nat → Nat) : Option Int :=
  (fast_voting_run tx node samples).map Prod.fst

/-! ## node.c -/

/-- Source `create_node`: both arrays come from `calloc`, the zone group is `MPI_COMM_NULL`. -/
def create_node (rank size : Int) : Node :=
  { rank := rank, total_nodes := size, zone_id := 0, phase := PHASE_NORMAL, x := 0, y := 0,
    latencies := fun _ => 0, affinity_counts := fun _ => 0, total_tx_count := 0,
    zone_comm := none }

/-! ## main.c: the parts of the loop body that touch the DAG, the window and the counters -/

/-- The local state the loop body works on. -/
structure DriverState where
  node : Node
  dag : DAG
  window : SlidingWindow
  tx_counter : Int

/-- The transaction the generation step builds (`main.c`, from `get_latest_transactions` to
`tx.timestamp = current_time`); `receiver` is `rand() % size` and `amount` is
`rand_double() * 100.0`, a finite value. -/
def generate_transaction (st : DriverState) (receiver : Int) (amount : ℚ) (current_time : ℚ) :
    Transaction :=
  { create_transaction st.node.rank receiver (CDouble.finite amount)
      (get_latest_transactions st.dag 2) st.node.zone_id st.node.phase with
    tx_id := st.tx_counter
    timestamp := current_time }

/-- The state changes of the generation step: `tx_counter++`, `add_transaction`,
`add_timestamp`, `total_tx_count++`. -/
def generate_step (st : DriverState) (receiver : Int) (amount : ℚ) (current_time : ℚ) :
    DriverState :=
  { node := { st.node with total_tx_count := st.node.total_tx_count + 1 }
    dag := (add_transaction st.dag (generate_transaction st receiver amount current_time)).1
    window := add_timestamp st.window current_time
    tx_counter := st.tx_counter + 1 }

/-- The body of the receive loop for one received transaction.  The counter cell is
`affinity_counts[received_tx.sender]`; senders are ranks, so `0 <= sender < total_nodes`
(outside this range the C code writes outside the array). -/
def receive_step (st : DriverState) (can_process : Bool) (received_tx : Transaction)
    (current_time : ℚ) : DriverState :=
  if can_process then
    { st with
        node := { st.node with
          affinity_counts := Function.update st.node.affinity_counts received_tx.sender.toNat
            (st.node.affinity_counts received_tx.sender.toNat + 1)
          total_tx_count := st.node.total_tx_count + 1 }
        dag := (add_transaction st.dag received_tx).1
        window := add_timestamp st.window current_time }
  else st

/-- What one pass of the loop body can do to the local state. -/
inductive DriverEvent where
  | detect (current_time : ℚ)
  | generate (receiver : Int) (amount : ℚ) (current_time : ℚ)
  | receive (can_process : Bool) (received_tx : Transaction) (current_time : ℚ)
  | weights
  | rebalance (zone_id : Int)

/-- The effect of one event on the local state. -/
def driver_step (st : DriverState) : DriverEvent → DriverState
  | DriverEvent.detect current_time =>
    { st with node := { st.node with phase := detect_phase st.node st.window current_time } }
  | DriverEvent.generate receiver amount current_time =>
    generate_step st receiver amount current_time
  | DriverEvent.receive can_process received_tx current_time =>
    receive_step st can_process received_tx current_time
  | DriverEvent.weights => { st with dag := update_weights st.dag }
  | DriverEvent.rebalance zone_id => { st with node := { st.node with zone_id := zone_id } }

/-- The local state after a sequence of events. -/
def driver_run (st : DriverState) (events : List DriverEvent) : DriverState :=
  events.foldl driver_step st

/-! ## zones.c -/

def MAX_ZONES : Nat := 4
def ZONE_REBALANCE_INTERVAL : ℚ := 300
def LATENCY_WEIGHT : ℚ := 6 / 10
def AFFINITY_WEIGHT : ℚ := 4 / 10

/-- The largest value of `rand()` (the glibc value; only `RAND_MAX > 0` matters). -/
def RAND_MAX : Nat := 2147483647

/-- The largest finite double, `(2 - 2^-52) * 2^1023`. -/
def DBL_MAX : ℚ := 2 ^ 1024 - 2 ^ 971

/-- The macro `MIN(a, b)`, `((a) < (b) ? (a) : (b))`. -/
def MIN (a b : ℚ) : ℚ := if a < b then a else b

/-- Source `compute_similarity`. -/
def compute_similarity (node : Node) (other_rank : Nat) : ℚ :=
  let norm_latency := node.latencies other_rank / 300
  let norm_latency := MIN norm_latency 1
  let affinity : ℚ :=
    if node.total_tx_count > 0 then
      (node.affinity_counts other_rank : ℚ) / (node.total_tx_count : ℚ)
    else 0
  LATENCY_WEIGHT * (1 - norm_latency) + AFFINITY_WEIGHT * affinity

/-- Source `compute_distance`; `sqrt` is the library function of that name. -/
def compute_distance (sqrt : ℚ → ℚ) (vec1 vec2 : Nat → ℚ) (dim : Nat) : ℚ :=
  sqrt ((List.range dim).foldl (fun sum i =>
    let diff := vec1 i - vec2 i
    sum + diff * diff) 0)

/-- The vector that starts at cell `i * n_nodes` of a row-major matrix. -/
def matrix_row (matrix : Nat → ℚ) (n_nodes i : Nat) : Nat → ℚ :=
  fun j => matrix (i * n_nodes + j)

/-- The loop over `j` of the assignment step in `kmeans_clustering`, for given distances:
`min_dist` starts at `INFINITY` (`none`), `best_cluster` at 0. -/
def nearest_cluster (dist : Nat → ℚ) (k : Nat) : Nat :=
  ((List.range k).foldl (fun (state : Option ℚ × Nat) j =>
    match state.1 with
    | none => (some (dist j), j)
    | some min_dist => if dist j < min_dist then (some (dist j), j) else state)
    (none, 0)).2

/-- The index of the nearest centroid of point `i`, as the assignment step computes it. -/
def best_cluster_of (sqrt : ℚ → ℚ) (similarity_matrix centroids : Nat → ℚ) (n_nodes k i : Nat) :
    Nat :=
  nearest_cluster (fun j =>
    compute_distance sqrt (matrix_row similarity_matrix n_nodes i)
      (matrix_row centroids n_nodes j) n_nodes) k

/-- The assignment step of `kmeans_clustering`: the new `assignments` and `cluster_sizes`. -/
def assignment_step (sqrt : ℚ → ℚ) (similarity_matrix centroids : Nat → ℚ) (n_nodes k : Nat)
    (assignments : Nat → Nat) : (Nat → Nat) × (Nat → Nat) :=
  (List.range n_nodes).foldl (fun state i =>
    let best_cluster := best_cluster_of sqrt similarity_matrix centroids n_nodes k i
    (Function.update state.1 i best_cluster,
      Function.update state.2 best_cluster (state.2 best_cluster + 1)))
    (assignments, fun _ => 0)

/-- The update step of `kmeans_clustering`: centroids zeroed, then every member's row added,
divided by the size of its cluster. -/
def update_step (similarity_matrix : Nat → ℚ) (n_nodes : Nat) (assignments : Nat → Nat)
    (cluster_sizes : Nat → Nat) : Nat → ℚ :=
  (List.range n_nodes).foldl (fun centroids i =>
    let cluster := assignments i
    if cluster_sizes cluster > 0 then
      (List.range n_nodes).foldl (fun cs j =>
        Function.update cs (cluster * n_nodes + j)
          (cs (cluster * n_nodes + j) +
            similarity_matrix (i * n_nodes + j) / (cluster_sizes cluster : ℚ))) centroids
    else centroids) (fun _ => 0)

/-- The convergence check of `kmeans_clustering`: the largest move of a centroid. -/
def max_change (sqrt : ℚ → ℚ) (centroids old_centroids : Nat → ℚ) (n_nodes k : Nat) : ℚ :=
  (List.range k).foldl (fun max_change i =>
    let change := compute_distance sqrt (matrix_row centroids n_nodes i)
      (matrix_row old_centroids n_nodes i) n_nodes
    if change > max_change then change else max_change) 0

/-- The iteration loop of `kmeans_clustering` with `fuel` iterations left. -/
def kmeans_loop (sqrt : ℚ → ℚ) (similarity_matrix : Nat → ℚ) (n_nodes k : Nat) :
    Nat → (Nat → ℚ) → (Nat → Nat) → Nat → Nat
  | 0, _, assignments => assignments
  | fuel + 1, centroids, assignments =>
    let old_centroids := centroids
    let assigned := assignment_step sqrt similarity_matrix centroids n_nodes k assignments
    let centroids := update_step similarity_matrix n_nodes assigned.1 assigned.2
    if max_change sqrt centroids old_centroids n_nodes k < 1 / 10000 then assigned.1
    else kmeans_loop sqrt similarity_matrix n_nodes k fuel centroids assigned.1

/-- The initialisation of the centroid table in `kmeans_clustering`: row `i` is the row of
the similarity matrix named by `initial_centroids[i]`, or by `rand() % n_nodes` when the
pointer is `NULL` (`none`). -/
def initial_centroid_table (similarity_matrix : Nat → ℚ) (n_nodes k : Nat)
    (initial_centroids : Option (Nat → Nat)) (samples : Nat → Nat) : Nat → ℚ :=
  (List.range k).foldl (fun centroids i =>
    let centroid_idx :=
      match initial_centroids with
      | some chosen => chosen i
      | none => samples i % n_nodes
    (List.range n_nodes).foldl (fun cs j =>
      Function.update cs (i * n_nodes + j) (similarity_matrix (centroid_idx * n_nodes + j)))
      centroids) (fun _ => 0)

/-- Source `kmeans_clustering`: the content of `assignments` on return. -/
def kmeans_clustering (sqrt : ℚ → ℚ) (similarity_matrix : Nat → ℚ) (n_nodes k : Nat)
    (initial_centroids : Option (Nat → Nat)) (assignments : Nat → Nat) (max_iterations : Nat)
    (samples : Nat → Nat) : Nat → Nat :=
  kmeans_loop sqrt similarity_matrix n_nodes k max_iterations
    (initial_centroid_table similarity_matrix n_nodes k initial_centroids samples) assignments

/-- The first loop of `kmeans_plusplus_init`: the largest entry of the matrix, at least 0. -/
def max_similarity (similarity_matrix : Nat → ℚ) (n_nodes : Nat) : ℚ :=
  (List.range (n_nodes * n_nodes)).foldl (fun max_sim i =>
    if similarity_matrix i > max_sim then similarity_matrix i else max_sim) 0

/-- The `already_selected` loop of `kmeans_plusplus_init`. -/
def already_selected (centroids : Nat → Nat) (c i : Nat) : Bool :=
  (List.range c).any (fun j => decide (centroids j = i))

/-- The `min_dist` loop of `kmeans_plusplus_init`: the pseudo-distance of `i` to the nearest
of the first `c` seeds. -/
def seed_min_dist (similarity_matrix : Nat → ℚ) (n_nodes : Nat) (max_sim : ℚ)
    (centroids : Nat → Nat) (c i : Nat) : ℚ :=
  (List.range c).foldl (fun min_dist j =>
    let centroid_idx := centroids j
    let dist := max_sim - similarity_matrix (i * n_nodes + centroid_idx) + 1 / 1000000
    if dist < min_dist then dist else min_dist) DBL_MAX

/-- The array `distances` that `kmeans_plusplus_init` fills for seed number `c`. -/
def seed_distances (similarity_matrix : Nat → ℚ) (n_nodes : Nat) (max_sim : ℚ)
    (centroids : Nat → Nat) (c : Nat) : Nat → ℚ :=
  fun i =>
    if already_selected centroids c i then 0
    else
      seed_min_dist similarity_matrix n_nodes max_sim centroids c i *
        seed_min_dist similarity_matrix n_nodes max_sim centroids c i

/-- The sum `total` of the first `n_nodes` cells of `distances`. -/
def seed_total (distances : Nat → ℚ) (n_nodes : Nat) : ℚ :=
  (List.range n_nodes).foldl (fun total i => total + distances i) 0

/-- The selection loop of `kmeans_plusplus_init`: the first `i` whose running sum reaches
`r`, if there is one (the loop breaks there). -/
def select_by_cumsum (distances : Nat → ℚ) (n_nodes : Nat) (r : ℚ) : Option Nat :=
  ((List.range n_nodes).foldl (fun (state : ℚ × Option Nat) i =>
    match state.2 with
    | some _ => state
    | none =>
      let cumsum := state.1 + distances i
      if cumsum ≥ r then (cumsum, some i) else (cumsum, none)) (0, none)).2

/-- One pass of the seed loop of `kmeans_plusplus_init`, for seed number `c`; `draw` is the
value of the `rand()` call of this pass. -/
def seed_step (similarity_matrix : Nat → ℚ) (n_nodes : Nat) (max_sim : ℚ)
    (centroids : Nat → Nat) (c draw : Nat) : Nat → Nat :=
  let distances := seed_distances similarity_matrix n_nodes max_sim centroids c
  let total := seed_total distances n_nodes
  if total > 1 / 10000000000 then
    let r := ((draw : ℚ) / (RAND_MAX : ℚ)) * total
    match select_by_cumsum distances n_nodes r with
    | some i => Function.update centroids c i
    | none => centroids
  else Function.update centroids c (draw % n_nodes)

/-- Source `kmeans_plusplus_init`: the content of `centroids` on return; `samples c` is the
value of the `rand()` call that decides seed number `c`. -/
def kmeans_plusplus_init (similarity_matrix : Nat → ℚ) (n_nodes k : Nat)
    (centroids : Nat → Nat) (samples : Nat → Nat) : Nat → Nat :=
  (List.range' 1 (k - 1)).foldl (fun cs c =>
    seed_step similarity_matrix n_nodes (max_similarity similarity_matrix n_nodes) cs c
      (samples c))
    (Function.update centroids 0 (samples 0 % n_nodes))

/-- The matrix `MPI_Allgather` assembles in `form_zones`: row `rank` is the caller's own
vector, the other rows are what the peers contribute. -/
def gather_similarities (node : Node) (peer_similarities : Nat → ℚ) : Nat → ℚ :=
  fun cell =>
    if cell / node.total_nodes.toNat = node.rank.toNat then
      compute_similarity node (cell % node.total_nodes.toNat)
    else peer_similarities cell

/-- The number of zones `form_zones` clusters into: `k_zones` limited to `[1, size]`, then
`MIN(max_k, n_nodes)` in `call_ai_zone_formation`. -/
def zone_count (k_zones size : Int) : Int :=
  let k_zones := if k_zones > size then size else k_zones
  let k_zones := if k_zones < 1 then 1 else k_zones
  if k_zones < size then k_zones else size

/-- Source `form_zones` (with `call_ai_zone_formation`, which always returns 0): the node with
its new `zone_id`.  `root_samples` are the `rand()` values of rank 0, whose seeds are
broadcast; `samples` are the caller's own. -/
def form_zones (sqrt : ℚ → ℚ) (node : Node) (k_zones : Int) (peer_similarities : Nat → ℚ)
    (root_samples samples : Nat → Nat) : Node :=
  let size := node.total_nodes.toNat
  let all_similarities := gather_similarities node peer_similarities
  let k_limit : Int := if k_zones > node.total_nodes then node.total_nodes else k_zones
  let k_limit : Int := if k_limit < 1 then 1 else k_limit
  let optimal_k : Int := zone_count k_zones node.total_nodes
  let seeds := kmeans_plusplus_init all_similarities size optimal_k.toNat (fun _ => 0)
    root_samples
  let zone_assignments :=
    if optimal_k ≤ 0 then
      kmeans_clustering sqrt all_similarities size k_limit.toNat none (fun _ => 0) 100 samples
    else
      kmeans_clustering sqrt all_similarities size optimal_k.toNat (some seeds) (fun _ => 0)
        100 samples
  { node with zone_id := (zone_assignments node.rank.toNat : Int) }

/-- The communicator `MPI_Comm_split(MPI_COMM_WORLD, colour, rank)` hands to participant
`rank`, when `colours` lists the colour every participant passes: its size is the number of
participants of the same colour, its rank the number of those with a lower global rank. -/
def comm_split (colours : List Int) (rank : Nat) : Comm :=
  { size := (colours.filter (fun c => decide (c = colours.getD rank 0))).length
    rank := ((colours.take rank).filter (fun c => decide (c = colours.getD rank 0))).length }

/-- Source `create_zone_communicator`; `zone_ids` lists the `zone_id` of every participant,
the caller's own at position `rank`. -/
def create_zone_communicator (node : Node) (zone_ids : List Int) : Node :=
  { node with
      zone_comm := some (comm_split (zone_ids.set node.rank.toNat node.zone_id)
        node.rank.toNat) }

/-- The array element test and the `neighbor_zones` update of `identify_witnesses`: a zone
already listed is skipped, a new one is appended; appending to a full array of `MAX_ZONES`
cells writes past it (`none`). -/
def add_neighbor_zone (neighbor_zones : List Int) (other_zone : Int) : Option (List Int) :=
  if neighbor_zones.any (fun z => decide (z = other_zone)) then some neighbor_zones
  else if neighbor_zones.length < MAX_ZONES then some (neighbor_zones ++ [other_zone])
  else none

/-- The loop over `j` of `identify_witnesses` for participant `i`: the distinct zones of the
peers `j != i` with `latencies[j] < 50`. -/
def neighbor_zones_of (node : Node) (zone_assignments : Nat → Int) (size i : Nat) :
    Option (List Int) :=
  (List.range size).foldl (fun state j =>
    match state with
    | none => none
    | some neighbor_zones =>
      if i = j then some neighbor_zones
      else if node.latencies j < 50 then add_neighbor_zone neighbor_zones (zone_assignments j)
      else some neighbor_zones) (some [])

/-- Source `identify_witnesses`: the first `count` cells of the returned array, and `count`;
`none` when a write went past `neighbor_zones`. -/
def identify_witnesses (node : Node) (zone_assignments : Nat → Int) (size : Nat) :
    Option (List Nat × Nat) :=
  (List.range size).foldl (fun state i =>
    match state with
    | none => none
    | some found =>
      match neighbor_zones_of node zone_assignments size i with
      | none => none
      | some neighbor_zones =>
        if neighbor_zones.length > 1 then some (found.1 ++ [i], found.2 + 1)
        else some found) (some ([], 0))

/-! ## main.c: deadlines and rebalancing -/

/-- The deadline `end_time = metrics->start_time + experiment_duration`, in double
arithmetic. -/
def end_time (start_time experiment_duration : CDouble) : CDouble :=
  double_add start_time experiment_duration

/-- The deadline `shutdown_time = end_time - 0.3`; the literal `0.3` is the double nearest to
3/10. -/
def shutdown_time (start_time experiment_duration : CDouble) : CDouble :=
  double_sub (end_time start_time experiment_duration) (round_double (3 / 10))

/-- The deadline `process_time = end_time - 0.1`; the literal `0.1` is the double nearest to
1/10. -/
def process_time (start_time experiment_duration : CDouble) : CDouble :=
  double_sub (end_time start_time experiment_duration) (round_double (1 / 10))

/-- The flag `can_generate = (current_time < shutdown_time)`. -/
def can_generate (start_time experiment_duration current_time : CDouble) : Bool :=
  double_lt current_time (shutdown_time start_time experiment_duration)

/-- The flag `can_process = (current_time < process_time)`. -/
def can_process (start_time experiment_duration current_time : CDouble) : Bool :=
  double_lt current_time (process_time start_time experiment_duration)

/-- What the generation block of one iteration does. -/
inductive GenerationOutcome where
  | nothing
  | generated_with_consensus
  | generated_without_consensus
  deriving DecidableEq

/-- The branch structure of the generation block: `if (can_generate && rand_double() <
TX_GENERATION_PROB) { ... if (can_process) consensus else record only }`; `fires` is the
outcome of the comparison with `TX_GENERATION_PROB`. -/
def generation_outcome (start_time experiment_duration current_time : CDouble)
    (fires : Bool) : GenerationOutcome :=
  if can_generate start_time experiment_duration current_time && fires then
    if can_process start_time experiment_duration current_time then
      GenerationOutcome.generated_with_consensus
    else GenerationOutcome.generated_without_consensus
  else GenerationOutcome.nothing

/-- The rebalancing block of the loop body: the node and the new value of the static
`last_rebalance`. -/
def rebalance_block (sqrt : ℚ → ℚ) (node : Node) (last_rebalance current_time : ℚ)
    (peer_similarities : Nat → ℚ) (root_samples samples : Nat → Nat) : Node × ℚ :=
  if current_time - last_rebalance > ZONE_REBALANCE_INTERVAL then
    (form_zones sqrt node MAX_ZONES peer_similarities root_samples samples, current_time)
  else (node, last_rebalance)

/-- The start-up sequence `form_zones(node, MAX_ZONES); create_zone_communicator(node)`;
`peer_zone_ids` lists the zone ids the other participants computed. -/
def initial_formation (sqrt : ℚ → ℚ) (node : Node) (peer_similarities : Nat → ℚ)
    (root_samples samples : Nat → Nat) (peer_zone_ids : List Int) : Node :=
  create_zone_communicator
    (form_zones sqrt node MAX_ZONES peer_similarities root_samples samples) peer_zone_ids

/-! ## Specification-side vocabulary and sample inputs -/

/-- Whether the stored transaction `j` counts as a child of index `i` in `update_weights`:
`j > i` and one of its parent slots holds `i`. -/
def is_child (dag : DAG) (i j : Nat) : Bool :=
  decide (i < j) &&
    (decide ((dag.transactions j).parents0 = (i : Int)) ||
      decide ((dag.transactions j).parents1 = (i : Int)))

/-- The stored indices that are children of `i`, in increasing order. -/
def children (dag : DAG) (i : Nat) : List Nat :=
  (List.range dag.count).filter (is_child dag i)

/-- The sum `S_i` of the stored weights of the children of `i`. -/
def child_weight_sum (dag : DAG) (i : Nat) : Int :=
  ((children dag i).map dag.weights).sum

/-- The recurrence as the specification writes it: `1 + floor(DECAY * S_i)`, decay and floor
applied to the sum. -/
def spec_weight (dag : DAG) (i : Nat) : Int :=
  1 + ⌊WD_DECAY * (child_weight_sum dag i : ℚ)⌋

/-- The recurrence with decay and truncation applied to each child separately:
`1 + Σ (int)(W[j] * DECAY)`. -/
def per_child_weight (dag : DAG) (i : Nat) : Int :=
  1 + ((children dag i).map (fun j => c_int_of_double ((dag.weights j : ℚ) * WD_DECAY))).sum

/-- The transaction `A` of the acceptance scenario. -/
def tx_A : Transaction :=
  { tx_id := 0, sender := 0, receiver := 1, amount := CDouble.finite 1,
    parents0 := -1, parents1 := -1,
    zone_id := 0, phase := 0, timestamp := 0 }

/-- A child of `A`: `parents[0] = 0`, no second parent. -/
def child_of_A (id : Nat) : Transaction :=
  { tx_id := id, sender := 0, receiver := 1, amount := CDouble.finite 1,
    parents0 := 0, parents1 := -1,
    zone_id := 0, phase := 0, timestamp := 0 }

/-- A full DAG of eleven transactions: `A` at index 0 and ten children of `A`. -/
def fan10 : DAG :=
  { transactions := fun j => if j = 0 then tx_A else child_of_A j
    weights := fun _ => 1
    count := 11
    capacity := 11 }

/-- Append `n` further children of `A`, one `add_transaction` each; the child stored at index
`k` gets `tx_id = k`. -/
def add_children : Nat → DAG → DAG
  | 0, dag => dag
  | n + 1, dag => add_children n (add_transaction dag (child_of_A dag.count)).1

/-- The acceptance scenario after its first pass: `A`, twenty children, `update_weights`. -/
def scenario_first : DAG :=
  update_weights (add_children 20 (add_transaction (create_dag MAX_TRANSACTIONS) tx_A).1)

/-- The acceptance scenario after its second pass: forty more children, `update_weights`. -/
def scenario_second : DAG :=
  update_weights (add_children 40 scenario_first)

/-- A participant of zone 1 in phase NORMAL, as `create_node` leaves it otherwise. -/
def sample_node : Node :=
  { rank := 0, total_nodes := 4, zone_id := 1, phase := PHASE_NORMAL, x := 0, y := 0,
    latencies := fun _ => 0, affinity_counts := fun _ => 0, total_tx_count := 0,
    zone_comm := none }

/-- A weight table whose first `n` cells all hold `1`. -/
def all_one (n : Nat) (w : Nat → Int) : Prop := ∀ k, k < n → w k = 1

/-- The transition table as the specification writes it, with the default thresholds
`tau_H = 50`, `tau_L = 10`, `h = 0.1` worked out: rows in the order of the table, the current
phase when no row applies. -/
def spec_phase_table (cur : Int) (tps : ℚ) : Int :=
  if cur = PHASE_HIGH ∧ tps < 45 ∧ tps > 10 then PHASE_NORMAL
  else if cur = PHASE_HIGH ∧ tps < 45 ∧ tps ≤ 10 then PHASE_LOW
  else if cur = PHASE_NORMAL ∧ tps > 55 then PHASE_HIGH
  else if cur = PHASE_NORMAL ∧ tps < 9 then PHASE_LOW
  else if cur = PHASE_LOW ∧ tps > 11 ∧ tps ≤ 50 then PHASE_NORMAL
  else if cur = PHASE_LOW ∧ tps > 11 ∧ tps > 50 then PHASE_HIGH
  else cur

/-- A window as `create_window (WINDOW_SIZE * 100)` and `n` calls `add_timestamp window 0`
leave it (for `n` below the capacity): `n` events, all stamped at time 0. -/
def window_of_count (n : Nat) : SlidingWindow :=
  { timestamps := fun _ => 0, head := n % (WINDOW_SIZE * 100), count := n,
    capacity := WINDOW_SIZE * 100 }

/-- Windows whose tps estimate at time 0 is 0, 55, 48, 11 and 9. -/
def load_windows : List SlidingWindow :=
  [window_of_count 0, window_of_count 3300, window_of_count 2880, window_of_count 660,
    window_of_count 540]

/-- A participant in phase LOW. -/
def low_node : Node :=
  { rank := 0, total_nodes := 4, zone_id := 1, phase := PHASE_LOW, x := 0, y := 0,
    latencies := fun _ => 0, affinity_counts := fun _ => 0, total_tx_count := 0,
    zone_comm := none }

/-- Whether the stored transaction at index `i` has the `tx_id` and the `sender` of `tx`. -/
def same_tx (dag : DAG) (tx : Transaction) (i : Nat) : Prop :=
  (dag.transactions i).tx_id = tx.tx_id ∧ (dag.transactions i).sender = tx.sender

/-- The gathered vote vector: the first `zone_size` cells of the receive buffer. -/
def vote_vector (zone_size : Nat) (all_votes : Nat → Int) : List Int :=
  (List.range zone_size).map all_votes

/-- A participant of the even zone 2. -/
def even_zone_node : Node :=
  { rank := 0, total_nodes := 4, zone_id := 2, phase := PHASE_HIGH, x := 0, y := 0,
    latencies := fun _ => 0, affinity_counts := fun _ => 0, total_tx_count := 0,
    zone_comm := none }

/-- A transaction that no cell of `fan10` matches: its sender is 5. -/
def stranger_tx : Transaction :=
  { tx_id := 0, sender := 5, receiver := 1, amount := CDouble.finite 1,
    parents0 := -1, parents1 := -1,
    zone_id := 0, phase := 0, timestamp := 0 }

/-- A participant whose zone group has `size` members and in which it has rank 0. -/
def zone_member (size : Nat) : Node :=
  { rank := 0, total_nodes := 6, zone_id := 0, phase := PHASE_LOW, x := 0, y := 0,
    latencies := fun _ => 0, affinity_counts := fun _ => 0, total_tx_count := 0,
    zone_comm := some { size := size, rank := 0 } }

/-- Votes of the peers in a zone of three: rank 1 accepts, rank 2 rejects. -/
def peers_of_three : Nat → Int := fun r => if r = 1 then 1 else 0

/-- Votes of the peers in a zone of six: ranks 1, 2, 3 accept, ranks 4, 5 reject. -/
def peers_of_six : Nat → Int := fun r => if r = 1 ∨ r = 2 ∨ r = 3 then 1 else 0

/-- A transaction with a positive amount and a negative sender. -/
def negative_sender_tx : Transaction :=
  { tx_id := 0, sender := -1, receiver := 1, amount := CDouble.finite 1,
    parents0 := -1, parents1 := -1,
    zone_id := 0, phase := 0, timestamp := 0 }

/-- The DAG states reachable from `create_dag` by `add_transaction` and `update_weights`. -/
inductive dag_reachable : DAG → Prop where
  | create (capacity : Nat) : dag_reachable (create_dag capacity)
  | add (dag : DAG) (tx : Transaction) :
      dag_reachable dag → dag_reachable (add_transaction dag tx).1
  | update (dag : DAG) : dag_reachable dag → dag_reachable (update_weights dag)

/-- The timestamps a ring of capacity `c` still holds after `added` have been added in this
order: the last `min n c` of them. -/
def last_added (added : List ℚ) (c : Nat) : List ℚ :=
  added.drop (added.length - min added.length c)

/-- The tps estimate as the specification writes it, over the timestamps still held. -/
def spec_tps (added : List ℚ) (c : Nat) (now : ℚ) : ℚ :=
  (((last_added added c).countP (fun t => decide (now - t < (WINDOW_SIZE : ℚ))) : Nat) : ℚ)
    / (WINDOW_SIZE : ℚ)

/-- A parent slot that is either `-1` or an index in `[0, c)`. -/
def parent_slot_ok (slot : Int) (c : Nat) : Prop :=
  slot = -1 ∨ (0 ≤ slot ∧ slot < (c : Int))

/-- The indices at which the generation events of a run store their transaction. -/
def local_indices : DriverState → List DriverEvent → List Nat
  | _, [] => []
  | st, DriverEvent.generate receiver amount current_time :: rest =>
    (if st.dag.count < st.dag.capacity then [st.dag.count] else []) ++
      local_indices (driver_step st (DriverEvent.generate receiver amount current_time)) rest
  | st, event :: rest => local_indices (driver_step st event) rest

/-- The local state when the loop starts, for participant `rank` of `size`. -/
def initial_state (rank size : Int) : DriverState :=
  { node := create_node rank size
    dag := create_dag MAX_TRANSACTIONS
    window := create_window (WINDOW_SIZE * 100)
    tx_counter := 0 }

/-- The first transaction of the participant of rank 2, generated on its empty DAG. -/
def third_tx : Transaction :=
  generate_transaction (initial_state 2 4) 1 10 0

/-- The local state of the peer of rank 1 after it has received `third_tx`. -/
def peer_state : DriverState :=
  driver_run (initial_state 1 4) [DriverEvent.receive true third_tx 0]

/-- The transaction the peer of rank 1 generates in `peer_state`: its first parent is the
peer's index 0, where `third_tx` is stored. -/
def peer_tx : Transaction :=
  { tx_id := 0, sender := 1, receiver := 0, amount := CDouble.finite 10,
    parents0 := 0, parents1 := -1,
    zone_id := 0, phase := 1, timestamp := 0 }

/-- A run in which a received transaction is stored between two locally generated ones. -/
def mixed_events : List DriverEvent :=
  [DriverEvent.generate 1 10 0, DriverEvent.receive true peer_tx 1,
    DriverEvent.generate 1 20 2]

/-- A participant whose zone group has `size` members, in an odd zone. -/
def voter (size : Nat) : Node :=
  { rank := 0, total_nodes := 20, zone_id := 1, phase := PHASE_HIGH, x := 0, y := 0,
    latencies := fun _ => 0, affinity_counts := fun _ => 0, total_tx_count := 0,
    zone_comm := some { size := size, rank := 0 } }

/-- The function `clamp(x, lo, hi)` of the specification. -/
def clamp (x lo hi : ℚ) : ℚ := max lo (min x hi)

/-- The similarity as the specification writes it, with `W_LAT = 0.6`, `W_AFF = 0.4`,
`LAT_MAX = 300` and the normalised latency clamped to `[0, 1]`. -/
def spec_similarity (node : Node) (j : Nat) : ℚ :=
  6 / 10 * (1 - clamp (node.latencies j / 300) 0 1) +
    4 / 10 * ((node.affinity_counts j : ℚ) / ((max 1 node.total_tx_count : Int) : ℚ))

/-- A node state with a negative latency entry. -/
def negative_latency_node : Node :=
  { rank := 0, total_nodes := 2, zone_id := 0, phase := PHASE_NORMAL, x := 0, y := 0,
    latencies := fun _ => -300, affinity_counts := fun _ => 0, total_tx_count := 0,
    zone_comm := none }

/-- A node state whose affinity counter for peer 1 is 3 while `total_tx_count` is 0. -/
def stale_counter_node : Node :=
  { rank := 0, total_nodes := 2, zone_id := 0, phase := PHASE_NORMAL, x := 0, y := 0,
    latencies := fun _ => 30, affinity_counts := fun j => if j = 1 then 3 else 0,
    total_tx_count := 0, zone_comm := none }

/-- A node state as it occurs in a run: latency 30 ms to peer 1, 3 of 12 transactions from
peer 1. -/
def busy_node : Node :=
  { rank := 0, total_nodes := 2, zone_id := 0, phase := PHASE_NORMAL, x := 0, y := 0,
    latencies := fun _ => 30, affinity_counts := fun j => if j = 1 then 3 else 0,
    total_tx_count := 12, zone_comm := none }

/-- The decayed weight of one child rounded down, `floor(W[j] * DECAY)`, summed over the
children of `i`, plus 1. -/
def floor_per_child_weight (dag : DAG) (i : Nat) : Int :=
  1 + ((children dag i).map (fun j => ⌊(dag.weights j : ℚ) * WD_DECAY⌋)).sum

/-- A DAG that has reached its capacity `MAX_TRANSACTIONS`. -/
def full_dag : DAG :=
  { transactions := fun _ => tx_A
    weights := fun _ => 1
    count := MAX_TRANSACTIONS
    capacity := MAX_TRANSACTIONS }

/-- A local state whose DAG is full. -/
def full_state : DriverState :=
  { node := create_node 0 4
    dag := full_dag
    window := create_window (WINDOW_SIZE * 100)
    tx_counter := 0 }

/-- The zones of the peers `j != i` (below `size`) whose latency entry is under 50 ms. -/
def near_zones (node : Node) (zone_assignments : Nat → Int) (size i : Nat) : Finset Int :=
  (((List.range size).filter (fun j => decide (i ≠ j) && decide (node.latencies j < 50))).map
    zone_assignments).toFinset

/-- The participants the specification calls witnesses, in increasing order: those whose near
peers belong to more than one distinct zone. -/
def spec_witnesses (node : Node) (zone_assignments : Nat → Int) (size : Nat) : List Nat :=
  (List.range size).filter (fun i => decide (1 < (near_zones node zone_assignments size i).card))

/-- A node with four peers at 10 ms and one at 80 ms. -/
def hub_node : Node :=
  { rank := 0, total_nodes := 5, zone_id := 0, phase := PHASE_NORMAL, x := 0, y := 0,
    latencies := fun j => if j = 4 then 80 else 10, affinity_counts := fun _ => 0,
    total_tx_count := 0, zone_comm := none }

/-- Zone assignment with two zones: participant 1 alone in zone 1. -/
def two_zones : Nat → Int := fun j => if j = 1 then 1 else 0

/-- A 2 x 2 similarity matrix: 0.6 on the diagonal, 0 elsewhere. -/
def corner_matrix : Nat → ℚ := fun cell => if cell = 0 ∨ cell = 3 then 3 / 5 else 0

/-- The zone ids of five participants after the start-up formation. -/
def startup_zone_ids : List Int := [0, 0, 1, 2, 3]

/-- The zone ids of the five participants after a rebalancing in which participant 0 moved
to zone 1 and participant 2 to zone 0. -/
def rebalanced_zone_ids : List Int := [1, 0, 0, 2, 3]

/-- Participant 0 of five after the start-up sequence: zone 0, zone group of zone 0. -/
def member_after_startup : Node :=
  create_zone_communicator (create_node 0 5) startup_zone_ids

/-- The local state of participant 0 of five after the start-up sequence. -/
def state_after_startup : DriverState :=
  { node := member_after_startup
    dag := create_dag MAX_TRANSACTIONS
    window := create_window (WINDOW_SIZE * 100)
    tx_counter := 0 }

/-- The number of generation events in a run: the transactions generated locally. -/
def generated_count : List DriverEvent → Nat
  | [] => 0
  | DriverEvent.generate _ _ _ :: rest => generated_count rest + 1
  | _ :: rest => generated_count rest

/-- A received transaction carries the rank of the participant that generated it
(`create_transaction(rank, ...)` in `main.c`), one of the `size` ranks. -/
def sender_in_range (size : Int) : DriverEvent → Prop
  | DriverEvent.receive _ received_tx _ => 0 ≤ received_tx.sender ∧ received_tx.sender < size
  | _ => True

/-- The affinity term of `compute_similarity`: what the returned value holds on top of the
latency term `LATENCY_WEIGHT * (1.0 - norm_latency)`. -/
def affinity_term (node : Node) (j : Nat) : ℚ :=
  compute_similarity node j - LATENCY_WEIGHT * (1 - MIN (node.latencies j / 300) 1)

/-- A transaction whose amount is NaN, with sender 0 and receiver 1. -/
def nan_amount_tx : Transaction :=
  { tx_id := 0, sender := 0, receiver := 1, amount := CDouble.nan, parents0 := -1,
    parents1 := -1, zone_id := 0, phase := 0, timestamp := 0 }

/-- The squared Euclidean distance of two vectors of dimension `dim`; the Euclidean distance
is its square root, so one distance is below another exactly when the squares are. -/
def squared_distance (vec1 vec2 : Nat → ℚ) (dim : Nat) : ℚ :=
  ∑ i in Finset.range dim, (vec1 i - vec2 i) ^ 2

/-- The squared Euclidean distance between row `i` of the similarity matrix and centroid
`j`. -/
def point_distance2 (similarity_matrix centroids : Nat → ℚ) (n_nodes i j : Nat) : ℚ :=
  squared_distance (matrix_row similarity_matrix n_nodes i) (matrix_row centroids n_nodes j)
    n_nodes

/-- A similarity matrix of two nodes whose row 0 is `(1, 2^-26)`. -/
def merge_matrix : Nat → ℚ :=
  fun cell => if cell = 0 then 1 else if cell = 1 then 1 / 2 ^ 26 else 0

/-- The two centroids `(0, 0)` and `(0, 2^-26)`. -/
def merge_centroids : Nat → ℚ := fun cell => if cell = 3 then 1 / 2 ^ 26 else 0

/-- The matrix with the rows `(0, 0)` and `(1, 0)`, also the table of two centroids that are
these rows. -/
def unit_matrix : Nat → ℚ := fun cell => if cell = 2 then 1 else 0

/-! ## Facts about `update_weights` -/

theorem c_int_of_double_decay_one : c_int_of_double (((1 : Int) : ℚ) * WD_DECAY) = 0 := by
  unfold c_int_of_double WD_DECAY
  norm_num

theorem reset_weights_apply (n : Nat) (w : Nat → Int) (k : Nat) :
    reset_weights n w k = if k < n then 1 else w k := by
  unfold reset_weights
  induction n with
  | zero => simp
  | succ n ih =>
    rw [List.range_succ, List.foldl_append]
    simp only [List.foldl_cons, List.foldl_nil]
    by_cases hk : k = n
    · subst hk
      simp
    · rw [Function.update_noteq hk, ih]
      by_cases h1 : k < n
      · simp [h1, Nat.lt_succ_of_lt h1]
      · have h2 : ¬ k < n + 1 := by omega
        simp [h1, h2]

theorem add_child_weight_all_one (dag : DAG) (i j : Nat) (w : Nat → Int)
    (hw : all_one dag.count w) (hj : j < dag.count) : add_child_weight dag i w j = w := by
  unfold add_child_weight
  split
  · rw [hw j hj, c_int_of_double_decay_one, add_zero, Function.update_eq_self]
  · rfl

theorem foldl_add_child_weight_all_one (dag : DAG) (i : Nat) (l : List Nat) (w : Nat → Int)
    (hw : all_one dag.count w) (hl : ∀ j ∈ l, j < dag.count) :
    l.foldl (add_child_weight dag i) w = w := by
  induction l with
  | nil => rfl
  | cons j l ih =>
    rw [List.foldl_cons, add_child_weight_all_one dag i j w hw (hl j (List.mem_cons_self j l))]
    exact ih (fun k hk => hl k (List.mem_cons_of_mem j hk))

theorem add_children_weights_all_one (dag : DAG) (i : Nat) (w : Nat → Int)
    (hw : all_one dag.count w) : add_children_weights dag w i = w := by
  unfold add_children_weights
  apply foldl_add_child_weight_all_one dag i _ w hw
  intro j hj
  rw [List.mem_range'_1] at hj
  omega

theorem foldl_add_children_weights_all_one (dag : DAG) (l : List Nat) (w : Nat → Int)
    (hw : all_one dag.count w) : l.foldl (add_children_weights dag) w = w := by
  induction l with
  | nil => rfl
  | cons i l ih => rw [List.foldl_cons, add_children_weights_all_one dag i w hw]; exact ih

theorem update_weights_weights (dag : DAG) (k : Nat) :
    (update_weights dag).weights k = if k < dag.count then 1 else dag.weights k := by
  have hw : all_one dag.count (reset_weights dag.count dag.weights) := by
    intro k hk
    rw [reset_weights_apply, if_pos hk]
  show (List.range dag.count).reverse.foldl (add_children_weights dag)
      (reset_weights dag.count dag.weights) k = _
  rw [foldl_add_children_weights_all_one dag _ _ hw, reset_weights_apply]

theorem children_lt_count (dag : DAG) (i j : Nat) (hj : j ∈ children dag i) : j < dag.count := by
  unfold children at hj
  rw [List.mem_filter, List.mem_range] at hj
  exact hj.1

theorem children_update_weights (dag : DAG) (i : Nat) :
    children (update_weights dag) i = children dag i := rfl

theorem children_fan10 : children fan10 0 = [1, 2, 3, 4, 5, 6, 7, 8, 9, 10] := by
  decide

/-- C1, counterexample: on the DAG `fan10` (index 0 with ten children) the pass leaves
`W[0] = 1`, while `1 + floor(DECAY * S_0)` over the final weights is `2`. -/
theorem update_weights_not_floor_of_sum :
    0 < fan10.count ∧ (update_weights fan10).weights 0 = 1 ∧
      spec_weight (update_weights fan10) 0 = 2 ∧
      (update_weights fan10).weights 0 ≠ spec_weight (update_weights fan10) 0 := by
  have h1 : (update_weights fan10).weights 0 = 1 := by
    rw [update_weights_weights]; rfl
  have h2 : spec_weight (update_weights fan10) 0 = 2 := by
    unfold spec_weight child_weight_sum
    rw [children_update_weights, children_fan10]
    simp only [List.map_cons, List.map_nil, update_weights_weights]
    norm_num [fan10, WD_DECAY]
  refine ⟨by decide, h1, h2, ?_⟩
  rw [h1, h2]; decide

/-- C1, amended: after `update_weights`, for every `i < count`,
`W[i] = 1 + Σ (int)(W[j] * DECAY)` over the children `j > i` of `i`, with `W[j]` the final
weight: decay and truncation are applied to each child separately, before summing. -/
theorem update_weights_per_child_recurrence (dag : DAG) (i : Nat) (hi : i < dag.count) :
    (update_weights dag).weights i = per_child_weight (update_weights dag) i := by
  unfold per_child_weight
  rw [children_update_weights, update_weights_weights, if_pos hi]
  have hz : (children dag i).map
      (fun j => c_int_of_double (((update_weights dag).weights j : ℚ) * WD_DECAY))
      = (children dag i).map (fun _ => (0 : Int)) := by
    apply List.map_congr_left
    intro j hj
    rw [update_weights_weights, if_pos (children_lt_count dag i j hj)]
    exact c_int_of_double_decay_one
  rw [hz]
  simp

theorem update_weights_per_child_recurrence_witness :
    0 < fan10.count ∧
      (update_weights fan10).weights 0 = per_child_weight (update_weights fan10) 0 :=
  ⟨by decide, update_weights_per_child_recurrence fan10 0 (by decide)⟩

/-! ## The acceptance scenario -/

theorem add_transaction_of_lt (dag : DAG) (tx : Transaction) (h : dag.count < dag.capacity) :
    add_transaction dag tx =
      ({ dag with
          transactions := Function.update dag.transactions dag.count tx
          weights := Function.update dag.weights dag.count 1
          count := dag.count + 1 }, 1) := by
  unfold add_transaction
  rw [if_neg (by omega)]

theorem add_children_spec (n : Nat) (dag : DAG) (h : dag.count + n ≤ dag.capacity) :
    (add_children n dag).count = dag.count + n ∧
      (add_children n dag).capacity = dag.capacity ∧
      ∀ k, (add_children n dag).transactions k =
        if dag.count ≤ k ∧ k < dag.count + n then child_of_A k else dag.transactions k := by
  induction n generalizing dag with
  | zero =>
    refine ⟨rfl, rfl, ?_⟩
    intro k
    have : ¬ (dag.count ≤ k ∧ k < dag.count + 0) := by omega
    rw [if_neg this]; rfl
  | succ n ih =>
    have hlt : dag.count < dag.capacity := by omega
    have hstep : add_children (n + 1) dag =
        add_children n (add_transaction dag (child_of_A dag.count)).1 := rfl
    rw [hstep, add_transaction_of_lt dag _ hlt]
    obtain ⟨h1, h2, h3⟩ := ih
      { dag with
          transactions := Function.update dag.transactions dag.count (child_of_A dag.count)
          weights := Function.update dag.weights dag.count 1
          count := dag.count + 1 } (by show dag.count + 1 + n ≤ dag.capacity; omega)
    refine ⟨?_, h2, ?_⟩
    · rw [h1]; show dag.count + 1 + n = dag.count + (n + 1); omega
    · intro k
      rw [h3]
      show (if dag.count + 1 ≤ k ∧ k < dag.count + 1 + n then child_of_A k
        else Function.update dag.transactions dag.count (child_of_A dag.count) k) = _
      by_cases hk : k = dag.count
      · subst hk
        have c1 : ¬ (dag.count + 1 ≤ dag.count ∧ dag.count < dag.count + 1 + n) := by omega
        have c2 : dag.count ≤ dag.count ∧ dag.count < dag.count + (n + 1) := by omega
        rw [if_neg c1, if_pos c2, Function.update_same]
      · rw [Function.update_noteq hk]
        by_cases hr : dag.count + 1 ≤ k ∧ k < dag.count + 1 + n
        · have c2 : dag.count ≤ k ∧ k < dag.count + (n + 1) := by omega
          rw [if_pos hr, if_pos c2]
        · have c2 : ¬ (dag.count ≤ k ∧ k < dag.count + (n + 1)) := by omega
          rw [if_neg hr, if_neg c2]

theorem update_weights_count (dag : DAG) : (update_weights dag).count = dag.count := rfl

theorem update_weights_capacity (dag : DAG) : (update_weights dag).capacity = dag.capacity := rfl

theorem update_weights_transactions (dag : DAG) :
    (update_weights dag).transactions = dag.transactions := rfl

theorem scenario_first_eq : scenario_first =
    update_weights (add_children 20 (add_transaction (create_dag MAX_TRANSACTIONS) tx_A).1) := rfl

theorem scenario_second_eq :
    scenario_second = update_weights (add_children 40 scenario_first) := rfl

theorem scenario_first_shape :
    scenario_first.count = 21 ∧ scenario_first.capacity = MAX_TRANSACTIONS ∧
      scenario_first.transactions 0 = tx_A ∧
      ∀ k, 1 ≤ k → k < 21 → scenario_first.transactions k = child_of_A k := by
  have hbase : (add_transaction (create_dag MAX_TRANSACTIONS) tx_A).1 =
      { transactions := Function.update (fun _ => blank_transaction) 0 tx_A
        weights := Function.update (fun _ => 0) 0 1
        count := 1
        capacity := MAX_TRANSACTIONS } := by
    rw [add_transaction_of_lt _ _ (by decide)]; rfl
  obtain ⟨h1, h2, h3⟩ := add_children_spec 20
    (add_transaction (create_dag MAX_TRANSACTIONS) tx_A).1
    (by rw [hbase]; show 1 + 20 ≤ 100000; omega)
  rw [hbase] at h1 h2 h3
  simp only [] at h1 h2 h3
  rw [scenario_first_eq, update_weights_count, update_weights_capacity,
    update_weights_transactions, hbase]
  refine ⟨h1, h2, ?_, ?_⟩
  · rw [h3 0]
    have c : ¬ ((1 : Nat) ≤ 0 ∧ 0 < 1 + 20) := by omega
    rw [if_neg c]
    exact Function.update_same 0 _ _
  · intro k hk1 hk2
    rw [h3 k]
    have c : (1 : Nat) ≤ k ∧ k < 1 + 20 := by omega
    rw [if_pos c]

theorem scenario_second_shape :
    scenario_second.count = 61 ∧ scenario_second.transactions 0 = tx_A ∧
      ∀ k, 1 ≤ k → k < 61 → scenario_second.transactions k = child_of_A k := by
  obtain ⟨f1, f2, f3, f4⟩ := scenario_first_shape
  obtain ⟨h1, _, h3⟩ := add_children_spec 40 scenario_first
    (by rw [f1, f2]; show 21 + 40 ≤ 100000; omega)
  rw [f1] at h1 h3
  rw [scenario_second_eq, update_weights_count, update_weights_transactions]
  refine ⟨h1, ?_, ?_⟩
  · rw [h3 0]
    have c : ¬ ((21 : Nat) ≤ 0 ∧ 0 < 21 + 40) := by omega
    rw [if_neg c, f3]
  · intro k hk1 hk2
    rw [h3 k]
    by_cases c : (21 : Nat) ≤ k ∧ k < 21 + 40
    · rw [if_pos c]
    · rw [if_neg c]; exact f4 k hk1 (by omega)

theorem find_tx_index_zero (tx : Transaction) (dag : DAG) (hc : 0 < dag.count)
    (hid : (dag.transactions 0).tx_id = tx.tx_id)
    (hs : (dag.transactions 0).sender = tx.sender) : find_tx_index tx dag = 0 := by
  unfold find_tx_index
  obtain ⟨n, hn⟩ : ∃ n, dag.count = n + 1 := ⟨dag.count - 1, by omega⟩
  rw [hn, List.range_succ_eq_map, List.find?_cons]
  simp [hid, hs]

theorem get_weight_zero (dag : DAG) (hc : 0 < dag.count) :
    get_weight dag 0 = dag.weights 0 := by
  unfold get_weight
  have c : ¬ ((0 : Int) < 0 ∨ (0 : Int) ≥ (dag.count : Int)) := by omega
  rw [if_neg c]
  rfl

theorem scenario_first_weight : scenario_first.weights 0 = 1 := by
  have c : 0 < scenario_first.count := by rw [scenario_first_shape.1]; omega
  rw [scenario_first_eq] at c ⊢
  rw [update_weights_count] at c
  rw [update_weights_weights, if_pos c]

theorem scenario_second_weight : scenario_second.weights 0 = 1 := by
  have c : 0 < scenario_second.count := by rw [scenario_second_shape.1]; omega
  rw [scenario_second_eq] at c ⊢
  rw [update_weights_count] at c
  rw [update_weights_weights, if_pos c]

theorem scenario_second_verdict :
    weighted_dag_consensus tx_A sample_node scenario_second = 0 := by
  obtain ⟨s1, s3, _⟩ := scenario_second_shape
  have hc : 0 < scenario_second.count := by rw [s1]; omega
  unfold weighted_dag_consensus
  simp only [find_tx_index_zero tx_A scenario_second hc (by rw [s3]) (by rw [s3]),
    get_weight_zero scenario_second hc, scenario_second_weight]
  decide

/-- The acceptance scenario as the code runs it: the DAG holds `A` at index 0 followed by
twenty, then sixty children that each have `parents[0] = 0`; after each `update_weights` pass
the weight of `A` is 1, and `weighted_dag_consensus` on `A` returns 0. -/
theorem acceptance_scenario_weights :
    (scenario_first.count = 21 ∧ scenario_first.transactions 0 = tx_A ∧
        ∀ k, 1 ≤ k → k < 21 → (scenario_first.transactions k).parents0 = 0) ∧
      scenario_first.weights 0 = 1 ∧
      (scenario_second.count = 61 ∧ scenario_second.transactions 0 = tx_A ∧
        ∀ k, 1 ≤ k → k < 61 → (scenario_second.transactions k).parents0 = 0) ∧
      scenario_second.weights 0 = 1 ∧
      weighted_dag_consensus tx_A sample_node scenario_second = 0 := by
  obtain ⟨f1, _, f3, f4⟩ := scenario_first_shape
  obtain ⟨s1, s3, s4⟩ := scenario_second_shape
  refine ⟨⟨f1, f3, ?_⟩, scenario_first_weight, ⟨s1, s3, ?_⟩, scenario_second_weight,
    scenario_second_verdict⟩
  · intro k hk1 hk2; rw [f4 k hk1 hk2]; rfl
  · intro k hk1 hk2; rw [s4 k hk1 hk2]; rfl

theorem acceptance_scenario_weights_witness :
    (scenario_first.transactions 5).parents0 = 0 ∧
      (scenario_second.transactions 45).parents0 = 0 :=
  ⟨acceptance_scenario_weights.1.2.2 5 (by decide) (by decide),
    acceptance_scenario_weights.2.2.1.2.2 45 (by decide) (by decide)⟩

/-- C2, the code on the scenario: for `A` at index 0 followed by twenty children with
`parents[0] = 0`, one `update_weights` pass leaves `W[A] = 1`, so `W[A] >= 3` fails; after
forty more such children and a second pass `W[A] = 1` again, so `W[A] >= 5` fails and
`weighted_dag_consensus` on `A` returns 0, not accept.  Each child adds `(int)(1 * 0.1) = 0`
to its parent, while the comments of the code describe cumulative weights to which the
children add. -/
theorem acceptance_scenario_not_accepted :
    scenario_first.count = 21 ∧ scenario_first.transactions 0 = tx_A ∧
      scenario_first.weights 0 = 1 ∧ ¬ (scenario_first.weights 0 ≥ 3) ∧
      scenario_second.count = 61 ∧ scenario_second.transactions 0 = tx_A ∧
      scenario_second.weights 0 = 1 ∧ ¬ (scenario_second.weights 0 ≥ 5) ∧
      weighted_dag_consensus tx_A sample_node scenario_second = 0 ∧
      weighted_dag_consensus tx_A sample_node scenario_second ≠ 1 := by
  obtain ⟨⟨f1, f2, _⟩, fw, ⟨s1, s2, _⟩, sw, verdict⟩ := acceptance_scenario_weights
  refine ⟨f1, f2, fw, ?_, s1, s2, sw, ?_, verdict, ?_⟩
  · rw [fw]; decide
  · rw [sw]; decide
  · rw [verdict]; decide

/-! ## The phase detector -/

theorem threshold_high_down : TAU_HIGH * (1 - HYSTERESIS) = 45 := by
  norm_num [TAU_HIGH, HYSTERESIS]

theorem threshold_high_up : TAU_HIGH * (1 + HYSTERESIS) = 55 := by
  norm_num [TAU_HIGH, HYSTERESIS]

theorem threshold_low_down : TAU_LOW * (1 - HYSTERESIS) = 9 := by
  norm_num [TAU_LOW, HYSTERESIS]

theorem threshold_low_up : TAU_LOW * (1 + HYSTERESIS) = 11 := by
  norm_num [TAU_LOW, HYSTERESIS]

theorem detect_phase_of_tps_high (tps : ℚ) :
    detect_phase_of_tps PHASE_HIGH tps =
      if tps < 45 then (if tps > 10 then PHASE_NORMAL else PHASE_LOW) else PHASE_HIGH := by
  unfold detect_phase_of_tps
  rw [if_pos rfl, threshold_high_down]
  rfl

theorem detect_phase_of_tps_normal (tps : ℚ) :
    detect_phase_of_tps PHASE_NORMAL tps =
      if tps > 55 then PHASE_HIGH else if tps < 9 then PHASE_LOW else PHASE_NORMAL := by
  unfold detect_phase_of_tps
  rw [if_neg (by decide), if_pos rfl, threshold_high_up, threshold_low_down]

theorem detect_phase_of_tps_low (tps : ℚ) :
    detect_phase_of_tps PHASE_LOW tps =
      if tps > 11 then (if tps > 50 then PHASE_HIGH else PHASE_NORMAL) else PHASE_LOW := by
  unfold detect_phase_of_tps
  rw [if_neg (by decide), if_neg (by decide), threshold_low_up]
  rfl

theorem detect_phase_of_tps_table (cur : Int) (tps : ℚ)
    (h : cur = PHASE_LOW ∨ cur = PHASE_NORMAL ∨ cur = PHASE_HIGH) :
    detect_phase_of_tps cur tps = spec_phase_table cur tps := by
  rcases h with h | h | h
  · subst h
    rw [detect_phase_of_tps_low]
    unfold spec_phase_table
    simp only [PHASE_LOW, PHASE_NORMAL, PHASE_HIGH]
    split_ifs <;> first | rfl | (exfalso; simp_all; done) | (exfalso; simp_all; linarith)
  · subst h
    rw [detect_phase_of_tps_normal]
    unfold spec_phase_table
    simp only [PHASE_LOW, PHASE_NORMAL, PHASE_HIGH]
    split_ifs <;> first | rfl | (exfalso; simp_all)
  · subst h
    rw [detect_phase_of_tps_high]
    unfold spec_phase_table
    simp only [PHASE_LOW, PHASE_NORMAL, PHASE_HIGH]
    split_ifs <;> first | rfl | (exfalso; simp_all)

/-- C3: for a participant whose phase is LOW, NORMAL or HIGH, `detect_phase` returns what the
hysteretic transition table prescribes for its current phase and the tps estimate of the
window, with the thresholds 45, 55, 9, 11 (and 10, 50 for the second comparison); where no
row applies the phase is returned unchanged. -/
theorem detect_phase_transition_table (node : Node) (window : SlidingWindow) (now : ℚ)
    (h : node.phase = PHASE_LOW ∨ node.phase = PHASE_NORMAL ∨ node.phase = PHASE_HIGH) :
    detect_phase node window now = spec_phase_table node.phase (calculate_tps window now) :=
  detect_phase_of_tps_table node.phase (calculate_tps window now) h

theorem detect_phase_transition_table_witness :
    (sample_node.phase = PHASE_LOW ∨ sample_node.phase = PHASE_NORMAL ∨
        sample_node.phase = PHASE_HIGH) ∧
      detect_phase sample_node (window_of_count 3300) 0 =
        spec_phase_table sample_node.phase (calculate_tps (window_of_count 3300) 0) :=
  ⟨Or.inr (Or.inl rfl),
    detect_phase_transition_table sample_node (window_of_count 3300) 0 (Or.inr (Or.inl rfl))⟩

theorem foldl_count_all (n : Nat) (p : Nat → Prop) [DecidablePred p] (hp : ∀ i, i < n → p i) :
    (List.range n).foldl (fun vc i => if p i then vc + 1 else vc) 0 = n := by
  induction n with
  | zero => rfl
  | succ n ih =>
    rw [List.range_succ, List.foldl_append, ih (fun i hi => hp i (Nat.lt_succ_of_lt hi))]
    simp only [List.foldl_cons, List.foldl_nil]
    rw [if_pos (hp n (Nat.lt_succ_self n))]

theorem calculate_tps_window_of_count (n : Nat) :
    calculate_tps (window_of_count n) 0 = (n : ℚ) / 60 := by
  unfold calculate_tps valid_count
  have h : (List.range (window_of_count n).count).foldl
      (fun vc i => if (0 : ℚ) - (window_of_count n).timestamps i < (WINDOW_SIZE : ℚ)
        then vc + 1 else vc) 0 = n := by
    apply foldl_count_all n (fun i => (0 : ℚ) - (window_of_count n).timestamps i < (WINDOW_SIZE : ℚ))
    intro i _
    show (0 : ℚ) - 0 < ((60 : Nat) : ℚ)
    norm_num
  rw [h]
  norm_num [WINDOW_SIZE]

theorem load_windows_tps :
    load_windows.map (fun window => calculate_tps window 0) = [0, 55, 48, 11, 9] := by
  simp only [load_windows, List.map_cons, List.map_nil, calculate_tps_window_of_count]
  norm_num

theorem load_windows_phases :
    run_detect_phase low_node 0 load_windows =
      [PHASE_LOW, PHASE_HIGH, PHASE_HIGH, PHASE_NORMAL, PHASE_NORMAL] := by
  simp only [load_windows, run_detect_phase, detect_phase, calculate_tps_window_of_count]
  have e0 : ((0 : Nat) : ℚ) / 60 = 0 := by norm_num
  have e1 : ((3300 : Nat) : ℚ) / 60 = 55 := by norm_num
  have e2 : ((2880 : Nat) : ℚ) / 60 = 48 := by norm_num
  have e3 : ((660 : Nat) : ℚ) / 60 = 11 := by norm_num
  have e4 : ((540 : Nat) : ℚ) / 60 = 9 := by norm_num
  rw [e0, e1, e2, e3, e4]
  have s0 : detect_phase_of_tps low_node.phase 0 = PHASE_LOW := by
    show detect_phase_of_tps PHASE_LOW 0 = PHASE_LOW
    rw [detect_phase_of_tps_low]; norm_num
  have s1 : detect_phase_of_tps PHASE_LOW 55 = PHASE_HIGH := by
    rw [detect_phase_of_tps_low]; norm_num
  have s2 : detect_phase_of_tps PHASE_HIGH 48 = PHASE_HIGH := by
    rw [detect_phase_of_tps_high]; norm_num
  have s3 : detect_phase_of_tps PHASE_HIGH 11 = PHASE_NORMAL := by
    rw [detect_phase_of_tps_high]; norm_num
  have s4 : detect_phase_of_tps PHASE_NORMAL 9 = PHASE_NORMAL := by
    rw [detect_phase_of_tps_normal]; norm_num
  rw [s0, s1, s2, s3, s4]

/-- C4, counterexample: over the tps trajectory 0, 55, 48, 11, 9 from LOW the phases are not
LOW, HIGH, HIGH, NORMAL, LOW; the last step, from NORMAL at tps = 9, does not return LOW. -/
theorem hysteresis_trajectory_not_low :
    load_windows.map (fun window => calculate_tps window 0) = [0, 55, 48, 11, 9] ∧
      run_detect_phase low_node 0 load_windows ≠
        [PHASE_LOW, PHASE_HIGH, PHASE_HIGH, PHASE_NORMAL, PHASE_LOW] ∧
      detect_phase_of_tps PHASE_NORMAL 9 ≠ PHASE_LOW := by
  refine ⟨load_windows_tps, ?_, ?_⟩
  · rw [load_windows_phases]; decide
  · rw [detect_phase_of_tps_normal]; norm_num [PHASE_NORMAL, PHASE_LOW]

/-- C4, amended: over the tps trajectory 0, 55, 48, 11, 9 from LOW the phases are LOW, HIGH,
HIGH, NORMAL, NORMAL: the last step, from NORMAL at tps = 9, returns NORMAL, because 9 is not
strictly below `tau_L * (1 - h) = 9`. -/
theorem hysteresis_trajectory :
    load_windows.map (fun window => calculate_tps window 0) = [0, 55, 48, 11, 9] ∧
      run_detect_phase low_node 0 load_windows =
        [PHASE_LOW, PHASE_HIGH, PHASE_HIGH, PHASE_NORMAL, PHASE_NORMAL] ∧
      detect_phase_of_tps PHASE_NORMAL 9 = PHASE_NORMAL ∧
      ¬ ((9 : ℚ) < TAU_LOW * (1 - HYSTERESIS)) := by
  refine ⟨load_windows_tps, load_windows_phases, ?_, ?_⟩
  · rw [detect_phase_of_tps_normal]; norm_num
  · rw [threshold_low_down]; norm_num

/-! ## The selector -/

theorem tmod_two_eq_zero_iff_even (z : Int) : Int.tmod z 2 = 0 ↔ Even z := by
  rw [even_iff_two_dvd]
  exact ⟨Int.dvd_of_tmod_eq_zero, Int.tmod_eq_zero_of_dvd⟩

/-- C5: `select_by_flowchart` returns BFT for every node with an even `zone_id`, whatever the
phase; for a node with an odd `zone_id` it returns FAST_VOTING in phase HIGH, WEIGHTED_DAG in
phase NORMAL and BFT in phase LOW. -/
theorem select_by_flowchart_rule (node : Node) :
    (Even node.zone_id → ∀ phase, select_by_flowchart node phase = CONSENSUS_BFT) ∧
      (Odd node.zone_id →
        select_by_flowchart node PHASE_HIGH = CONSENSUS_FAST_VOTING ∧
        select_by_flowchart node PHASE_NORMAL = CONSENSUS_WEIGHTED_DAG ∧
        select_by_flowchart node PHASE_LOW = CONSENSUS_BFT) := by
  constructor
  · intro he phase
    have h : Int.tmod node.zone_id 2 = 0 := (tmod_two_eq_zero_iff_even _).2 he
    simp [select_by_flowchart, h]
  · intro ho
    have h : ¬ Int.tmod node.zone_id 2 = 0 := by
      rw [tmod_two_eq_zero_iff_even]
      exact Int.not_even_iff_odd.2 ho
    simp [select_by_flowchart, h, PHASE_HIGH, PHASE_NORMAL, PHASE_LOW]

theorem select_by_flowchart_rule_witness :
    (Even even_zone_node.zone_id ∧ Odd sample_node.zone_id) ∧
      (∀ phase, select_by_flowchart even_zone_node phase = CONSENSUS_BFT) ∧
      (select_by_flowchart sample_node PHASE_HIGH = CONSENSUS_FAST_VOTING ∧
        select_by_flowchart sample_node PHASE_NORMAL = CONSENSUS_WEIGHTED_DAG ∧
        select_by_flowchart sample_node PHASE_LOW = CONSENSUS_BFT) :=
  ⟨⟨by decide, by decide⟩, (select_by_flowchart_rule even_zone_node).1 (by decide),
    (select_by_flowchart_rule sample_node).2 (by decide)⟩

/-- C6: `get_consensus_algorithm` returns BFT when the advisor answers "bft" or "pbft",
WEIGHTED_DAG for "dag", FAST_VOTING for "fast_voting" or "nakamoto"; for every other advisor
outcome (another string, a result that is not a string, a raised error, no advisor) it returns
the result of `select_by_flowchart` for the same node and phase. -/
theorem get_consensus_algorithm_advisor (node : Node) (phase : Int) :
    get_consensus_algorithm (AdvisorResult.unicode (some "bft")) node phase = CONSENSUS_BFT ∧
    get_consensus_algorithm (AdvisorResult.unicode (some "pbft")) node phase = CONSENSUS_BFT ∧
    get_consensus_algorithm (AdvisorResult.unicode (some "dag")) node phase
      = CONSENSUS_WEIGHTED_DAG ∧
    get_consensus_algorithm (AdvisorResult.unicode (some "fast_voting")) node phase
      = CONSENSUS_FAST_VOTING ∧
    get_consensus_algorithm (AdvisorResult.unicode (some "nakamoto")) node phase
      = CONSENSUS_FAST_VOTING ∧
    ∀ advisor : AdvisorResult,
      (∀ l, advisor = AdvisorResult.unicode (some l) →
        l ≠ "bft" ∧ l ≠ "pbft" ∧ l ≠ "dag" ∧ l ≠ "fast_voting" ∧ l ≠ "nakamoto") →
      get_consensus_algorithm advisor node phase = select_by_flowchart node phase := by
  refine ⟨?_, ?_, ?_, ?_, ?_, ?_⟩
  · simp [get_consensus_algorithm, select_via_python, map_label_to_algorithm, CONSENSUS_BFT]
  · simp [get_consensus_algorithm, select_via_python, map_label_to_algorithm, CONSENSUS_BFT]
  · simp [get_consensus_algorithm, select_via_python, map_label_to_algorithm,
      CONSENSUS_WEIGHTED_DAG]
  · simp [get_consensus_algorithm, select_via_python, map_label_to_algorithm,
      CONSENSUS_FAST_VOTING]
  · simp [get_consensus_algorithm, select_via_python, map_label_to_algorithm,
      CONSENSUS_FAST_VOTING]
  intro advisor h
  cases advisor with
  | unavailable => simp [get_consensus_algorithm, select_via_python]
  | raised => simp [get_consensus_algorithm, select_via_python]
  | not_unicode => simp [get_consensus_algorithm, select_via_python]
  | unicode label =>
    cases label with
    | none => simp [get_consensus_algorithm, select_via_python, map_label_to_algorithm]
    | some l =>
      obtain ⟨h1, h2, h3, h4, h5⟩ := h l rfl
      simp [get_consensus_algorithm, select_via_python, map_label_to_algorithm, h1, h2, h3, h4,
        h5]

theorem get_consensus_algorithm_advisor_witness :
    get_consensus_algorithm (AdvisorResult.unicode (some "raft")) sample_node PHASE_HIGH
        = select_by_flowchart sample_node PHASE_HIGH ∧
      get_consensus_algorithm AdvisorResult.raised sample_node PHASE_HIGH
        = select_by_flowchart sample_node PHASE_HIGH :=
  ⟨(get_consensus_algorithm_advisor sample_node PHASE_HIGH).2.2.2.2.2
      (AdvisorResult.unicode (some "raft"))
      (fun l hl => by
        have e : l = "raft" := by injection hl with h1; injection h1 with h2; exact h2.symm
        subst e; decide),
    (get_consensus_algorithm_advisor sample_node PHASE_HIGH).2.2.2.2.2 AdvisorResult.raised
      (fun l hl => by cases hl)⟩

/-! ## Weighted-DAG consensus -/

theorem find?_range_first (n i : Nat) (p : Nat → Bool) (hi : i < n) (hp : p i = true)
    (hfirst : ∀ k, k < i → p k = false) : (List.range n).find? p = some i := by
  induction n with
  | zero => omega
  | succ n ih =>
    rw [List.range_succ, List.find?_append]
    by_cases h : i < n
    · rw [ih h]; rfl
    · have e : i = n := by omega
      subst e
      have hnone : (List.range i).find? p = none := by
        rw [List.find?_eq_none]
        intro k hk
        rw [List.mem_range] at hk
        rw [hfirst k hk]
        exact Bool.false_ne_true
      rw [hnone]
      simp [hp]

theorem find_tx_index_none (tx : Transaction) (dag : DAG)
    (h : ∀ i, i < dag.count → ¬ same_tx dag tx i) : find_tx_index tx dag = -1 := by
  unfold find_tx_index
  have hnone : (List.range dag.count).find? (fun i =>
      decide ((dag.transactions i).tx_id = tx.tx_id ∧
        (dag.transactions i).sender = tx.sender)) = none := by
    rw [List.find?_eq_none]
    intro k hk
    rw [List.mem_range] at hk
    have := h k hk
    unfold same_tx at this
    simpa using this
  rw [hnone]

theorem find_tx_index_first (tx : Transaction) (dag : DAG) (i : Nat) (hi : i < dag.count)
    (hm : same_tx dag tx i) (hfirst : ∀ k, k < i → ¬ same_tx dag tx k) :
    find_tx_index tx dag = (i : Int) := by
  unfold find_tx_index
  rw [find?_range_first dag.count i _ hi]
  · unfold same_tx at hm
    simpa using hm
  · intro k hk
    have := hfirst k hk
    unfold same_tx at this
    simpa using this

theorem get_weight_of_lt (dag : DAG) (i : Nat) (hi : i < dag.count) :
    get_weight dag (i : Int) = dag.weights i := by
  unfold get_weight
  have c : ¬ ((i : Int) < 0 ∨ (i : Int) ≥ (dag.count : Int)) := by omega
  rw [if_neg c, Int.toNat_ofNat]

theorem weighted_dag_consensus_of_first (tx : Transaction) (node : Node) (dag : DAG) (i : Nat)
    (hi : i < dag.count) (hm : same_tx dag tx i) (hfirst : ∀ k, k < i → ¬ same_tx dag tx k) :
    weighted_dag_consensus tx node dag = if dag.weights i ≥ WD_MIN_WEIGHT then 1 else 0 := by
  unfold weighted_dag_consensus
  simp only [find_tx_index_first tx dag i hi hm hfirst, get_weight_of_lt dag i hi]
  have c : ¬ ((i : Int) = -1) := by omega
  rw [if_neg c]

/-- C7: `weighted_dag_consensus` rejects (returns 0) when no stored transaction has the
`tx_id` and `sender` of `tx`; otherwise, with `i` the lowest index whose transaction matches,
it accepts (returns 1) iff `W[i] >= WD_MIN_WEIGHT = 5` and rejects (returns 0) iff
`W[i] < 5`. -/
theorem weighted_dag_consensus_lookup (tx : Transaction) (node : Node) (dag : DAG) :
    ((∀ i, i < dag.count → ¬ same_tx dag tx i) → weighted_dag_consensus tx node dag = 0) ∧
      (∀ i, i < dag.count → same_tx dag tx i → (∀ k, k < i → ¬ same_tx dag tx k) →
        (weighted_dag_consensus tx node dag = 1 ↔ dag.weights i ≥ 5) ∧
        (weighted_dag_consensus tx node dag = 0 ↔ dag.weights i < 5)) := by
  constructor
  · intro h
    unfold weighted_dag_consensus
    simp only [find_tx_index_none tx dag h]
    rfl
  · intro i hi hm hfirst
    rw [weighted_dag_consensus_of_first tx node dag i hi hm hfirst]
    unfold WD_MIN_WEIGHT
    by_cases hw : dag.weights i ≥ 5
    · rw [if_pos hw]
      refine ⟨⟨fun _ => hw, fun _ => rfl⟩, ⟨fun h => absurd h (by decide), fun h => ?_⟩⟩
      omega
    · rw [if_neg hw]
      refine ⟨⟨fun h => absurd h (by decide), fun h => absurd h hw⟩, ⟨fun _ => ?_, fun _ => rfl⟩⟩
      omega

theorem stranger_not_in_fan10 : ∀ i, i < fan10.count → ¬ same_tx fan10 stranger_tx i := by
  intro i _ h
  have hs : (fan10.transactions i).sender = 5 := h.2
  have h0 : (fan10.transactions i).sender = 0 := by
    show (if i = 0 then tx_A else child_of_A i).sender = 0
    split <;> rfl
  rw [h0] at hs
  omega

theorem weighted_dag_consensus_lookup_witness :
    weighted_dag_consensus stranger_tx sample_node fan10 = 0 ∧
      ((weighted_dag_consensus tx_A sample_node fan10 = 1 ↔ fan10.weights 0 ≥ 5) ∧
        (weighted_dag_consensus tx_A sample_node fan10 = 0 ↔ fan10.weights 0 < 5)) :=
  ⟨(weighted_dag_consensus_lookup stranger_tx sample_node fan10).1 stranger_not_in_fan10,
    (weighted_dag_consensus_lookup tx_A sample_node fan10).2 0 (by decide) ⟨rfl, rfl⟩
      (fun k hk => absurd hk (Nat.not_lt_zero k))⟩

/-! ## BFT consensus and the local vote -/

theorem validate_transaction_eq_one_iff (tx : Transaction) :
    validate_transaction tx = 1 ↔
      double_le tx.amount (CDouble.finite 0) = false ∧ 0 ≤ tx.sender ∧ 0 ≤ tx.receiver := by
  unfold validate_transaction
  by_cases ha : double_le tx.amount (CDouble.finite 0) = true
  · rw [if_pos ha]
    constructor
    · intro h; exact absurd h (by decide)
    · intro h; rw [ha] at h; exact absurd h.1 (by decide)
  · rw [if_neg ha]
    by_cases hs : tx.sender < 0 ∨ tx.receiver < 0
    · rw [if_pos hs]
      constructor
      · intro h; exact absurd h (by decide)
      · intro h; omega
    · rw [if_neg hs]
      constructor
      · intro _; exact ⟨Bool.not_eq_true _ ▸ ha, by omega, by omega⟩
      · intro _; rfl

theorem validate_transaction_zero_or_one (tx : Transaction) :
    validate_transaction tx = 0 ∨ validate_transaction tx = 1 := by
  unfold validate_transaction
  split
  · exact Or.inl rfl
  · split
    · exact Or.inl rfl
    · exact Or.inr rfl

theorem my_vote_eq (tx : Transaction) :
    (if validate_transaction tx ≠ 0 then (1 : Int) else 0) = validate_transaction tx := by
  rcases validate_transaction_zero_or_one tx with h | h <;> rw [h] <;> rfl

theorem foldl_count_eq (v : Nat → Int) (l : List Nat) (c : Nat) :
    l.foldl (fun accept_count i => if v i = 1 then accept_count + 1 else accept_count) c =
      c + (l.map v).count 1 := by
  induction l generalizing c with
  | nil => rfl
  | cons i l ih =>
    rw [List.foldl_cons, ih, List.map_cons, List.count_cons]
    by_cases h : v i = 1
    · simp [h]; omega
    · simp [h]

theorem count_accepts_eq (zone_size : Nat) (v : Nat → Int) :
    count_accepts zone_size v = (vote_vector zone_size v).count 1 := by
  unfold count_accepts vote_vector
  rw [foldl_count_eq, Nat.zero_add]

theorem bft_consensus_small (tx : Transaction) (node : Node) (comm : Comm)
    (peer_votes : Nat → Int) (hc : node.zone_comm = some comm) (hs : comm.size ≤ 2) :
    bft_consensus tx node peer_votes = some (validate_transaction tx) := by
  unfold bft_consensus
  rw [hc]
  simp only [if_pos hs, my_vote_eq]

theorem bft_consensus_collective (tx : Transaction) (node : Node) (comm : Comm)
    (peer_votes : Nat → Int) (hc : node.zone_comm = some comm) (hs : 3 ≤ comm.size) :
    bft_consensus tx node peer_votes =
      if (((vote_vector comm.size
          (allgather_votes comm (validate_transaction tx) peer_votes)).count 1 : Nat) : ℚ)
          / (comm.size : ℚ) ≥ 67 / 100
      then some 1 else some 0 := by
  unfold bft_consensus
  rw [hc]
  have c : ¬ comm.size ≤ 2 := by omega
  simp only [if_neg c, my_vote_eq, count_accepts_eq, BFT_QUORUM]

/-- C8: `bft_consensus` returns the local vote `validate_transaction tx` whenever the zone
size is at most 2; for a zone of size at least 3 with gathered vote vector `v` it accepts
(returns 1) iff (number of entries of `v` equal to 1) / zone_size >= 0.67, and rejects
(returns 0) otherwise. -/
theorem bft_consensus_quorum (tx : Transaction) (node : Node) (comm : Comm)
    (peer_votes : Nat → Int) (hc : node.zone_comm = some comm) :
    (comm.size ≤ 2 → bft_consensus tx node peer_votes = some (validate_transaction tx)) ∧
      (3 ≤ comm.size →
        (bft_consensus tx node peer_votes = some 1 ↔
          (((vote_vector comm.size
            (allgather_votes comm (validate_transaction tx) peer_votes)).count 1 : Nat) : ℚ)
            / (comm.size : ℚ) ≥ 67 / 100) ∧
        (bft_consensus tx node peer_votes = some 0 ↔
          ¬ (((vote_vector comm.size
            (allgather_votes comm (validate_transaction tx) peer_votes)).count 1 : Nat) : ℚ)
            / (comm.size : ℚ) ≥ 67 / 100)) := by
  constructor
  · exact bft_consensus_small tx node comm peer_votes hc
  · intro hs
    rw [bft_consensus_collective tx node comm peer_votes hc hs]
    split
    · rename_i h
      refine ⟨⟨fun _ => h, fun _ => rfl⟩, ⟨fun h' => ?_, fun h' => absurd h h'⟩⟩
      exact absurd (Option.some.inj h') (by decide)
    · rename_i h
      refine ⟨⟨fun h' => ?_, fun h' => absurd h' h⟩, ⟨fun _ => h, fun _ => rfl⟩⟩
      exact absurd (Option.some.inj h') (by decide)

theorem bft_consensus_quorum_witness :
    bft_consensus tx_A (zone_member 2) peers_of_three = some (validate_transaction tx_A) ∧
      (bft_consensus tx_A (zone_member 3) peers_of_three = some 1 ↔
        (((vote_vector 3
          (allgather_votes { size := 3, rank := 0 } (validate_transaction tx_A)
            peers_of_three)).count 1 : Nat) : ℚ) / ((3 : Nat) : ℚ) ≥ 67 / 100) :=
  ⟨(bft_consensus_quorum tx_A (zone_member 2) { size := 2, rank := 0 } peers_of_three rfl).1
      (by decide),
    ((bft_consensus_quorum tx_A (zone_member 3) { size := 3, rank := 0 } peers_of_three rfl).2
      (by decide)).1⟩

theorem validate_tx_A : validate_transaction tx_A = 1 := by
  rw [validate_transaction_eq_one_iff]
  refine ⟨?_, by decide, by decide⟩
  show decide ((1 : ℚ) ≤ 0) = false
  exact decide_eq_false (by norm_num)

theorem vote_vector_of_three :
    vote_vector 3 (allgather_votes { size := 3, rank := 0 } (validate_transaction tx_A)
      peers_of_three) = [1, 1, 0] := by
  rw [validate_tx_A]
  decide

theorem vote_vector_of_six :
    vote_vector 6 (allgather_votes { size := 6, rank := 0 } (validate_transaction tx_A)
      peers_of_six) = [1, 1, 1, 1, 0, 0] := by
  rw [validate_tx_A]
  decide

/-- C9, the code on exact two-thirds majorities: in a zone of three whose gathered votes are
1, 1, 0 (two accepts out of three) `bft_consensus` returns 0, reject, and so it does in a zone
of six whose gathered votes are 1, 1, 1, 1, 0, 0 (four accepts out of six), because
2/3 < 0.67 = BFT_QUORUM. -/
theorem bft_consensus_rejects_two_thirds :
    vote_vector 3 (allgather_votes { size := 3, rank := 0 } (validate_transaction tx_A)
        peers_of_three) = [1, 1, 0] ∧
      bft_consensus tx_A (zone_member 3) peers_of_three = some 0 ∧
      vote_vector 6 (allgather_votes { size := 6, rank := 0 } (validate_transaction tx_A)
        peers_of_six) = [1, 1, 1, 1, 0, 0] ∧
      bft_consensus tx_A (zone_member 6) peers_of_six = some 0 := by
  refine ⟨vote_vector_of_three, ?_, vote_vector_of_six, ?_⟩
  · rw [bft_consensus_collective tx_A (zone_member 3) { size := 3, rank := 0 } peers_of_three
      rfl (by decide), vote_vector_of_three]
    norm_num
  · rw [bft_consensus_collective tx_A (zone_member 6) { size := 6, rank := 0 } peers_of_six
      rfl (by decide), vote_vector_of_six]
    norm_num

theorem validate_negative_sender_tx : validate_transaction negative_sender_tx = 0 := by
  rcases validate_transaction_zero_or_one negative_sender_tx with h | h
  · exact h
  · rw [validate_transaction_eq_one_iff] at h
    exact absurd h.2.1 (by decide)

theorem double_le_zero_eq_false (a : CDouble) :
    double_le a (CDouble.finite 0) = false ↔
      a = CDouble.nan ∨ double_lt (CDouble.finite 0) a = true := by
  cases a with
  | finite value =>
    simp only [double_le, double_lt, decide_eq_false_iff_not, decide_eq_true_eq, not_le,
      false_or, reduceCtorEq]
  | pos_inf => simp [double_le, double_lt]
  | neg_inf => simp [double_le, double_lt]
  | nan => simp [double_le, double_lt]

/-- C10, counterexample: a transaction with amount 1 > 0 and sender -1 is rejected by
`validate_transaction`. -/
theorem validate_transaction_rejects_positive_amount :
    double_lt (CDouble.finite 0) negative_sender_tx.amount = true ∧
      validate_transaction negative_sender_tx = 0 ∧
      validate_transaction negative_sender_tx ≠ 1 := by
  refine ⟨?_, validate_negative_sender_tx, ?_⟩
  · show decide ((0 : ℚ) < 1) = true
    exact decide_eq_true (by norm_num)
  · rw [validate_negative_sender_tx]; decide

/-- C10, amended: for every transaction whose amount is not NaN, `validate_transaction`
accepts it (returns 1) iff its amount is > 0 and its sender and its receiver are both >= 0; a
transaction whose amount is NaN passes the test `amount <= 0` and is accepted iff its sender
and its receiver are both >= 0.  The function returns 0 otherwise, and its value is the result
of `bft_consensus` on a zone of size 1. -/
theorem validate_transaction_accepts_iff (tx : Transaction) :
    (tx.amount ≠ CDouble.nan →
        (validate_transaction tx = 1 ↔
          double_lt (CDouble.finite 0) tx.amount = true ∧ 0 ≤ tx.sender ∧ 0 ≤ tx.receiver)) ∧
      (tx.amount = CDouble.nan →
        (validate_transaction tx = 1 ↔ 0 ≤ tx.sender ∧ 0 ≤ tx.receiver)) ∧
      (validate_transaction tx = 0 ∨ validate_transaction tx = 1) ∧
      ∀ (node : Node) (comm : Comm) (peer_votes : Nat → Int),
        node.zone_comm = some comm → comm.size = 1 →
        bft_consensus tx node peer_votes = some (validate_transaction tx) := by
  refine ⟨fun hn => ?_, fun hn => ?_, validate_transaction_zero_or_one tx,
    fun node comm peer_votes hc hs =>
      bft_consensus_small tx node comm peer_votes hc (by omega)⟩
  · rw [validate_transaction_eq_one_iff, double_le_zero_eq_false]
    constructor
    · rintro ⟨h | h, h2⟩
      · exact absurd h hn
      · exact ⟨h, h2⟩
    · rintro ⟨h, h2⟩
      exact ⟨Or.inr h, h2⟩
  · rw [validate_transaction_eq_one_iff, double_le_zero_eq_false]
    constructor
    · rintro ⟨_, h2⟩
      exact h2
    · intro h2
      exact ⟨Or.inl hn, h2⟩

theorem validate_transaction_accepts_iff_witness :
    tx_A.amount ≠ CDouble.nan ∧ validate_transaction tx_A = 1 ∧
      nan_amount_tx.amount = CDouble.nan ∧ validate_transaction nan_amount_tx = 1 ∧
      bft_consensus tx_A (zone_member 1) peers_of_three = some (validate_transaction tx_A) :=
  ⟨fun h => CDouble.noConfusion h,
    ((validate_transaction_accepts_iff tx_A).1 (fun h => CDouble.noConfusion h)).2
      ⟨show decide ((0 : ℚ) < 1) = true from decide_eq_true (by norm_num), by decide,
        by decide⟩,
    rfl,
    ((validate_transaction_accepts_iff nan_amount_tx).2.1 rfl).2 ⟨by decide, by decide⟩,
    (validate_transaction_accepts_iff tx_A).2.2.2 (zone_member 1) { size := 1, rank := 0 }
      peers_of_three rfl rfl⟩

/-! ## Fast-Voting consensus -/

theorem fast_voting_rounds_bound (tx : Transaction) (zone_size : Nat) (samples : Nat → Nat)
    (budget round : Nat) (preference : Int) (consecutive : Nat) :
    (fast_voting_rounds tx zone_size samples budget round preference consecutive).2
        ≤ round + budget ∧
      ((fast_voting_rounds tx zone_size samples budget round preference consecutive).1 = 0 ∨
        (fast_voting_rounds tx zone_size samples budget round preference consecutive).1 = 1) := by
  induction budget generalizing round preference consecutive with
  | zero => exact ⟨Nat.le_refl _, Or.inl rfl⟩
  | succ budget ih =>
    unfold fast_voting_rounds
    simp only []
    by_cases ha : (sample_votes tx zone_size samples round).1 ≥ FV_QUORUM
    · simp only [if_pos ha]
      by_cases hp : (1 : Int) = preference
      · simp only [if_pos hp]
        split
        · exact ⟨by omega, Or.inr hp.symm⟩
        · obtain ⟨h1, h2⟩ := ih (round + 1) preference (consecutive + 1)
          exact ⟨by omega, h2⟩
      · simp only [if_neg hp]
        split
        · exact ⟨by omega, Or.inr rfl⟩
        · obtain ⟨h1, h2⟩ := ih (round + 1) 1 1
          exact ⟨by omega, h2⟩
    · simp only [if_neg ha]
      by_cases hr : (sample_votes tx zone_size samples round).2 ≥ FV_QUORUM
      · simp only [if_pos hr]
        by_cases hp : (0 : Int) = preference
        · simp only [if_pos hp]
          split
          · exact ⟨by omega, Or.inl hp.symm⟩
          · obtain ⟨h1, h2⟩ := ih (round + 1) preference (consecutive + 1)
            exact ⟨by omega, h2⟩
        · simp only [if_neg hp]
          split
          · exact ⟨by omega, Or.inl rfl⟩
          · obtain ⟨h1, h2⟩ := ih (round + 1) 0 1
            exact ⟨by omega, h2⟩
      · simp only [if_neg hr]
        obtain ⟨h1, h2⟩ := ih (round + 1) preference 0
        exact ⟨by omega, h2⟩

/-- C11: whenever the zone size is below `FV_SAMPLE_SIZE = 10`, `fast_voting_consensus` returns
1 for every transaction, valid or not, and every sequence of random samples, without running
a sampling round. -/
theorem fast_voting_small_zone (tx : Transaction) (node : Node) (comm : Comm)
    (samples : Nat → Nat) (hc : node.zone_comm = some comm) (hs : comm.size < 10) :
    fast_voting_consensus tx node samples = some 1 ∧
      fast_voting_run tx node samples = some (1, 0) := by
  have h : fast_voting_run tx node samples = some (1, 0) := by
    unfold fast_voting_run
    rw [hc]
    simp only [FV_SAMPLE_SIZE, if_pos hs]
  refine ⟨?_, h⟩
  unfold fast_voting_consensus
  rw [h]
  rfl

theorem fast_voting_small_zone_witness :
    (voter 9).zone_comm = some { size := 9, rank := 0 } ∧ (9 : Nat) < 10 ∧
      fast_voting_consensus negative_sender_tx (voter 9) (fun _ => 0) = some 1 ∧
      fast_voting_consensus tx_A (voter 9) (fun _ => 0) = some 1 :=
  ⟨rfl, by decide,
    (fast_voting_small_zone negative_sender_tx (voter 9) { size := 9, rank := 0 } (fun _ => 0)
      rfl (by decide)).1,
    (fast_voting_small_zone tx_A (voter 9) { size := 9, rank := 0 } (fun _ => 0) rfl
      (by decide)).1⟩

/-- C12: for every transaction, zone size and sequence of random samples,
`fast_voting_consensus` returns a value after at most `FV_CONSECUTIVE_ROUNDS + 10 = 15`
sampling rounds, and the value is 0 or 1. -/
theorem fast_voting_terminates (tx : Transaction) (node : Node) (comm : Comm)
    (samples : Nat → Nat) (hc : node.zone_comm = some comm) :
    ∃ result rounds, fast_voting_run tx node samples = some (result, rounds) ∧
      fast_voting_consensus tx node samples = some result ∧
      rounds ≤ 15 ∧ (result = 0 ∨ result = 1) := by
  unfold fast_voting_consensus fast_voting_run
  rw [hc]
  by_cases hs : comm.size < FV_SAMPLE_SIZE
  · simp only [if_pos hs]
    exact ⟨1, 0, rfl, rfl, by omega, Or.inr rfl⟩
  · simp only [if_neg hs]
    obtain ⟨h1, h2⟩ := fast_voting_rounds_bound tx comm.size samples
      (FV_CONSECUTIVE_ROUNDS + 10) 0 (-1) 0
    have e : FV_CONSECUTIVE_ROUNDS + 10 = 15 := rfl
    generalize fast_voting_rounds tx comm.size samples (FV_CONSECUTIVE_ROUNDS + 10) 0 (-1) 0
      = r at h1 h2
    exact ⟨r.1, r.2, rfl, rfl, by omega, h2⟩

theorem fast_voting_terminates_witness :
    (voter 12).zone_comm = some { size := 12, rank := 0 } ∧
      ∃ result rounds, fast_voting_run tx_A (voter 12) (fun k => 7 * k + 3)
          = some (result, rounds) ∧
        fast_voting_consensus tx_A (voter 12) (fun k => 7 * k + 3) = some result ∧
        rounds ≤ 15 ∧ (result = 0 ∨ result = 1) :=
  ⟨rfl, fast_voting_terminates tx_A (voter 12) { size := 12, rank := 0 } (fun k => 7 * k + 3)
    rfl⟩

/-! ## The DAG store -/

theorem add_transaction_of_full (dag : DAG) (tx : Transaction)
    (h : dag.count ≥ dag.capacity) : add_transaction dag tx = (dag, 0) := by
  unfold add_transaction
  rw [if_pos h]

theorem dag_ext (a b : DAG) (ht : a.transactions = b.transactions)
    (hw : a.weights = b.weights) (hc : a.count = b.count) (hk : a.capacity = b.capacity) :
    a = b := by
  cases a
  cases b
  simp only [DAG.mk.injEq]
  exact ⟨ht, hw, hc, hk⟩

theorem dag_reachable_weights_one (dag : DAG) (h : dag_reachable dag) :
    all_one dag.count dag.weights := by
  induction h with
  | create capacity =>
    intro k hk
    exact absurd hk (Nat.not_lt_zero k)
  | add dag tx _ ih =>
    by_cases hfull : dag.count ≥ dag.capacity
    · rw [add_transaction_of_full dag tx hfull]
      exact ih
    · rw [add_transaction_of_lt dag tx (by omega)]
      intro k hk
      have hk' : k < dag.count + 1 := hk
      show Function.update dag.weights dag.count 1 k = 1
      by_cases e : k = dag.count
      · rw [e, Function.update_same]
      · rw [Function.update_noteq e]
        exact ih k (by omega)
  | update dag _ _ =>
    intro k hk
    rw [update_weights_weights]
    rw [update_weights_count] at hk
    rw [if_pos hk]

/-- C13: in every DAG state reachable from `create_dag` by any sequence of `add_transaction`
and `update_weights` calls, `W[i] >= 1` for every index `i < count`. -/
theorem reachable_weight_ge_one (dag : DAG) (h : dag_reachable dag) (i : Nat)
    (hi : i < dag.count) : dag.weights i ≥ 1 := by
  rw [dag_reachable_weights_one dag h i hi]

theorem reachable_weight_ge_one_witness :
    dag_reachable (update_weights (add_transaction (create_dag 5) tx_A).1) ∧
      0 < (update_weights (add_transaction (create_dag 5) tx_A).1).count ∧
      (update_weights (add_transaction (create_dag 5) tx_A).1).weights 0 ≥ 1 :=
  ⟨dag_reachable.update _ (dag_reachable.add _ tx_A (dag_reachable.create 5)), by decide,
    reachable_weight_ge_one (update_weights (add_transaction (create_dag 5) tx_A).1)
      (dag_reachable.update _ (dag_reachable.add _ tx_A (dag_reachable.create 5))) 0
      (by decide)⟩

/-- C14: `update_weights` is idempotent: for every DAG, applying it twice with no append in
between gives the same DAG (weight table, transactions, count and capacity) as applying it
once. -/
theorem update_weights_idempotent (dag : DAG) :
    update_weights (update_weights dag) = update_weights dag ∧
      (update_weights (update_weights dag)).weights = (update_weights dag).weights ∧
      (update_weights (update_weights dag)).transactions = (update_weights dag).transactions ∧
      (update_weights (update_weights dag)).count = (update_weights dag).count := by
  have hw : (update_weights (update_weights dag)).weights = (update_weights dag).weights := by
    funext k
    rw [update_weights_weights, update_weights_count, update_weights_weights]
    split <;> rfl
  exact ⟨dag_ext _ _ rfl hw rfl rfl, hw, rfl, rfl⟩

/-- C17: `get_latest_transactions(dag, 2)` returns (-1, -1) when the DAG is empty, (0, -1)
when it holds exactly one transaction, and (count - 2, count - 1) when it holds two or
more. -/
theorem get_latest_transactions_cases (dag : DAG) :
    (dag.count = 0 → get_latest_transactions dag 2 = some (-1, -1)) ∧
      (dag.count = 1 → get_latest_transactions dag 2 = some (0, -1)) ∧
      (2 ≤ dag.count → get_latest_transactions dag 2
        = some ((dag.count : Int) - 2, (dag.count : Int) - 1)) := by
  unfold get_latest_transactions
  refine ⟨fun h => ?_, fun h => ?_, fun h => ?_⟩
  · rw [if_neg (by decide), if_pos h]
  · rw [if_neg (by decide), if_neg (by omega), if_pos h]
  · rw [if_neg (by decide), if_neg (by omega), if_neg (by omega)]

theorem get_latest_transactions_cases_witness :
    get_latest_transactions (create_dag 5) 2 = some (-1, -1) ∧
      get_latest_transactions (add_transaction (create_dag 5) tx_A).1 2 = some (0, -1) ∧
      get_latest_transactions fan10 2 = some (((11 : Nat) : Int) - 2, ((11 : Nat) : Int) - 1) :=
  ⟨(get_latest_transactions_cases (create_dag 5)).1 rfl,
    (get_latest_transactions_cases (add_transaction (create_dag 5) tx_A).1).2.1 rfl,
    (get_latest_transactions_cases fan10).2.2 (by decide)⟩

/-- C19: `add_transaction` on a full DAG (`count >= capacity`) returns 0 and leaves the DAG
(transactions, weights, count) unchanged; on a DAG that is not full it returns 1. -/
theorem add_transaction_full (dag : DAG) (tx : Transaction) :
    (dag.count ≥ dag.capacity →
        (add_transaction dag tx).2 = 0 ∧ (add_transaction dag tx).1 = dag ∧
        (add_transaction dag tx).1.transactions = dag.transactions ∧
        (add_transaction dag tx).1.weights = dag.weights ∧
        (add_transaction dag tx).1.count = dag.count) ∧
      (dag.count < dag.capacity → (add_transaction dag tx).2 = 1) := by
  constructor
  · intro h
    rw [add_transaction_of_full dag tx h]
    exact ⟨rfl, rfl, rfl, rfl, rfl⟩
  · intro h
    rw [add_transaction_of_lt dag tx h]

theorem add_transaction_full_witness :
    ((add_transaction fan10 stranger_tx).2 = 0 ∧ (add_transaction fan10 stranger_tx).1 = fan10 ∧
        (add_transaction fan10 stranger_tx).1.transactions = fan10.transactions ∧
        (add_transaction fan10 stranger_tx).1.weights = fan10.weights ∧
        (add_transaction fan10 stranger_tx).1.count = fan10.count) ∧
      (add_transaction (create_dag 5) tx_A).2 = 1 :=
  ⟨(add_transaction_full fan10 stranger_tx).1 (by decide),
    (add_transaction_full (create_dag 5) tx_A).2 (by decide)⟩

/-- C20: the DAG is append-only.  A successful `add_transaction` stores the new transaction at
index `old_count` with weight 1, increases `count` by exactly 1 and leaves every transaction
(and weight) at an index below `old_count` unchanged; `update_weights` changes neither `count`
nor any stored transaction. -/
theorem dag_append_only (dag : DAG) (tx : Transaction) :
    (dag.count < dag.capacity →
        (add_transaction dag tx).2 = 1 ∧
        (add_transaction dag tx).1.transactions dag.count = tx ∧
        (add_transaction dag tx).1.weights dag.count = 1 ∧
        (add_transaction dag tx).1.count = dag.count + 1 ∧
        ∀ i, i < dag.count →
          (add_transaction dag tx).1.transactions i = dag.transactions i ∧
          (add_transaction dag tx).1.weights i = dag.weights i) ∧
      (update_weights dag).count = dag.count ∧
      (update_weights dag).transactions = dag.transactions := by
  refine ⟨fun h => ?_, rfl, rfl⟩
  rw [add_transaction_of_lt dag tx h]
  refine ⟨rfl, Function.update_same _ _ _, Function.update_same _ _ _, rfl, fun i hi => ?_⟩
  have e : i ≠ dag.count := by omega
  exact ⟨Function.update_noteq e _ _, Function.update_noteq e _ _⟩

theorem dag_append_only_witness :
    (create_dag 5).count < (create_dag 5).capacity ∧
      (add_transaction (create_dag 5) tx_A).1.transactions 0 = tx_A ∧
      (add_transaction (create_dag 5) tx_A).1.count = 0 + 1 :=
  ⟨by decide, ((dag_append_only (create_dag 5) tx_A).1 (by decide)).2.1,
    ((dag_append_only (create_dag 5) tx_A).1 (by decide)).2.2.2.1⟩

/-! ## Monotonicity of the phase detector -/

theorem detect_phase_of_tps_mono (cur : Int) (tps1 tps2 : ℚ)
    (hcur : cur = PHASE_LOW ∨ cur = PHASE_NORMAL ∨ cur = PHASE_HIGH) (h : tps1 ≤ tps2) :
    detect_phase_of_tps cur tps1 ≤ detect_phase_of_tps cur tps2 := by
  rcases hcur with hc | hc | hc
  · subst hc
    rw [detect_phase_of_tps_low, detect_phase_of_tps_low]
    simp only [PHASE_LOW, PHASE_NORMAL, PHASE_HIGH]
    split_ifs <;> first | decide | (exfalso; linarith)
  · subst hc
    rw [detect_phase_of_tps_normal, detect_phase_of_tps_normal]
    simp only [PHASE_LOW, PHASE_NORMAL, PHASE_HIGH]
    split_ifs <;> first | decide | (exfalso; linarith)
  · subst hc
    rw [detect_phase_of_tps_high, detect_phase_of_tps_high]
    simp only [PHASE_LOW, PHASE_NORMAL, PHASE_HIGH]
    split_ifs <;> first | decide | (exfalso; linarith)

/-- C15: for every current phase (LOW, NORMAL or HIGH) and all `tps1 <= tps2`, the phase
`detect_phase` returns at `tps1` is at most the phase it returns at `tps2` in the order
LOW < NORMAL < HIGH (the order of the codes 0 < 1 < 2), both as a function of the tps value
and for a node read against two windows. -/
theorem detect_phase_monotone (cur : Int) (tps1 tps2 : ℚ)
    (hcur : cur = PHASE_LOW ∨ cur = PHASE_NORMAL ∨ cur = PHASE_HIGH) (h : tps1 ≤ tps2) :
    detect_phase_of_tps cur tps1 ≤ detect_phase_of_tps cur tps2 ∧
      ∀ (node : Node) (w1 w2 : SlidingWindow) (t1 t2 : ℚ), node.phase = cur →
        calculate_tps w1 t1 = tps1 → calculate_tps w2 t2 = tps2 →
        detect_phase node w1 t1 ≤ detect_phase node w2 t2 := by
  refine ⟨detect_phase_of_tps_mono cur tps1 tps2 hcur h, ?_⟩
  intro node w1 w2 t1 t2 hn h1 h2
  unfold detect_phase
  rw [hn, h1, h2]
  exact detect_phase_of_tps_mono cur tps1 tps2 hcur h

theorem detect_phase_monotone_witness :
    (PHASE_NORMAL = PHASE_LOW ∨ PHASE_NORMAL = PHASE_NORMAL ∨ PHASE_NORMAL = PHASE_HIGH) ∧
      (8 : ℚ) ≤ 56 ∧
      detect_phase_of_tps PHASE_NORMAL 8 ≤ detect_phase_of_tps PHASE_NORMAL 56 :=
  ⟨Or.inr (Or.inl rfl), by norm_num,
    (detect_phase_monotone PHASE_NORMAL 8 56 (Or.inr (Or.inl rfl)) (by norm_num)).1⟩

/-! ## The sliding window -/

theorem foldl_ite_eq_countP (q : Nat → Prop) [DecidablePred q] (l : List Nat) (c : Nat) :
    l.foldl (fun vc i => if q i then vc + 1 else vc) c = c + l.countP (fun i => decide (q i)) := by
  induction l generalizing c with
  | nil => rfl
  | cons i l ih =>
    rw [List.foldl_cons, ih, List.countP_cons]
    by_cases h : q i
    · simp [h]; omega
    · simp [h]

theorem valid_count_eq_countP (window : SlidingWindow) (now : ℚ) :
    valid_count window now = (List.range window.count).countP
      (fun i => decide (now - window.timestamps i < (WINDOW_SIZE : ℚ))) := by
  unfold valid_count
  rw [foldl_ite_eq_countP (fun i => now - window.timestamps i < (WINDOW_SIZE : ℚ)), Nat.zero_add]

theorem countP_range_update_ge (P : ℚ → Bool) (cells : Nat → ℚ) (h m : Nat) (t : ℚ)
    (hm : m ≤ h) :
    (List.range m).countP (fun i => P (Function.update cells h t i)) =
      (List.range m).countP (fun i => P (cells i)) := by
  apply List.countP_congr
  intro i hi
  rw [List.mem_range] at hi
  have e : i ≠ h := by omega
  rw [Function.update_noteq e]

theorem countP_range_update_lt (P : ℚ → Bool) (cells : Nat → ℚ) (h c : Nat) (t : ℚ)
    (hh : h < c) :
    (List.range c).countP (fun i => P (Function.update cells h t i)) +
        (if P (cells h) = true then 1 else 0) =
      (List.range c).countP (fun i => P (cells i)) + (if P t = true then 1 else 0) := by
  induction c with
  | zero => omega
  | succ c ih =>
    rw [List.range_succ, List.countP_append, List.countP_append, List.countP_singleton,
      List.countP_singleton]
    by_cases e : h = c
    · subst e
      rw [countP_range_update_ge P cells h h t (Nat.le_refl h), Function.update_same]
      omega
    · have e' : c ≠ h := fun x => e x.symm
      rw [Function.update_noteq e']
      have := ih (by omega)
      omega

theorem add_timestamps_invariant (P : ℚ → Bool) (c : Nat) (hc : 1 ≤ c) (added : List ℚ) :
    (added.foldl add_timestamp (create_window c)).capacity = c ∧
      (added.foldl add_timestamp (create_window c)).head = added.length % c ∧
      (added.foldl add_timestamp (create_window c)).count = min added.length c ∧
      (∀ j, j < added.length → added.length ≤ j + c →
        (added.foldl add_timestamp (create_window c)).timestamps (j % c) = added.getD j 0) ∧
      (List.range (min added.length c)).countP
          (fun i => P ((added.foldl add_timestamp (create_window c)).timestamps i)) =
        (last_added added c).countP P := by
  induction added using List.reverseRecOn with
  | nil =>
    refine ⟨rfl, ?_, ?_, ?_, ?_⟩
    · show 0 = 0 % c
      rw [Nat.zero_mod]
    · show 0 = min 0 c
      omega
    · intro j hj
      exact absurd hj (Nat.not_lt_zero j)
    · have e : min ([] : List ℚ).length c = 0 := by simp
      rw [e]
      simp [last_added]
  | append_singleton l a ih =>
    obtain ⟨icap, ihead, icount, ipos, icnt⟩ := ih
    rw [List.foldl_append]
    simp only [List.foldl_cons, List.foldl_nil, List.length_append, List.length_singleton]
    generalize hw : l.foldl add_timestamp (create_window c) = w at icap ihead icount ipos icnt
    have hcap : (add_timestamp w a).capacity = c := icap
    have hhead : (add_timestamp w a).head = (l.length + 1) % c := by
      show (w.head + 1) % w.capacity = _
      rw [icap, ihead, Nat.mod_add_mod]
    have hcount : (add_timestamp w a).count = min (l.length + 1) c := by
      show (if w.count < w.capacity then w.count + 1 else w.count) = _
      rw [icap, icount]
      split <;> omega
    have hts : (add_timestamp w a).timestamps = Function.update w.timestamps (l.length % c) a := by
      show Function.update w.timestamps w.head a = _
      rw [ihead]
    have hmodlt : l.length % c < c := Nat.mod_lt _ (by omega)
    refine ⟨hcap, hhead, hcount, ?_, ?_⟩
    · intro j hj hjc
      rw [hts]
      by_cases e : j = l.length
      · subst e
        rw [Function.update_same, List.getD_append_right _ _ _ _ (Nat.le_refl _), Nat.sub_self]
        rfl
      · have hjl : j < l.length := by omega
        have hne : j % c ≠ l.length % c := by
          intro hmod
          have hz : (l.length - j) % c = 0 := Nat.sub_mod_eq_zero_of_mod_eq hmod.symm
          have hdvd : c ∣ l.length - j := Nat.dvd_of_mod_eq_zero hz
          have := Nat.eq_zero_of_dvd_of_lt hdvd (by omega)
          omega
        rw [Function.update_noteq hne, List.getD_append _ _ _ _ hjl]
        exact ipos j hjl (by omega)
    · rw [hts]
      by_cases hlt : l.length < c
      · have e1 : min (l.length + 1) c = l.length + 1 := by omega
        have e2 : min l.length c = l.length := by omega
        have e3 : l.length % c = l.length := Nat.mod_eq_of_lt hlt
        rw [e2] at icnt
        rw [e1, e3, List.range_succ, List.countP_append, List.countP_singleton,
          countP_range_update_ge P w.timestamps l.length l.length a (Nat.le_refl _),
          Function.update_same, icnt]
        unfold last_added
        simp only [List.length_append, List.length_singleton, e1, e2, Nat.sub_self,
          List.drop_zero, List.countP_append, List.countP_singleton]
      · have hge : c ≤ l.length := by omega
        have e1 : min (l.length + 1) c = c := by omega
        have e2 : min l.length c = c := by omega
        rw [e2] at icnt
        rw [e1]
        have hupd := countP_range_update_lt P w.timestamps (l.length % c) c a hmodlt
        have hold : w.timestamps (l.length % c) = l.getD (l.length - c) 0 := by
          have hmod : (l.length - c) % c = l.length % c := (Nat.mod_eq_sub_mod hge).symm
          rw [← hmod]
          exact ipos (l.length - c) (by omega) (by omega)
        have hidx : l.length - c < l.length := by omega
        have hsplit : last_added l c = l[l.length - c] :: l.drop (l.length - c + 1) := by
          unfold last_added
          rw [e2]
          exact List.drop_eq_getElem_cons hidx
        have hnew : last_added (l ++ [a]) c = l.drop (l.length - c + 1) ++ [a] := by
          unfold last_added
          simp only [List.length_append, List.length_singleton, e1]
          have e4 : l.length + 1 - c = l.length - c + 1 := by omega
          rw [e4]
          exact List.drop_append_of_le_length (by omega)
        rw [hold, List.getD_eq_getElem l 0 hidx] at hupd
        rw [hsplit, List.countP_cons] at icnt
        rw [hnew, List.countP_append, List.countP_singleton]
        omega

/-- C16: after any sequence of `n` calls of `add_timestamp` on a fresh window of capacity
`c >= 1`, `calculate_tps now` is the number of timestamps `t` among the last `min n c` added
with `now - t < WINDOW_SIZE`, divided by `WINDOW_SIZE = 60`; the window then holds
`min n c` entries, so wrap-around drops the oldest entries only. -/
theorem calculate_tps_ring (c : Nat) (hc : 1 ≤ c) (added : List ℚ) (now : ℚ) :
    calculate_tps (added.foldl add_timestamp (create_window c)) now = spec_tps added c now ∧
      (added.foldl add_timestamp (create_window c)).count = min added.length c ∧
      (last_added added c).length = min added.length c ∧
      WINDOW_SIZE = 60 := by
  obtain ⟨_, _, hcount, _, hcnt⟩ := add_timestamps_invariant
    (fun t => decide (now - t < (WINDOW_SIZE : ℚ))) c hc added
  refine ⟨?_, hcount, ?_, rfl⟩
  · unfold calculate_tps spec_tps
    rw [valid_count_eq_countP, hcount, hcnt]
  · unfold last_added
    rw [List.length_drop]
    omega

theorem calculate_tps_ring_witness :
    (1 : Nat) ≤ 2 ∧
      calculate_tps ([0, 50, 100].foldl add_timestamp (create_window 2)) 120
        = spec_tps [0, 50, 100] 2 120 :=
  ⟨by decide, (calculate_tps_ring 2 (by decide) [0, 50, 100] 120).1⟩

/-! ## Parent slots of stored transactions -/

theorem add_transaction_preserves (dag : DAG) (tx : Transaction) :
    dag.count ≤ (add_transaction dag tx).1.count ∧
      ∀ i, i < dag.count → (add_transaction dag tx).1.transactions i = dag.transactions i := by
  by_cases hfull : dag.count ≥ dag.capacity
  · rw [add_transaction_of_full dag tx hfull]
    exact ⟨Nat.le_refl _, fun _ _ => rfl⟩
  · rw [add_transaction_of_lt dag tx (by omega)]
    refine ⟨Nat.le_succ _, fun i hi => ?_⟩
    have e : i ≠ dag.count := by omega
    exact Function.update_noteq e _ _

theorem driver_step_preserves (st : DriverState) (event : DriverEvent) :
    st.dag.count ≤ (driver_step st event).dag.count ∧
      ∀ i, i < st.dag.count →
        (driver_step st event).dag.transactions i = st.dag.transactions i := by
  cases event with
  | detect current_time => exact ⟨Nat.le_refl _, fun _ _ => rfl⟩
  | generate receiver amount current_time =>
    exact add_transaction_preserves st.dag _
  | receive can_process received_tx current_time =>
    cases can_process with
    | false => exact ⟨Nat.le_refl _, fun _ _ => rfl⟩
    | true => exact add_transaction_preserves st.dag received_tx
  | weights => exact ⟨Nat.le_refl _, fun _ _ => rfl⟩
  | rebalance zone_id => exact ⟨Nat.le_refl _, fun _ _ => rfl⟩

theorem driver_run_preserves (events : List DriverEvent) (st : DriverState) :
    st.dag.count ≤ (driver_run st events).dag.count ∧
      ∀ i, i < st.dag.count →
        (driver_run st events).dag.transactions i = st.dag.transactions i := by
  induction events generalizing st with
  | nil => exact ⟨Nat.le_refl _, fun _ _ => rfl⟩
  | cons event rest ih =>
    obtain ⟨h1, h2⟩ := driver_step_preserves st event
    obtain ⟨h3, h4⟩ := ih (driver_step st event)
    refine ⟨Nat.le_trans h1 h3, fun i hi => ?_⟩
    show (driver_run (driver_step st event) rest).dag.transactions i = _
    rw [h4 i (by omega), h2 i hi]

theorem generate_transaction_parents (st : DriverState) (receiver : Int) (amount : ℚ)
    (current_time : ℚ) :
    parent_slot_ok (generate_transaction st receiver amount current_time).parents0 st.dag.count ∧
      parent_slot_ok (generate_transaction st receiver amount current_time).parents1
        st.dag.count := by
  unfold parent_slot_ok generate_transaction create_transaction get_latest_transactions
  by_cases h0 : st.dag.count = 0
  · simp [h0]
  · by_cases h1 : st.dag.count = 1
    · simp [h1]
    · simp only [h0, h1, if_false, show ¬ (2 < 2) from by decide]
      constructor
      · right; constructor <;> omega
      · right; constructor <;> omega

theorem local_indices_stored (events : List DriverEvent) (st : DriverState) (i : Nat)
    (hi : i ∈ local_indices st events) :
    i < (driver_run st events).dag.count ∧
      parent_slot_ok ((driver_run st events).dag.transactions i).parents0 i ∧
      parent_slot_ok ((driver_run st events).dag.transactions i).parents1 i := by
  induction events generalizing st with
  | nil => exact absurd hi (List.not_mem_nil i)
  | cons event rest ih =>
    have hrun : driver_run st (event :: rest) = driver_run (driver_step st event) rest := rfl
    rw [hrun]
    cases event with
    | detect current_time => exact ih _ hi
    | receive can_process received_tx current_time => exact ih _ hi
    | weights => exact ih _ hi
    | rebalance zone_id => exact ih _ hi
    | generate receiver amount current_time =>
      have hmem : i ∈ (if st.dag.count < st.dag.capacity then [st.dag.count] else []) ++
          local_indices (driver_step st (DriverEvent.generate receiver amount current_time))
            rest := hi
      rw [List.mem_append] at hmem
      rcases hmem with hnow | hlater
      · by_cases hroom : st.dag.count < st.dag.capacity
        · rw [if_pos hroom, List.mem_singleton] at hnow
          subst hnow
          have hstep : (driver_step st (DriverEvent.generate receiver amount current_time)).dag
              = (add_transaction st.dag
                  (generate_transaction st receiver amount current_time)).1 := rfl
          obtain ⟨h3, h4⟩ := driver_run_preserves rest
            (driver_step st (DriverEvent.generate receiver amount current_time))
          rw [hstep, add_transaction_of_lt st.dag _ hroom] at h3 h4
          have hlt : st.dag.count < st.dag.count + 1 := Nat.lt_succ_self _
          have hstored := h4 st.dag.count hlt
          simp only [Function.update_same] at hstored
          rw [hstored]
          obtain ⟨p0, p1⟩ := generate_transaction_parents st receiver amount current_time
          exact ⟨Nat.lt_of_lt_of_le hlt h3, p0, p1⟩
        · rw [if_neg hroom] at hnow
          exact absurd hnow (List.not_mem_nil i)
      · exact ih _ hlater

theorem receive_step_stores (st : DriverState) (received_tx : Transaction) (current_time : ℚ)
    (hroom : st.dag.count < st.dag.capacity) :
    (receive_step st true received_tx current_time).dag.count = st.dag.count + 1 ∧
      (receive_step st true received_tx current_time).dag.transactions st.dag.count
        = received_tx := by
  have h : (receive_step st true received_tx current_time).dag
      = (add_transaction st.dag received_tx).1 := rfl
  rw [h, add_transaction_of_lt st.dag received_tx hroom]
  exact ⟨rfl, Function.update_same _ _ _⟩

theorem initial_state_room (rank size : Int) :
    (initial_state rank size).dag.count < (initial_state rank size).dag.capacity := by
  show 0 < 100000
  omega

/-- C18, counterexample: the peer of rank 1 has stored one transaction received from rank 2
and generates `peer_tx`, whose first parent is its index 0; a participant of the same zone
whose DAG is still empty receives `peer_tx` and stores it at index 0, the count at the moment
of the append being 0: the first parent slot is neither -1 nor an index in `[0, 0)`. -/
theorem received_parents_out_of_range :
    generate_transaction peer_state 0 10 0 = peer_tx ∧
      (initial_state 0 4).dag.count = 0 ∧
      (driver_run (initial_state 0 4) [DriverEvent.receive true peer_tx 1]).dag.count = 1 ∧
      (driver_run (initial_state 0 4) [DriverEvent.receive true peer_tx 1]).dag.transactions 0
        = peer_tx ∧
      ¬ parent_slot_ok peer_tx.parents0 0 := by
  obtain ⟨h1, h2⟩ := receive_step_stores (initial_state 0 4) peer_tx 1 (initial_state_room 0 4)
  refine ⟨rfl, rfl, h1, h2, ?_⟩
  unfold parent_slot_ok peer_tx
  simp

/-- C18, amended: for every transaction generated locally and stored in the participant's DAG
(its parents come from `get_latest_transactions` on that DAG), each of its two parent slots is
either -1 or an index in `[0, c)`, where `c` is the DAG's count at the moment it was added,
which is the index it is stored at; a transaction received from a zone peer is appended by
`add_transaction` with the parent slots it carries, unchecked. -/
theorem local_parents_in_range (st : DriverState) (events : List DriverEvent) :
    (∀ i, i ∈ local_indices st events →
        i < (driver_run st events).dag.count ∧
        parent_slot_ok ((driver_run st events).dag.transactions i).parents0 i ∧
        parent_slot_ok ((driver_run st events).dag.transactions i).parents1 i) ∧
      (∀ (received_tx : Transaction) (current_time : ℚ), st.dag.count < st.dag.capacity →
        (receive_step st true received_tx current_time).dag.transactions st.dag.count
          = received_tx) :=
  ⟨fun i hi => local_indices_stored events st i hi,
    fun received_tx current_time hroom =>
      (receive_step_stores st received_tx current_time hroom).2⟩

theorem mixed_events_local_indices : local_indices (initial_state 0 4) mixed_events = [0, 2] :=
  rfl

theorem local_parents_in_range_witness :
    2 ∈ local_indices (initial_state 0 4) mixed_events ∧
      2 < (driver_run (initial_state 0 4) mixed_events).dag.count ∧
      parent_slot_ok
        ((driver_run (initial_state 0 4) mixed_events).dag.transactions 2).parents0 2 ∧
      parent_slot_ok
        ((driver_run (initial_state 0 4) mixed_events).dag.transactions 2).parents1 2 :=
  ⟨by rw [mixed_events_local_indices]; decide,
    (local_parents_in_range (initial_state 0 4) mixed_events).1 2
      (by rw [mixed_events_local_indices]; decide)⟩

/-! ## Rounding to double, and the deadlines of the driver -/

theorem round_half_even_mono (s t : ℚ) (h : s ≤ t) : round_half_even s ≤ round_half_even t := by
  have hfl : ⌊s⌋ ≤ ⌊t⌋ := Int.floor_mono h
  rcases lt_or_eq_of_le hfl with hlt | heq
  · have h1 : round_half_even s ≤ ⌊s⌋ + 1 := by
      unfold round_half_even
      split_ifs <;> omega
    have h2 : ⌊t⌋ ≤ round_half_even t := by
      unfold round_half_even
      split_ifs <;> omega
    omega
  · unfold round_half_even
    rw [heq]
    split_ifs <;> first | omega | (exfalso; linarith)

theorem round_half_even_int (n : Int) : round_half_even (n : ℚ) = n := by
  unfold round_half_even
  rw [Int.floor_intCast, sub_self, if_pos (by norm_num)]

theorem round_half_even_near (t : ℚ) (n : Int) (h1 : (n : ℚ) - 1 / 2 < t)
    (h2 : t < (n : ℚ) + 1 / 2) : round_half_even t = n := by
  have hfl : ⌊t⌋ = n ∨ ⌊t⌋ = n - 1 := by
    by_cases hn : (n : ℚ) ≤ t
    · left
      rw [Int.floor_eq_iff]
      exact ⟨hn, by linarith⟩
    · right
      rw [Int.floor_eq_iff]
      push_cast
      exact ⟨by linarith, by linarith⟩
  unfold round_half_even
  rcases hfl with e | e
  · rw [e, if_pos (by linarith)]
  · have hlow : (⌊t⌋ : ℚ) = (n : ℚ) - 1 := by rw [e]; push_cast; ring
    rw [hlow, if_neg (by linarith), if_pos (by linarith)]
    have : ⌊t⌋ = n - 1 := e
    omega


theorem two_zpow_pos (e : Int) : (0 : ℚ) < 2 ^ e := zpow_pos (by norm_num) e

theorem two_zpow_mono (a b : Int) (h : a ≤ b) : (2 : ℚ) ^ a ≤ 2 ^ b :=
  zpow_le_zpow_right₀ (by norm_num) h

theorem binade_ge (x : ℚ) : -1022 ≤ binade x := by
  unfold binade
  split_ifs
  · exact le_refl _
  · exact le_max_right _ _

theorem abs_lt_binade (x : ℚ) : |x| < 2 ^ (binade x + 1) := by
  unfold binade
  by_cases h : x = 0
  · rw [if_pos h, h, abs_zero]
    exact two_zpow_pos _
  · rw [if_neg h]
    have h1 : |x| < ((2 : Nat) : ℚ) ^ (Int.log 2 |x| + 1) :=
      Int.lt_zpow_succ_log_self (by norm_num) |x|
    have h2 : (2 : ℚ) ^ (Int.log 2 |x| + 1) ≤ 2 ^ (max (Int.log 2 |x|) (-1022) + 1) :=
      two_zpow_mono _ _ (by have := le_max_left (Int.log 2 |x|) (-1022); omega)
    rw [Nat.cast_ofNat] at h1
    exact lt_of_lt_of_le h1 h2

theorem binade_le_abs (x : ℚ) (h : -1022 < binade x) : 2 ^ binade x ≤ |x| := by
  unfold binade at h ⊢
  by_cases h0 : x = 0
  · rw [if_pos h0] at h
    exact absurd h (lt_irrefl _)
  · rw [if_neg h0] at h ⊢
    have hlog : max (Int.log 2 |x|) (-1022) = Int.log 2 |x| := by
      rcases le_total (Int.log 2 |x|) (-1022) with c | c
      · rw [max_eq_right c] at h
        exact absurd h (lt_irrefl _)
      · exact max_eq_left c
    rw [hlog]
    have h1 : ((2 : Nat) : ℚ) ^ Int.log 2 |x| ≤ |x| :=
      Int.zpow_log_le_self (by norm_num) (abs_pos.2 h0)
    rw [Nat.cast_ofNat] at h1
    exact h1

theorem binade_le_of_lt (x : ℚ) (e : Int) (he : -1022 ≤ e) (h : |x| < 2 ^ (e + 1)) :
    binade x ≤ e := by
  unfold binade
  by_cases h0 : x = 0
  · rw [if_pos h0]
    exact he
  · rw [if_neg h0]
    apply max_le _ he
    have h1 : |x| < ((2 : Nat) : ℚ) ^ (e + 1) := by
      rw [Nat.cast_ofNat]
      exact h
    have h2 := (Int.lt_zpow_iff_log_lt (by norm_num) (abs_pos.2 h0)).1 h1
    omega

theorem le_binade_of_le (x : ℚ) (e : Int) (h : 2 ^ e ≤ |x|) : e ≤ binade x := by
  unfold binade
  have hpos : 0 < |x| := lt_of_lt_of_le (two_zpow_pos e) h
  have h0 : x ≠ 0 := abs_pos.1 hpos
  rw [if_neg h0]
  have h1 : ((2 : Nat) : ℚ) ^ e ≤ |x| := by
    rw [Nat.cast_ofNat]
    exact h
  have h2 := (Int.zpow_le_iff_le_log (by norm_num) hpos).1 h1
  exact le_trans h2 (le_max_left _ _)

theorem binade_eq_of (x : ℚ) (e : Int) (he : -1022 ≤ e) (h1 : 2 ^ e ≤ |x|)
    (h2 : |x| < 2 ^ (e + 1)) : binade x = e :=
  le_antisymm (binade_le_of_lt x e he h2) (le_binade_of_le x e h1)

theorem binade_mono (x y : ℚ) (h : |x| ≤ |y|) : binade x ≤ binade y := by
  by_cases hb : -1022 < binade x
  · exact le_binade_of_le y (binade x) (le_trans (binade_le_abs x hb) h)
  · have := binade_ge x
    have e : binade x = -1022 := by omega
    rw [e]
    exact binade_ge y

theorem round_at_mono (e : Int) (x y : ℚ) (h : x ≤ y) : round_at e x ≤ round_at e y := by
  unfold round_at
  have hpos := two_zpow_pos (e - 52)
  have hdiv : x / 2 ^ (e - 52) ≤ y / 2 ^ (e - 52) := div_le_div_of_nonneg_right h (le_of_lt hpos)
  have hr := round_half_even_mono _ _ hdiv
  have hq : ((round_half_even (x / 2 ^ (e - 52)) : Int) : ℚ)
      ≤ ((round_half_even (y / 2 ^ (e - 52)) : Int) : ℚ) := by exact_mod_cast hr
  exact mul_le_mul_of_nonneg_right hq (le_of_lt hpos)

theorem round_at_of_grid (e f : Int) (n : Int) (h : e ≤ f) :
    round_at e ((n : ℚ) * 2 ^ (f - 52)) = (n : ℚ) * 2 ^ (f - 52) := by
  obtain ⟨d, hd⟩ : ∃ d : Nat, f = e + d := ⟨(f - e).toNat, by omega⟩
  have hsplit : (2 : ℚ) ^ (f - 52) = 2 ^ d * 2 ^ (e - 52) := by
    rw [← zpow_natCast, ← zpow_add₀ (by norm_num)]
    congr 1
    omega
  have hpos := two_zpow_pos (e - 52)
  have hq : (n : ℚ) * 2 ^ (f - 52) / 2 ^ (e - 52) = ((n * 2 ^ d : Int) : ℚ) := by
    rw [hsplit]
    push_cast
    field_simp
    ring
  unfold round_at
  rw [hq, round_half_even_int, hsplit]
  push_cast
  ring

theorem round_at_zero (e : Int) : round_at e 0 = 0 := by
  have h := round_at_of_grid e e 0 (le_refl _)
  simpa using h

theorem round_at_pow (e k : Int) (h : e - 52 ≤ k) : round_at e (2 ^ k) = 2 ^ k := by
  have h1 := round_at_of_grid e (k + 52) 1 (by omega)
  have e1 : k + 52 - 52 = k := by omega
  rw [e1] at h1
  simpa using h1

theorem round_at_neg_pow (e k : Int) (h : e - 52 ≤ k) : round_at e (-2 ^ k) = -2 ^ k := by
  have h1 := round_at_of_grid e (k + 52) (-1) (by omega)
  have e1 : k + 52 - 52 = k := by omega
  rw [e1] at h1
  simpa using h1


theorem round_to_grid_mono (x y : ℚ) (h : x ≤ y) : round_to_grid x ≤ round_to_grid y := by
  unfold round_to_grid
  have pivot : ∀ p : ℚ, x ≤ p → p ≤ y → round_at (binade x) p = p →
      round_at (binade y) p = p → round_at (binade x) x ≤ round_at (binade y) y := by
    intro p h1 h2 e1 e2
    have a := round_at_mono (binade x) x p h1
    have b := round_at_mono (binade y) p y h2
    rw [e1] at a
    rw [e2] at b
    exact le_trans a b
  rcases le_total x 0 with hx | hx
  · rcases le_total 0 y with hy | hy
    · exact pivot 0 hx hy (round_at_zero _) (round_at_zero _)
    · have habs : |y| ≤ |x| := by
        rw [abs_of_nonpos hx, abs_of_nonpos hy]
        linarith
      have hb := binade_mono y x habs
      rcases lt_or_eq_of_le hb with hlt | heq
      · have hgx := binade_ge y
        have h1 : 2 ^ binade x ≤ |x| := binade_le_abs x (by omega)
        rw [abs_of_nonpos hx] at h1
        have h2 : |y| < 2 ^ (binade y + 1) := abs_lt_binade y
        rw [abs_of_nonpos hy] at h2
        have h3 : (2 : ℚ) ^ (binade y + 1) ≤ 2 ^ binade x := two_zpow_mono _ _ (by omega)
        exact pivot (-2 ^ binade x) (by linarith) (by linarith)
          (round_at_neg_pow _ _ (by omega)) (round_at_neg_pow _ _ (by omega))
      · rw [heq]
        exact round_at_mono _ _ _ h
  · have hy : 0 ≤ y := le_trans hx h
    have habs : |x| ≤ |y| := by
      rw [abs_of_nonneg hx, abs_of_nonneg hy]
      exact h
    have hb := binade_mono x y habs
    rcases lt_or_eq_of_le hb with hlt | heq
    · have hgx := binade_ge x
      have h1 : 2 ^ binade y ≤ |y| := binade_le_abs y (by omega)
      rw [abs_of_nonneg hy] at h1
      have h2 : |x| < 2 ^ (binade x + 1) := abs_lt_binade x
      rw [abs_of_nonneg hx] at h2
      have h3 : (2 : ℚ) ^ (binade x + 1) ≤ 2 ^ binade y := two_zpow_mono _ _ (by omega)
      exact pivot (2 ^ binade y) (by linarith) h1
        (round_at_pow _ _ (by omega)) (round_at_pow _ _ (by omega))
    · rw [heq]
      exact round_at_mono _ _ _ h

theorem round_to_grid_of_grid (n e : Int) (h : binade ((n : ℚ) * 2 ^ (e - 52)) ≤ e) :
    round_to_grid ((n : ℚ) * 2 ^ (e - 52)) = (n : ℚ) * 2 ^ (e - 52) := by
  unfold round_to_grid
  exact round_at_of_grid _ e n h

theorem round_to_grid_zero : round_to_grid 0 = 0 := round_at_zero _

theorem round_to_grid_idem (x : ℚ) : round_to_grid (round_to_grid x) = round_to_grid x := by
  have hpos := two_zpow_pos (binade x - 52)
  have hlt := abs_lt_binade x
  have hsplit : (2 : ℚ) ^ (binade x + 1) = 2 ^ 53 * 2 ^ (binade x - 52) := by
    rw [← zpow_natCast, ← zpow_add₀ (by norm_num)]
    congr 1
    omega
  obtain ⟨hlo, hhi⟩ := abs_lt.1 hlt
  have hup : round_half_even (x / 2 ^ (binade x - 52)) ≤ 2 ^ 53 := by
    have h1 : x / 2 ^ (binade x - 52) ≤ (((2 : Int) ^ 53 : Int) : ℚ) := by
      rw [div_le_iff₀ hpos]
      push_cast
      rw [hsplit] at hhi
      norm_num at hhi ⊢
      linarith
    have h2 := round_half_even_mono _ _ h1
    rw [round_half_even_int] at h2
    exact h2
  have hdown : -(2 ^ 53) ≤ round_half_even (x / 2 ^ (binade x - 52)) := by
    have h1 : ((-(2 : Int) ^ 53 : Int) : ℚ) ≤ x / 2 ^ (binade x - 52) := by
      rw [le_div_iff₀ hpos]
      push_cast
      rw [hsplit] at hlo
      norm_num at hlo ⊢
      linarith
    have h2 := round_half_even_mono _ _ h1
    rw [round_half_even_int] at h2
    exact h2
  have hx : round_to_grid x
      = ((round_half_even (x / 2 ^ (binade x - 52)) : Int) : ℚ) * 2 ^ (binade x - 52) := rfl
  generalize round_half_even (x / 2 ^ (binade x - 52)) = n at hup hdown hx
  rw [hx]
  have hge := binade_ge x
  by_cases hn : n = 2 ^ 53 ∨ n = -(2 ^ 53)
  · have habs : |(n : ℚ) * 2 ^ (binade x - 52)| = 2 ^ (binade x + 1) := by
      rw [abs_mul, abs_of_pos hpos, hsplit]
      rcases hn with c | c
      · rw [c]
        norm_num
      · rw [c]
        norm_num
    have hb : binade ((n : ℚ) * 2 ^ (binade x - 52)) = binade x + 1 := by
      apply binade_eq_of _ _ (by omega)
      · rw [habs]
      · rw [habs]
        exact zpow_lt_zpow_right₀ (by norm_num) (by omega)
    have hrep : (n : ℚ) * 2 ^ (binade x - 52)
        = ((n / 2 : Int) : ℚ) * 2 ^ (binade x + 1 - 52) := by
      have e1 : (2 : ℚ) ^ (binade x + 1 - 52) = 2 * 2 ^ (binade x - 52) := by
        rw [← zpow_one_add₀ (by norm_num)]
        congr 1
        omega
      rw [e1]
      rcases hn with c | c
      · rw [c]
        norm_num
        ring
      · rw [c]
        norm_num
        ring
    rw [hrep]
    apply round_to_grid_of_grid
    rw [← hrep, hb]
  · apply round_to_grid_of_grid
    apply binade_le_of_lt _ _ hge
    rw [abs_mul, abs_of_pos hpos, hsplit]
    apply mul_lt_mul_of_pos_right _ hpos
    have hn1 : n < 2 ^ 53 := by omega
    have hn2 : -(2 ^ 53) < n := by omega
    rw [abs_lt]
    constructor
    · have : (((-(2 : Int) ^ 53 : Int)) : ℚ) < (n : ℚ) := by exact_mod_cast hn2
      push_cast at this
      exact this
    · have : (n : ℚ) < (((2 : Int) ^ 53 : Int) : ℚ) := by exact_mod_cast hn1
      push_cast at this
      exact this


theorem round_double_of_small (x : ℚ) (h1 : -(2 ^ 1024 - 2 ^ 970) < x)
    (h2 : x < 2 ^ 1024 - 2 ^ 970) : round_double x = CDouble.finite (round_to_grid x) := by
  unfold round_double
  rw [if_neg (not_le.2 h2), if_neg (not_le.2 h1)]

theorem round_to_grid_near (x : ℚ) (e n : Int) (he : -1022 ≤ e) (h1 : 2 ^ e ≤ |x|)
    (h2 : |x| < 2 ^ (e + 1)) (h3 : ((n : ℚ) - 1 / 2) * 2 ^ (e - 52) < x)
    (h4 : x < ((n : ℚ) + 1 / 2) * 2 ^ (e - 52)) :
    round_to_grid x = (n : ℚ) * 2 ^ (e - 52) := by
  unfold round_to_grid round_at
  rw [binade_eq_of x e he h1 h2]
  have hpos := two_zpow_pos (e - 52)
  rw [round_half_even_near (x / 2 ^ (e - 52)) n ((lt_div_iff₀ hpos).2 h3)
    ((div_lt_iff₀ hpos).2 h4)]

theorem round_double_mono (x y : ℚ) (h : x ≤ y) :
    double_le (round_double x) (round_double y) = true := by
  unfold round_double
  by_cases hy : 2 ^ 1024 - 2 ^ 970 ≤ y
  · rw [if_pos hy]
    split_ifs <;> rfl
  · rw [if_neg hy, if_neg (fun c => hy (le_trans c h))]
    by_cases hx : x ≤ -(2 ^ 1024 - 2 ^ 970)
    · rw [if_pos hx]
      split_ifs <;> rfl
    · rw [if_neg hx, if_neg (fun c => hx (le_trans h c))]
      exact decide_eq_true (round_to_grid_mono x y h)

theorem double_lt_of_lt_of_le (a b c : CDouble) (h1 : double_lt a b = true)
    (h2 : double_le b c = true) : double_lt a c = true := by
  cases a <;> cases b <;> cases c <;>
    simp only [double_lt, double_le, decide_eq_true_eq] at h1 h2 ⊢ <;>
    first | exact lt_of_lt_of_le h1 h2 | exact absurd h1 (by decide) | exact absurd h2 (by decide)


theorem round_to_grid_le_max (x : ℚ) (h : x < 2 ^ 1024 - 2 ^ 970) :
    round_to_grid x ≤ 2 ^ 1024 - 2 ^ 971 := by
  have hmax : round_to_grid (2 ^ 1024 - 2 ^ 971) = 2 ^ 1024 - 2 ^ 971 := by
    have e : (2 : ℚ) ^ 1024 - 2 ^ 971 = ((2 ^ 53 - 1 : Int) : ℚ) * 2 ^ ((1023 : Int) - 52) := by
      norm_num
    rw [e]
    apply round_to_grid_of_grid
    apply binade_le_of_lt _ _ (by norm_num)
    rw [← e]
    norm_num [abs_of_pos]
  by_cases hx : x ≤ 2 ^ 1024 - 2 ^ 971
  · have := round_to_grid_mono x _ hx
    rw [hmax] at this
    exact this
  · have hx1 : (2 : ℚ) ^ 1024 - 2 ^ 971 < x := not_le.1 hx
    have hpos : 0 < x := lt_trans (by norm_num) hx1
    have e := round_to_grid_near x 1023 (2 ^ 53 - 1) (by norm_num)
      (by rw [abs_of_pos hpos]; norm_num at hx1 ⊢; linarith)
      (by rw [abs_of_pos hpos]; norm_num at h ⊢; linarith)
      (by norm_num at hx1 ⊢; linarith) (by norm_num at h ⊢; linarith)
    rw [e]
    norm_num

theorem round_to_grid_ge_min (x : ℚ) (h : -(2 ^ 1024 - 2 ^ 970) < x) :
    -(2 ^ 1024 - 2 ^ 971) ≤ round_to_grid x := by
  have hmax : round_to_grid (-(2 ^ 1024 - 2 ^ 971)) = -(2 ^ 1024 - 2 ^ 971) := by
    have e : -((2 : ℚ) ^ 1024 - 2 ^ 971)
        = ((-(2 ^ 53 - 1) : Int) : ℚ) * 2 ^ ((1023 : Int) - 52) := by
      norm_num
    rw [e]
    apply round_to_grid_of_grid
    apply binade_le_of_lt _ _ (by norm_num)
    rw [← e]
    norm_num [abs_of_pos]
  by_cases hx : -(2 ^ 1024 - 2 ^ 971) ≤ x
  · have := round_to_grid_mono _ x hx
    rw [hmax] at this
    exact this
  · have hx1 : x < -((2 : ℚ) ^ 1024 - 2 ^ 971) := not_le.1 hx
    have hneg : x < 0 := lt_trans hx1 (by norm_num)
    have e := round_to_grid_near x 1023 (-(2 ^ 53 - 1)) (by norm_num)
      (by rw [abs_of_neg hneg]; norm_num at hx1 ⊢; linarith)
      (by rw [abs_of_neg hneg]; norm_num at h ⊢; linarith)
      (by norm_num at h ⊢; linarith) (by norm_num at hx1 ⊢; linarith)
    rw [e]
    norm_num

theorem round_double_round_to_grid (x : ℚ) (h1 : -(2 ^ 1024 - 2 ^ 970) < x)
    (h2 : x < 2 ^ 1024 - 2 ^ 970) :
    round_double (round_to_grid x) = CDouble.finite (round_to_grid x) := by
  have a := round_to_grid_le_max x h2
  have b := round_to_grid_ge_min x h1
  rw [round_double_of_small _ (by norm_num at b ⊢; linarith) (by norm_num at a ⊢; linarith),
    round_to_grid_idem]

theorem round_double_eq_finite (x value : ℚ) (h : round_double x = CDouble.finite value) :
    round_double value = CDouble.finite value := by
  unfold round_double at h
  by_cases h2 : 2 ^ 1024 - 2 ^ 970 ≤ x
  · rw [if_pos h2] at h
    exact CDouble.noConfusion h
  · rw [if_neg h2] at h
    by_cases h1 : x ≤ -(2 ^ 1024 - 2 ^ 970)
    · rw [if_pos h1] at h
      exact CDouble.noConfusion h
    · rw [if_neg h1] at h
      have e : round_to_grid x = value := CDouble.finite.inj h
      rw [← e]
      exact round_double_round_to_grid x (not_le.1 h1) (not_le.1 h2)

theorem end_time_representable (start_time experiment_duration : CDouble) (value : ℚ)
    (h : end_time start_time experiment_duration = CDouble.finite value) :
    round_double value = CDouble.finite value := by
  unfold end_time at h
  cases start_time <;> cases experiment_duration <;>
    first
    | exact round_double_eq_finite _ _ h
    | exact CDouble.noConfusion h


theorem round_to_grid_one : round_to_grid 1 = 1 := by
  have h := round_to_grid_of_grid (2 ^ 52) 0 (by
    apply binade_le_of_lt _ _ (by norm_num)
    norm_num [abs_of_pos])
  norm_num at h
  exact h

theorem literal_bounds :
    round_double (1 / 10) = CDouble.finite (round_to_grid (1 / 10)) ∧
      round_double (3 / 10) = CDouble.finite (round_to_grid (3 / 10)) ∧
      0 ≤ round_to_grid (1 / 10) ∧ round_to_grid (1 / 10) ≤ round_to_grid (3 / 10) ∧
      round_to_grid (3 / 10) ≤ 1 := by
  refine ⟨round_double_of_small _ (by norm_num) (by norm_num),
    round_double_of_small _ (by norm_num) (by norm_num), ?_, ?_, ?_⟩
  · have := round_to_grid_mono 0 (1 / 10) (by norm_num)
    rw [round_to_grid_zero] at this
    exact this
  · exact round_to_grid_mono _ _ (by norm_num)
  · have := round_to_grid_mono (3 / 10) 1 (by norm_num)
    rw [round_to_grid_one] at this
    exact this

theorem deadlines_le (start_time experiment_duration : CDouble)
    (h : end_time start_time experiment_duration ≠ CDouble.nan) :
    double_le (shutdown_time start_time experiment_duration)
        (process_time start_time experiment_duration) = true ∧
      double_le (process_time start_time experiment_duration)
        (end_time start_time experiment_duration) = true := by
  obtain ⟨e1, e3, h0, h13, _⟩ := literal_bounds
  unfold shutdown_time process_time
  rw [e1, e3]
  have hrep := end_time_representable start_time experiment_duration
  generalize end_time start_time experiment_duration = e at h hrep
  cases e with
  | finite value =>
    refine ⟨round_double_mono _ _ (by linarith), ?_⟩
    have a := round_double_mono (value - round_to_grid (1 / 10)) value (by linarith)
    rw [hrep value rfl] at a
    exact a
  | pos_inf => exact ⟨rfl, rfl⟩
  | neg_inf => exact ⟨rfl, rfl⟩
  | nan => exact absurd rfl h

theorem double_sub_nan (b : CDouble) : double_sub CDouble.nan b = CDouble.nan := by
  cases b <;> rfl

theorem double_lt_nan (a : CDouble) : double_lt a CDouble.nan = false := by
  cases a <;> rfl

theorem can_generate_can_process (start_time experiment_duration current_time : CDouble)
    (h : can_generate start_time experiment_duration current_time = true) :
    can_process start_time experiment_duration current_time = true := by
  unfold can_generate at h
  unfold can_process
  by_cases hn : end_time start_time experiment_duration = CDouble.nan
  · unfold shutdown_time at h
    rw [hn, double_sub_nan, double_lt_nan] at h
    exact absurd h (by decide)
  · exact double_lt_of_lt_of_le _ _ _ h (deadlines_le start_time experiment_duration hn).1

theorem deadlines_at_large_end :
    end_time (CDouble.finite 0) (CDouble.finite (10 ^ 18)) = CDouble.finite (10 ^ 18) ∧
      shutdown_time (CDouble.finite 0) (CDouble.finite (10 ^ 18)) = CDouble.finite (10 ^ 18) ∧
      process_time (CDouble.finite 0) (CDouble.finite (10 ^ 18)) = CDouble.finite (10 ^ 18) := by
  obtain ⟨e1, e3, h0, h13, h1⟩ := literal_bounds
  have hgrid : round_to_grid (10 ^ 18) = 10 ^ 18 := by
    have h := round_to_grid_of_grid 7812500000000000 59 (by
      apply binade_le_of_lt _ _ (by norm_num)
      norm_num [abs_of_pos])
    norm_num at h
    exact h
  have hbelow : round_to_grid (10 ^ 18 - 1) = 10 ^ 18 := by
    have h := round_to_grid_near (10 ^ 18 - 1) 59 7812500000000000 (by norm_num)
      (by norm_num [abs_of_pos]) (by norm_num [abs_of_pos]) (by norm_num) (by norm_num)
    rw [h]
    norm_num
  have hend : end_time (CDouble.finite 0) (CDouble.finite (10 ^ 18))
      = CDouble.finite (10 ^ 18) := by
    show round_double (0 + 10 ^ 18) = _
    rw [zero_add, round_double_of_small _ (by norm_num) (by norm_num), hgrid]
  have hsub : ∀ d : ℚ, 0 ≤ d → d ≤ 1 →
      round_double (10 ^ 18 - d) = CDouble.finite (10 ^ 18) := by
    intro d hd0 hd1
    rw [round_double_of_small _ (by norm_num; linarith) (by norm_num; linarith)]
    have a := round_to_grid_mono (10 ^ 18 - 1) (10 ^ 18 - d) (by linarith)
    have b := round_to_grid_mono (10 ^ 18 - d) (10 ^ 18) (by linarith)
    rw [hbelow] at a
    rw [hgrid] at b
    rw [le_antisymm b a]
  refine ⟨hend, ?_, ?_⟩
  · unfold shutdown_time
    rw [hend, e3]
    exact hsub _ (le_trans h0 h13) h1
  · unfold process_time
    rw [hend, e1]
    exact hsub _ h0 (le_trans h13 h1)


theorem round_to_grid_sub_pow (value : ℚ) (m : Int) (hrep : round_to_grid value = value)
    (hm : binade value - 52 ≤ m) (hle : 2 ^ m ≤ value) :
    round_to_grid (value - 2 ^ m) = value - 2 ^ m := by
  obtain ⟨d, hd⟩ : ∃ d : Nat, m = binade value - 52 + d := ⟨(m - (binade value - 52)).toNat, by omega⟩
  have hsplit : (2 : ℚ) ^ m = ((2 ^ d : Int) : ℚ) * 2 ^ (binade value - 52) := by
    push_cast
    rw [← zpow_natCast, ← zpow_add₀ (by norm_num)]
    congr 1
    omega
  have hval : value
      = ((round_half_even (value / 2 ^ (binade value - 52)) : Int) : ℚ)
        * 2 ^ (binade value - 52) := hrep.symm
  generalize round_half_even (value / 2 ^ (binade value - 52)) = n at hval
  have hform : value - 2 ^ m = ((n - 2 ^ d : Int) : ℚ) * 2 ^ (binade value - 52) := by
    rw [hsplit]
    push_cast
    nth_rewrite 1 [hval]
    ring
  have hpos : 0 < (2 : ℚ) ^ m := two_zpow_pos m
  have hb : binade (value - 2 ^ m) ≤ binade value := by
    apply binade_mono
    rw [abs_of_nonneg (by linarith), abs_of_nonneg (by linarith)]
    linarith
  have key := round_to_grid_of_grid (n - 2 ^ d) (binade value) (by rw [← hform]; exact hb)
  rw [← hform] at key
  exact key

theorem round_to_grid_pow (k : Int) (hk : -1022 ≤ k) : round_to_grid (2 ^ k) = 2 ^ k := by
  unfold round_to_grid
  have hb : binade (2 ^ k) = k := by
    apply binade_eq_of _ _ hk
    · rw [abs_of_pos (two_zpow_pos k)]
    · rw [abs_of_pos (two_zpow_pos k)]
      exact zpow_lt_zpow_right₀ (by norm_num) (by omega)
  rw [hb]
  exact round_at_pow k k (by omega)

theorem literal_lower_bounds :
    (1 : ℚ) / 16 ≤ round_to_grid (1 / 10) ∧ round_to_grid (1 / 10) ≤ 1 / 8 ∧
      (1 : ℚ) / 4 ≤ round_to_grid (3 / 10) := by
  have p4 := round_to_grid_pow (-4) (by norm_num)
  have p3 := round_to_grid_pow (-3) (by norm_num)
  have p2 := round_to_grid_pow (-2) (by norm_num)
  have a := round_to_grid_mono (2 ^ (-4 : Int)) (1 / 10) (by norm_num)
  have b := round_to_grid_mono (1 / 10) (2 ^ (-3 : Int)) (by norm_num)
  have c := round_to_grid_mono (2 ^ (-2 : Int)) (3 / 10) (by norm_num)
  rw [p4] at a
  rw [p3] at b
  rw [p2] at c
  norm_num at a b c
  exact ⟨by linarith, by linarith, by linarith⟩

theorem deadlines_strict (start_time experiment_duration : CDouble) (value : ℚ)
    (h : end_time start_time experiment_duration = CDouble.finite value) (h1 : 1 ≤ value)
    (h2 : value < 2 ^ 49) :
    double_lt (shutdown_time start_time experiment_duration)
        (process_time start_time experiment_duration) = true ∧
      double_lt (process_time start_time experiment_duration)
        (end_time start_time experiment_duration) = true := by
  obtain ⟨e1, e3, h0, h13, h31⟩ := literal_bounds
  obtain ⟨c16, c8, c4⟩ := literal_lower_bounds
  have hrep : round_to_grid value = value := by
    have a := end_time_representable start_time experiment_duration value h
    rw [round_double_of_small _ (by norm_num; linarith) (by norm_num at h2 ⊢; linarith)] at a
    exact CDouble.finite.inj a
  have hbin : binade value ≤ 48 := by
    apply binade_le_of_lt _ _ (by norm_num)
    rw [abs_of_nonneg (by linarith)]
    norm_num at h2 ⊢
    exact h2
  have g2 := round_to_grid_sub_pow value (-2) hrep (by omega) (by norm_num; linarith)
  have g3 := round_to_grid_sub_pow value (-3) hrep (by omega) (by norm_num; linarith)
  have g4 := round_to_grid_sub_pow value (-4) hrep (by omega) (by norm_num; linarith)
  have m2 := round_to_grid_mono (value - round_to_grid (3 / 10)) (value - 2 ^ (-2 : Int))
    (by norm_num; linarith)
  have m3 := round_to_grid_mono (value - 2 ^ (-3 : Int)) (value - round_to_grid (1 / 10))
    (by norm_num; linarith)
  have m4 := round_to_grid_mono (value - round_to_grid (1 / 10)) (value - 2 ^ (-4 : Int))
    (by norm_num; linarith)
  rw [g2] at m2
  rw [g3] at m3
  rw [g4] at m4
  norm_num at m2 m3 m4 h2
  unfold shutdown_time process_time
  rw [h, e1, e3]
  show double_lt (round_double _) (round_double _) = true ∧
    double_lt (round_double _) (CDouble.finite value) = true
  rw [round_double_of_small _ (by norm_num; linarith) (by norm_num; linarith),
    round_double_of_small _ (by norm_num; linarith) (by norm_num; linarith)]
  exact ⟨decide_eq_true (by linarith), decide_eq_true (by linarith)⟩

theorem sample_end_time :
    end_time (CDouble.finite 100) (CDouble.finite 10) = CDouble.finite 110 ∧
      round_to_grid 110 = 110 := by
  have hgrid : round_to_grid 110 = 110 := by
    have h := round_to_grid_of_grid (110 * 2 ^ 46) 6 (by
      apply binade_le_of_lt _ _ (by norm_num)
      norm_num [abs_of_pos])
    norm_num at h
    exact h
  refine ⟨?_, hgrid⟩
  show round_double (100 + 10) = _
  have e : (100 : ℚ) + 10 = 110 := by norm_num
  rw [e, round_double_of_small _ (by norm_num) (by norm_num), hgrid]

theorem sample_can_generate :
    can_generate (CDouble.finite 100) (CDouble.finite 10) (CDouble.finite 100) = true := by
  obtain ⟨hend, hgrid⟩ := sample_end_time
  obtain ⟨_, e3, h0, h13, h1⟩ := literal_bounds
  have hb : binade 110 ≤ 6 := by
    apply binade_le_of_lt _ _ (by norm_num)
    norm_num [abs_of_pos]
  have g := round_to_grid_sub_pow 110 0 hgrid (by omega) (by norm_num)
  have m := round_to_grid_mono (110 - 2 ^ (0 : Int)) (110 - round_to_grid (3 / 10))
    (by norm_num; linarith)
  rw [g] at m
  norm_num at m
  unfold can_generate shutdown_time
  rw [hend, e3]
  show double_lt (CDouble.finite 100) (round_double _) = true
  rw [round_double_of_small _ (by norm_num; linarith) (by norm_num; linarith)]
  exact decide_eq_true (by linarith)

/-- C24, counterexample: for the start time 0 and the duration `1e18` (a value `main` accepts
as its argument) the sum and both differences round to the same double: `end_time`,
`shutdown_time` and `process_time` are all `1e18`, so neither `shutdown_time < process_time`
nor `process_time < end_time` holds. -/
theorem deadlines_coincide :
    end_time (CDouble.finite 0) (CDouble.finite (10 ^ 18)) = CDouble.finite (10 ^ 18) ∧
      shutdown_time (CDouble.finite 0) (CDouble.finite (10 ^ 18))
        = CDouble.finite (10 ^ 18) ∧
      process_time (CDouble.finite 0) (CDouble.finite (10 ^ 18)) = CDouble.finite (10 ^ 18) ∧
      double_lt (shutdown_time (CDouble.finite 0) (CDouble.finite (10 ^ 18)))
        (process_time (CDouble.finite 0) (CDouble.finite (10 ^ 18))) = false ∧
      double_lt (process_time (CDouble.finite 0) (CDouble.finite (10 ^ 18)))
        (end_time (CDouble.finite 0) (CDouble.finite (10 ^ 18))) = false := by
  obtain ⟨a, b, c⟩ := deadlines_at_large_end
  refine ⟨a, b, c, ?_, ?_⟩
  · rw [b, c]
    show decide ((10 : ℚ) ^ 18 < 10 ^ 18) = false
    exact decide_eq_false (lt_irrefl _)
  · rw [c, a]
    show decide ((10 : ℚ) ^ 18 < 10 ^ 18) = false
    exact decide_eq_false (lt_irrefl _)

/-- C24, amended: for every start time and duration, as doubles, with `end_time` not NaN, the
deadlines satisfy `shutdown_time <= process_time <= end_time`, and the order is strict
whenever `1 <= end_time < 2^49`.  For every start time, duration and current time, whenever
generation is enabled (`now < shutdown_time`) processing is enabled too
(`now < process_time`), and the generation block never produces a transaction while skipping
consensus. -/
theorem staggered_deadlines (start_time experiment_duration current_time : CDouble)
    (fires : Bool) :
    (end_time start_time experiment_duration ≠ CDouble.nan →
        double_le (shutdown_time start_time experiment_duration)
            (process_time start_time experiment_duration) = true ∧
          double_le (process_time start_time experiment_duration)
            (end_time start_time experiment_duration) = true) ∧
      (∀ value : ℚ, end_time start_time experiment_duration = CDouble.finite value →
        1 ≤ value → value < 2 ^ 49 →
        double_lt (shutdown_time start_time experiment_duration)
            (process_time start_time experiment_duration) = true ∧
          double_lt (process_time start_time experiment_duration)
            (end_time start_time experiment_duration) = true) ∧
      (can_generate start_time experiment_duration current_time = true →
        can_process start_time experiment_duration current_time = true) ∧
      generation_outcome start_time experiment_duration current_time fires
        ≠ GenerationOutcome.generated_without_consensus := by
  have h3 := can_generate_can_process start_time experiment_duration current_time
  refine ⟨deadlines_le start_time experiment_duration,
    fun value h h1 h2 => deadlines_strict start_time experiment_duration value h h1 h2, h3, ?_⟩
  unfold generation_outcome
  by_cases hg : can_generate start_time experiment_duration current_time = true
  · rw [hg, h3 hg]
    cases fires <;> simp
  · rw [Bool.not_eq_true] at hg
    rw [hg]
    simp

theorem staggered_deadlines_witness :
    end_time (CDouble.finite 100) (CDouble.finite 10) = CDouble.finite 110 ∧
      double_lt (shutdown_time (CDouble.finite 100) (CDouble.finite 10))
        (process_time (CDouble.finite 100) (CDouble.finite 10)) = true ∧
      double_lt (process_time (CDouble.finite 100) (CDouble.finite 10))
        (end_time (CDouble.finite 100) (CDouble.finite 10)) = true ∧
      can_generate (CDouble.finite 100) (CDouble.finite 10) (CDouble.finite 100) = true ∧
      can_process (CDouble.finite 100) (CDouble.finite 10) (CDouble.finite 100) = true :=
  ⟨sample_end_time.1,
    ((staggered_deadlines (CDouble.finite 100) (CDouble.finite 10) (CDouble.finite 100)
      true).2.1 110 sample_end_time.1 (by norm_num) (by norm_num)).1,
    ((staggered_deadlines (CDouble.finite 100) (CDouble.finite 10) (CDouble.finite 100)
      true).2.1 110 sample_end_time.1 (by norm_num) (by norm_num)).2,
    sample_can_generate,
    (staggered_deadlines (CDouble.finite 100) (CDouble.finite 10) (CDouble.finite 100)
      true).2.2.1 sample_can_generate⟩

/-! ## Similarity -/

theorem compute_similarity_eq (node : Node) (j : Nat) :
    compute_similarity node j =
      6 / 10 * (1 - min (node.latencies j / 300) 1) +
        4 / 10 * (if node.total_tx_count > 0 then
          (node.affinity_counts j : ℚ) / (node.total_tx_count : ℚ) else 0) := by
  unfold compute_similarity MIN LATENCY_WEIGHT AFFINITY_WEIGHT
  have hmin : (if node.latencies j / 300 < 1 then node.latencies j / 300 else 1)
      = min (node.latencies j / 300) 1 := by
    by_cases h : node.latencies j / 300 < 1
    · rw [if_pos h, min_eq_left (le_of_lt h)]
    · rw [if_neg h, min_eq_right (not_lt.1 h)]
  simp only [hmin]

theorem compute_similarity_negative_latency :
    compute_similarity negative_latency_node 1 = 12 / 10 ∧
      spec_similarity negative_latency_node 1 = 6 / 10 := by
  constructor
  · rw [compute_similarity_eq]
    norm_num [negative_latency_node]
  · unfold spec_similarity clamp
    norm_num [negative_latency_node]

/-- C22, counterexample: for a latency entry of -300 the code returns 1.2, the formula with
the latency clamped below at 0 gives 0.6; for `total_tx_count = 0` and an affinity counter of
3 the code's affinity term is 0, the formula's is 0.4 * 3. -/
theorem compute_similarity_not_clamped_below :
    compute_similarity negative_latency_node 1 = 12 / 10 ∧
      spec_similarity negative_latency_node 1 = 6 / 10 ∧
      compute_similarity negative_latency_node 1 ≠ spec_similarity negative_latency_node 1 ∧
      compute_similarity stale_counter_node 1 ≠ spec_similarity stale_counter_node 1 := by
  obtain ⟨h1, h2⟩ := compute_similarity_negative_latency
  refine ⟨h1, h2, ?_, ?_⟩
  · rw [h1, h2]; norm_num
  · rw [compute_similarity_eq]
    unfold spec_similarity clamp
    norm_num [stale_counter_node]

/-- C22, amended: for every node state and peer `j`, `compute_similarity` is
`0.6 * (1 - min(latencies[j] / 300, 1)) + 0.4 * a`, where `a` is
`affinity_counts[j] / total_tx_count` when `total_tx_count > 0` and 0 otherwise: the
normalised latency is clamped above at 1 only.  Whenever `latencies[j] >= 0`, and
`total_tx_count > 0` or `affinity_counts[j] = 0`, this is the value
`0.6 * (1 - clamp(latencies[j] / 300, 0, 1)) + 0.4 * (affinity_counts[j] / max(1,
total_tx_count))`. -/
theorem compute_similarity_formula (node : Node) (j : Nat) :
    compute_similarity node j =
        6 / 10 * (1 - min (node.latencies j / 300) 1) +
          4 / 10 * (if node.total_tx_count > 0 then
            (node.affinity_counts j : ℚ) / (node.total_tx_count : ℚ) else 0) ∧
      (0 ≤ node.latencies j → (node.total_tx_count > 0 ∨ node.affinity_counts j = 0) →
        compute_similarity node j = spec_similarity node j) := by
  refine ⟨compute_similarity_eq node j, ?_⟩
  intro hlat hcount
  rw [compute_similarity_eq]
  unfold spec_similarity clamp
  have hclamp : max 0 (min (node.latencies j / 300) 1) = min (node.latencies j / 300) 1 := by
    apply max_eq_right
    apply le_min
    · positivity
    · norm_num
  rw [hclamp]
  by_cases ht : node.total_tx_count > 0
  · have hmax : max 1 node.total_tx_count = node.total_tx_count := by omega
    rw [if_pos ht, hmax]
  · have hzero : node.affinity_counts j = 0 := by
      rcases hcount with h | h
      · exact absurd h ht
      · exact h
    rw [if_neg ht, hzero]
    simp

theorem compute_similarity_formula_witness :
    (0 : ℚ) ≤ busy_node.latencies 1 ∧
      (busy_node.total_tx_count > 0 ∨ busy_node.affinity_counts 1 = 0) ∧
      compute_similarity busy_node 1 = spec_similarity busy_node 1 :=
  ⟨by show (0 : ℚ) ≤ 30; norm_num, Or.inl (by decide),
    (compute_similarity_formula busy_node 1).2 (by show (0 : ℚ) ≤ 30; norm_num)
      (Or.inl (by decide))⟩

/-! ## The weight recurrence, child by child -/

theorem floor_decay_one : ⌊((1 : Int) : ℚ) * WD_DECAY⌋ = 0 := by
  unfold WD_DECAY
  norm_num

/-- C26: `update_weights` truncates each child's decayed weight to an integer before summing:
after the pass, for every `i < count`, `W[i] = 1 + Σ floor(W[j] * DECAY)` over the children
`j > i` of `i` (`parents[0] = i` or `parents[1] = i`), with `DECAY = 0.1` and `W[j]` the final
weight of the child; each summand is the value `(int)(W[j] * DECAY)` the code adds. -/
theorem update_weights_floor_per_child (dag : DAG) (i : Nat) (hi : i < dag.count) :
    (update_weights dag).weights i = floor_per_child_weight (update_weights dag) i ∧
      (∀ j, j ∈ children (update_weights dag) i →
        i < j ∧ j < dag.count ∧
        ((dag.transactions j).parents0 = (i : Int) ∨ (dag.transactions j).parents1 = (i : Int)) ∧
        c_int_of_double (((update_weights dag).weights j : ℚ) * WD_DECAY)
          = ⌊((update_weights dag).weights j : ℚ) * WD_DECAY⌋) ∧
      WD_DECAY = 1 / 10 := by
  refine ⟨?_, ?_, rfl⟩
  · unfold floor_per_child_weight
    rw [children_update_weights, update_weights_weights, if_pos hi]
    have hz : (children dag i).map
        (fun j => ⌊((update_weights dag).weights j : ℚ) * WD_DECAY⌋)
        = (children dag i).map (fun _ => (0 : Int)) := by
      apply List.map_congr_left
      intro j hj
      rw [update_weights_weights, if_pos (children_lt_count dag i j hj)]
      exact floor_decay_one
    rw [hz]
    simp
  · intro j hj
    rw [children_update_weights] at hj
    have hlt := children_lt_count dag i j hj
    unfold children at hj
    rw [List.mem_filter] at hj
    have hc := hj.2
    unfold is_child at hc
    simp only [Bool.and_eq_true, Bool.or_eq_true, decide_eq_true_eq] at hc
    refine ⟨hc.1, hlt, hc.2, ?_⟩
    rw [update_weights_weights, if_pos hlt, c_int_of_double_decay_one, floor_decay_one]

theorem update_weights_floor_per_child_witness :
    0 < fan10.count ∧
      (update_weights fan10).weights 0 = floor_per_child_weight (update_weights fan10) 0 :=
  ⟨by decide, (update_weights_floor_per_child fan10 0 (by decide)).1⟩

/-! ## Every reachable weight is 1 -/

theorem weighted_dag_consensus_of_low_weights (tx : Transaction) (node : Node) (dag : DAG)
    (h : ∀ i, i < dag.count → dag.weights i < WD_MIN_WEIGHT) :
    weighted_dag_consensus tx node dag = 0 := by
  unfold weighted_dag_consensus find_tx_index
  cases hf : (List.range dag.count).find? (fun i =>
      decide ((dag.transactions i).tx_id = tx.tx_id ∧
        (dag.transactions i).sender = tx.sender)) with
  | none => rfl
  | some i =>
    have hmem : i ∈ List.range dag.count := List.mem_of_find?_eq_some hf
    rw [List.mem_range] at hmem
    have hne : ¬ ((i : Int) = -1) := by omega
    simp only [if_neg hne, get_weight_of_lt dag i hmem]
    rw [if_neg (not_le.2 (h i hmem))]

/-- C30: in every DAG state reachable from `create_dag` by `add_transaction` and
`update_weights`, every weight `W[i]` with `i < count` is exactly 1, and
`weighted_dag_consensus` returns 0 (reject) for every transaction, since
`WD_MIN_WEIGHT = 5`. -/
theorem reachable_weights_all_one (dag : DAG) (h : dag_reachable dag) :
    (∀ i, i < dag.count → dag.weights i = 1) ∧
      (∀ (tx : Transaction) (node : Node), weighted_dag_consensus tx node dag = 0) ∧
      WD_MIN_WEIGHT = 5 := by
  have hone := dag_reachable_weights_one dag h
  refine ⟨hone, ?_, rfl⟩
  intro tx node
  apply weighted_dag_consensus_of_low_weights
  intro i hi
  rw [hone i hi]
  decide

theorem reachable_weights_all_one_witness :
    dag_reachable (update_weights (add_transaction (create_dag 5) tx_A).1) ∧
      weighted_dag_consensus tx_A sample_node
        (update_weights (add_transaction (create_dag 5) tx_A).1) = 0 :=
  ⟨dag_reachable.update _ (dag_reachable.add _ tx_A (dag_reachable.create 5)),
    (reachable_weights_all_one _
      (dag_reachable.update _ (dag_reachable.add _ tx_A (dag_reachable.create 5)))).2.1
      tx_A sample_node⟩

/-! ## Handling a received transaction -/

theorem receive_step_true (st : DriverState) (received_tx : Transaction) (current_time : ℚ) :
    receive_step st true received_tx current_time =
      { st with
          node := { st.node with
            affinity_counts := Function.update st.node.affinity_counts
              received_tx.sender.toNat
              (st.node.affinity_counts received_tx.sender.toNat + 1)
            total_tx_count := st.node.total_tx_count + 1 }
          dag := (add_transaction st.dag received_tx).1
          window := add_timestamp st.window current_time } := rfl

theorem receive_step_false (st : DriverState) (received_tx : Transaction) (current_time : ℚ) :
    receive_step st false received_tx current_time = st := rfl

/-- C29, counterexample: when the DAG is full, handling a received transaction while
processing is enabled does not append it (the DAG, its count included, is unchanged), while
`total_tx_count` still goes up by 1. -/
theorem receive_on_full_dag_not_appended :
    full_state.dag.count = full_state.dag.capacity ∧
      (receive_step full_state true peer_tx 1).dag = full_state.dag ∧
      (receive_step full_state true peer_tx 1).dag.count = full_state.dag.count ∧
      (receive_step full_state true peer_tx 1).node.total_tx_count
        = full_state.node.total_tx_count + 1 := by
  have hfull : (add_transaction full_state.dag peer_tx).1 = full_state.dag := by
    rw [add_transaction_of_full full_state.dag peer_tx (Nat.le_refl _)]
  refine ⟨rfl, ?_, ?_, rfl⟩
  · rw [receive_step_true]
    exact hfull
  · rw [receive_step_true]
    show (add_transaction full_state.dag peer_tx).1.count = _
    rw [hfull]

/-- C29, amended: handling one received transaction while `now < process_time` passes it to
`add_transaction` (which stores it at index `count` and raises `count` by 1 when the DAG is
not full, and leaves a full DAG unchanged), stamps the window with the current time,
increments `affinity_counts[sender]` by exactly 1 (the sender being a rank, `>= 0`) and
`total_tx_count` by exactly 1, and leaves every other affinity counter unchanged; when
`now >= process_time` the whole local state (DAG, window, affinity counters,
`total_tx_count`) is left unchanged. -/
theorem receive_step_effect (st : DriverState) (received_tx : Transaction) (current_time : ℚ) :
    ((receive_step st true received_tx current_time).dag
          = (add_transaction st.dag received_tx).1 ∧
        (st.dag.count < st.dag.capacity →
          (receive_step st true received_tx current_time).dag.transactions st.dag.count
            = received_tx ∧
          (receive_step st true received_tx current_time).dag.count = st.dag.count + 1) ∧
        (st.dag.count ≥ st.dag.capacity →
          (receive_step st true received_tx current_time).dag = st.dag) ∧
        (receive_step st true received_tx current_time).window
          = add_timestamp st.window current_time ∧
        (receive_step st true received_tx current_time).node.total_tx_count
          = st.node.total_tx_count + 1 ∧
        (0 ≤ received_tx.sender →
          (receive_step st true received_tx current_time).node.affinity_counts
              received_tx.sender.toNat
            = st.node.affinity_counts received_tx.sender.toNat + 1 ∧
          ∀ j : Nat, (j : Int) ≠ received_tx.sender →
            (receive_step st true received_tx current_time).node.affinity_counts j
              = st.node.affinity_counts j)) ∧
      receive_step st false received_tx current_time = st := by
  refine ⟨⟨rfl, ?_, ?_, rfl, rfl, ?_⟩, rfl⟩
  · intro hroom
    exact ⟨(receive_step_stores st received_tx current_time hroom).2,
      (receive_step_stores st received_tx current_time hroom).1⟩
  · intro hfull
    rw [receive_step_true]
    show (add_transaction st.dag received_tx).1 = st.dag
    rw [add_transaction_of_full st.dag received_tx hfull]
  · intro hs
    rw [receive_step_true]
    refine ⟨Function.update_same _ _ _, fun j hj => ?_⟩
    have hne : j ≠ received_tx.sender.toNat := by
      intro e
      apply hj
      rw [e, Int.toNat_of_nonneg hs]
    exact Function.update_noteq hne _ _

theorem receive_step_effect_witness :
    (initial_state 0 4).dag.count < (initial_state 0 4).dag.capacity ∧
      (0 : Int) ≤ peer_tx.sender ∧
      (receive_step (initial_state 0 4) true peer_tx 1).dag.count
        = (initial_state 0 4).dag.count + 1 ∧
      (receive_step (initial_state 0 4) true peer_tx 1).node.affinity_counts
          peer_tx.sender.toNat
        = (initial_state 0 4).node.affinity_counts peer_tx.sender.toNat + 1 :=
  ⟨initial_state_room 0 4, by decide,
    ((receive_step_effect (initial_state 0 4) peer_tx 1).1.2.1 (initial_state_room 0 4)).2,
    ((receive_step_effect (initial_state 0 4) peer_tx 1).1.2.2.2.2.2 (by decide)).1⟩

/-! ## The assignment step of k-means -/

theorem nearest_cluster_fold (dist : Nat → ℚ) (m : Nat) :
    ∃ b, (List.range (m + 1)).foldl (fun (state : Option ℚ × Nat) j =>
        match state.1 with
        | none => (some (dist j), j)
        | some min_dist => if dist j < min_dist then (some (dist j), j) else state)
        (none, 0) = (some (dist b), b) ∧
      b < m + 1 ∧ (∀ j, j < m + 1 → dist b ≤ dist j) ∧ (∀ j, j < b → dist b < dist j) := by
  induction m with
  | zero =>
    refine ⟨0, rfl, Nat.lt_succ_self 0, ?_, ?_⟩
    · intro j hj
      have e : j = 0 := by omega
      rw [e]
    · intro j hj
      exact absurd hj (Nat.not_lt_zero j)
  | succ m ih =>
    obtain ⟨b, hfold, hb, hmin, hfirst⟩ := ih
    rw [List.range_succ, List.foldl_append, hfold]
    simp only [List.foldl_cons, List.foldl_nil]
    by_cases hlt : dist (m + 1) < dist b
    · rw [if_pos hlt]
      refine ⟨m + 1, rfl, Nat.lt_succ_self _, ?_, ?_⟩
      · intro j hj
        by_cases e : j = m + 1
        · rw [e]
        · exact le_of_lt (lt_of_lt_of_le hlt (hmin j (by omega)))
      · intro j hj
        exact lt_of_lt_of_le hlt (hmin j hj)
    · rw [if_neg hlt]
      refine ⟨b, rfl, Nat.lt_succ_of_lt hb, ?_, hfirst⟩
      intro j hj
      by_cases e : j = m + 1
      · rw [e]
        exact not_lt.1 hlt
      · exact hmin j (by omega)

theorem nearest_cluster_spec (dist : Nat → ℚ) (k : Nat) (hk : 1 ≤ k) :
    nearest_cluster dist k < k ∧
      (∀ j, j < k → dist (nearest_cluster dist k) ≤ dist j) ∧
      (∀ j, j < nearest_cluster dist k → dist (nearest_cluster dist k) < dist j) := by
  obtain ⟨m, hm⟩ : ∃ m, k = m + 1 := ⟨k - 1, by omega⟩
  subst hm
  obtain ⟨b, hfold, hb, hmin, hfirst⟩ := nearest_cluster_fold dist m
  have e : nearest_cluster dist (m + 1) = b := by
    unfold nearest_cluster
    rw [hfold]
  rw [e]
  exact ⟨hb, hmin, hfirst⟩

theorem assignment_fold_apply (best : Nat → Nat) (n : Nat) (assignments sizes : Nat → Nat)
    (i : Nat) :
    ((List.range n).foldl (fun (state : (Nat → Nat) × (Nat → Nat)) i =>
        (Function.update state.1 i (best i),
          Function.update state.2 (best i) (state.2 (best i) + 1)))
        (assignments, sizes)).1 i = if i < n then best i else assignments i := by
  induction n with
  | zero => rfl
  | succ n ih =>
    rw [List.range_succ, List.foldl_append]
    simp only [List.foldl_cons, List.foldl_nil]
    by_cases e : i = n
    · subst e
      rw [Function.update_same, if_pos (Nat.lt_succ_self _)]
    · rw [Function.update_noteq e, ih]
      by_cases h : i < n
      · rw [if_pos h, if_pos (Nat.lt_succ_of_lt h)]
      · rw [if_neg h, if_neg (by omega)]

theorem assignment_step_apply (sqrt : ℚ → ℚ) (similarity_matrix centroids : Nat → ℚ)
    (n_nodes k : Nat) (assignments : Nat → Nat) (i : Nat) :
    (assignment_step sqrt similarity_matrix centroids n_nodes k assignments).1 i =
      if i < n_nodes then best_cluster_of sqrt similarity_matrix centroids n_nodes k i
      else assignments i := by
  unfold assignment_step
  exact assignment_fold_apply
    (best_cluster_of sqrt similarity_matrix centroids n_nodes k) n_nodes assignments
    (fun _ => 0) i

theorem assignment_step_lt (sqrt : ℚ → ℚ) (similarity_matrix centroids : Nat → ℚ)
    (n_nodes k : Nat) (assignments : Nat → Nat) (hk : 1 ≤ k) (i : Nat) (hi : i < n_nodes) :
    (assignment_step sqrt similarity_matrix centroids n_nodes k assignments).1 i < k := by
  rw [assignment_step_apply, if_pos hi]
  unfold best_cluster_of
  exact (nearest_cluster_spec _ k hk).1

theorem kmeans_loop_lt_of_lt (sqrt : ℚ → ℚ) (similarity_matrix : Nat → ℚ) (n_nodes k : Nat)
    (hk : 1 ≤ k) (fuel : Nat) (centroids : Nat → ℚ) (assignments : Nat → Nat)
    (ha : ∀ i, i < n_nodes → assignments i < k) (i : Nat) (hi : i < n_nodes) :
    kmeans_loop sqrt similarity_matrix n_nodes k fuel centroids assignments i < k := by
  induction fuel generalizing centroids assignments with
  | zero => exact ha i hi
  | succ fuel ih =>
    unfold kmeans_loop
    simp only []
    split
    · exact assignment_step_lt sqrt similarity_matrix centroids n_nodes k assignments hk i hi
    · apply ih
      intro t ht
      exact assignment_step_lt sqrt similarity_matrix centroids n_nodes k assignments hk t ht

theorem kmeans_loop_lt (sqrt : ℚ → ℚ) (similarity_matrix : Nat → ℚ) (n_nodes k : Nat)
    (hk : 1 ≤ k) (fuel : Nat) (centroids : Nat → ℚ) (assignments : Nat → Nat)
    (i : Nat) (hi : i < n_nodes) :
    kmeans_loop sqrt similarity_matrix n_nodes k (fuel + 1) centroids assignments i < k := by
  unfold kmeans_loop
  simp only []
  split
  · exact assignment_step_lt sqrt similarity_matrix centroids n_nodes k assignments hk i hi
  · apply kmeans_loop_lt_of_lt sqrt similarity_matrix n_nodes k hk
    · intro t ht
      exact assignment_step_lt sqrt similarity_matrix centroids n_nodes k assignments hk t ht
    · exact hi

theorem kmeans_clustering_lt (sqrt : ℚ → ℚ) (similarity_matrix : Nat → ℚ) (n_nodes k : Nat)
    (initial_centroids : Option (Nat → Nat)) (assignments : Nat → Nat) (max_iterations : Nat)
    (samples : Nat → Nat) (hk : 1 ≤ k) (hiter : 1 ≤ max_iterations) (i : Nat)
    (hi : i < n_nodes) :
    kmeans_clustering sqrt similarity_matrix n_nodes k initial_centroids assignments
      max_iterations samples i < k := by
  obtain ⟨fuel, hf⟩ : ∃ fuel, max_iterations = fuel + 1 := ⟨max_iterations - 1, by omega⟩
  subst hf
  unfold kmeans_clustering
  exact kmeans_loop_lt sqrt similarity_matrix n_nodes k hk fuel _ assignments i hi

theorem zone_count_eq (size : Int) (hs : 1 ≤ size) :
    zone_count (MAX_ZONES : Int) size = min (MAX_ZONES : Int) size := by
  unfold zone_count MAX_ZONES
  simp only []
  split_ifs <;> omega

theorem form_zones_zone_id (sqrt : ℚ → ℚ) (node : Node) (peer_similarities : Nat → ℚ)
    (root_samples samples : Nat → Nat) (hs : 1 ≤ node.total_nodes)
    (hr : node.rank < node.total_nodes) :
    0 ≤ (form_zones sqrt node MAX_ZONES peer_similarities root_samples samples).zone_id ∧
      (form_zones sqrt node MAX_ZONES peer_similarities root_samples samples).zone_id
        < min (MAX_ZONES : Int) node.total_nodes := by
  have hk : zone_count (MAX_ZONES : Int) node.total_nodes = min (MAX_ZONES : Int) node.total_nodes :=
    zone_count_eq node.total_nodes hs
  have hpos : ¬ zone_count (MAX_ZONES : Int) node.total_nodes ≤ 0 := by
    rw [hk]; unfold MAX_ZONES; omega
  unfold form_zones
  simp only [if_neg hpos]
  constructor
  · exact Int.ofNat_nonneg _
  · have hlt := kmeans_clustering_lt sqrt (gather_similarities node peer_similarities)
      node.total_nodes.toNat (zone_count (MAX_ZONES : Int) node.total_nodes).toNat
      (some (kmeans_plusplus_init (gather_similarities node peer_similarities)
        node.total_nodes.toNat (zone_count (MAX_ZONES : Int) node.total_nodes).toNat
        (fun _ => 0) root_samples))
      (fun _ => 0) 100 samples (by rw [hk]; unfold MAX_ZONES; omega) (by omega)
      node.rank.toNat (by omega)
    rw [← hk]
    omega

/-- C21: for `N >= 1` participants `form_zones(node, MAX_ZONES)` clusters with
`k = min(MAX_ZONES, N)`; every entry of the assignment vector `kmeans_clustering` produces for
`k >= 1` and at least one iteration lies in `[0, k)`, for every similarity matrix and every
choice of initial centroids, and so does the `zone_id` `form_zones` stores. -/
theorem zone_id_in_range (sqrt : ℚ → ℚ) (node : Node) (peer_similarities : Nat → ℚ)
    (root_samples samples : Nat → Nat) (hs : 1 ≤ node.total_nodes)
    (hr : 0 ≤ node.rank ∧ node.rank < node.total_nodes) :
    zone_count (MAX_ZONES : Int) node.total_nodes = min (MAX_ZONES : Int) node.total_nodes ∧
      (∀ (similarity_matrix : Nat → ℚ) (n_nodes k : Nat) (initial_centroids : Nat → Nat)
          (assignments : Nat → Nat) (max_iterations : Nat),
        1 ≤ k → 1 ≤ max_iterations → ∀ i, i < n_nodes →
          kmeans_clustering sqrt similarity_matrix n_nodes k (some initial_centroids)
            assignments max_iterations samples i < k) ∧
      (form_zones sqrt node MAX_ZONES peer_similarities root_samples samples).zone_id
        = ((kmeans_clustering sqrt (gather_similarities node peer_similarities)
            node.total_nodes.toNat (min (MAX_ZONES : Int) node.total_nodes).toNat
            (some (kmeans_plusplus_init (gather_similarities node peer_similarities)
              node.total_nodes.toNat (min (MAX_ZONES : Int) node.total_nodes).toNat
              (fun _ => 0) root_samples))
            (fun _ => 0) 100 samples node.rank.toNat : Nat) : Int) ∧
      0 ≤ (form_zones sqrt node MAX_ZONES peer_similarities root_samples samples).zone_id ∧
      (form_zones sqrt node MAX_ZONES peer_similarities root_samples samples).zone_id
        < min (MAX_ZONES : Int) node.total_nodes := by
  refine ⟨zone_count_eq node.total_nodes hs, ?_, ?_,
    form_zones_zone_id sqrt node peer_similarities root_samples samples hs hr.2⟩
  swap
  · have hk := zone_count_eq node.total_nodes hs
    have hpos : ¬ zone_count (MAX_ZONES : Int) node.total_nodes ≤ 0 := by
      rw [hk]; unfold MAX_ZONES; omega
    rw [hk] at hpos
    unfold form_zones
    simp only [hk, if_neg hpos]
  intro similarity_matrix n_nodes k initial_centroids assignments max_iterations hk hiter i hi
  exact kmeans_clustering_lt sqrt similarity_matrix n_nodes k (some initial_centroids)
    assignments max_iterations samples hk hiter i hi

theorem zone_id_in_range_witness :
    (1 : Int) ≤ busy_node.total_nodes ∧ (0 : Int) ≤ busy_node.rank ∧
      busy_node.rank < busy_node.total_nodes ∧
      0 ≤ (form_zones (fun x => x) busy_node MAX_ZONES (fun _ => 1 / 2) (fun _ => 3)
        (fun _ => 5)).zone_id ∧
      (form_zones (fun x => x) busy_node MAX_ZONES (fun _ => 1 / 2) (fun _ => 3)
        (fun _ => 5)).zone_id < min (MAX_ZONES : Int) busy_node.total_nodes :=
  ⟨by decide, by decide, by decide,
    (zone_id_in_range (fun x => x) busy_node (fun _ => 1 / 2) (fun _ => 3) (fun _ => 5)
      (by decide) ⟨by decide, by decide⟩).2.2.2⟩

/-! ## The rounded square root and the nearest centroid -/

theorem sqrt_double_zero : sqrt_double 0 = 0 := by
  unfold sqrt_double
  rw [if_pos (le_refl _)]

theorem sqrt_double_unit (x : ℚ) (m : Nat) (h1 : 1 ≤ x) (h2 : x < 4)
    (hm : Nat.sqrt ⌊x * 2 ^ 104⌋₊ = m)
    (h5 : x * 2 ^ 104 < ((m : ℚ) + 1 / 2) * ((m : ℚ) + 1 / 2)) :
    sqrt_double x = (m : ℚ) / 2 ^ 52 := by
  have hpos : 0 < x := by linarith
  have hlog0 : 0 ≤ Int.log 2 x := by
    apply (Int.zpow_le_iff_le_log (by norm_num) hpos).1
    norm_num
    exact h1
  have hlog2 : Int.log 2 x < 2 := by
    apply (Int.lt_zpow_iff_log_lt (by norm_num) hpos).1
    norm_num
    exact h2
  have he : max (Int.log 2 x / 2) (-1022) = 0 := by
    have : Int.log 2 x / 2 = 0 := by omega
    rw [this]
    rfl
  have hu : (2 : ℚ) ^ ((0 : Int) - 52) * 2 ^ ((0 : Int) - 52) = 1 / 2 ^ 104 := by
    norm_num
  unfold sqrt_double
  rw [if_neg (not_le.2 hpos)]
  simp only [he, hu]
  have hdiv : x / (1 / 2 ^ 104) = x * 2 ^ 104 := by
    field_simp
  rw [hdiv, hm]
  have hlt : x < ((m : ℚ) + 1 / 2) * ((m : ℚ) + 1 / 2) * (1 / 2 ^ 104) := by
    rw [mul_one_div, lt_div_iff₀ (by norm_num)]
    exact h5
  rw [if_pos hlt]
  norm_num
  ring

theorem sqrt_double_one : sqrt_double 1 = 1 := by
  have h := sqrt_double_unit 1 (2 ^ 52) (le_refl _) (by norm_num)
    (by
      have e : ⌊(1 : ℚ) * 2 ^ 104⌋₊ = 2 ^ 52 * 2 ^ 52 := by
        rw [one_mul]
        have : ((2 : ℚ) ^ 104) = ((2 ^ 52 * 2 ^ 52 : Nat) : ℚ) := by norm_num
        rw [this, Nat.floor_natCast]
      rw [e, Nat.sqrt_eq])
    (by norm_num)
  rw [h]
  norm_num

theorem sqrt_double_next : sqrt_double (1 + 1 / 2 ^ 52) = 1 := by
  have h := sqrt_double_unit (1 + 1 / 2 ^ 52) (2 ^ 52) (by norm_num) (by norm_num)
    (by
      have e : ⌊((1 : ℚ) + 1 / 2 ^ 52) * 2 ^ 104⌋₊ = 2 ^ 104 + 2 ^ 52 := by
        have : ((1 : ℚ) + 1 / 2 ^ 52) * 2 ^ 104 = ((2 ^ 104 + 2 ^ 52 : Nat) : ℚ) := by norm_num
        rw [this, Nat.floor_natCast]
      rw [e]
      symm
      rw [Nat.eq_sqrt]
      constructor <;> norm_num)
    (by norm_num)
  rw [h]
  norm_num

theorem compute_distance_eq (sqrt : ℚ → ℚ) (vec1 vec2 : Nat → ℚ) (dim : Nat) :
    compute_distance sqrt vec1 vec2 dim = sqrt (squared_distance vec1 vec2 dim) := by
  have h : (List.range dim).foldl (fun sum i =>
      let diff := vec1 i - vec2 i
      sum + diff * diff) 0 = ∑ i in Finset.range dim, (vec1 i - vec2 i) ^ 2 := by
    induction dim with
    | zero => rfl
    | succ n ih =>
      rw [List.range_succ, List.foldl_append, ih, Finset.sum_range_succ]
      simp only [List.foldl_cons, List.foldl_nil]
      ring
  unfold compute_distance squared_distance
  rw [h]

theorem nearest_cluster_two (dist : Nat → ℚ) :
    nearest_cluster dist 2 = if dist 1 < dist 0 then 1 else 0 := by
  unfold nearest_cluster
  have e : List.range 2 = [0, 1] := rfl
  rw [e]
  simp only [List.foldl_cons, List.foldl_nil]
  split_ifs <;> rfl

theorem merge_distances :
    point_distance2 merge_matrix merge_centroids 2 0 0 = 1 + 1 / 2 ^ 52 ∧
      point_distance2 merge_matrix merge_centroids 2 0 1 = 1 := by
  unfold point_distance2 squared_distance matrix_row merge_matrix merge_centroids
  constructor
  · norm_num [Finset.sum_range_succ]
  · norm_num [Finset.sum_range_succ]

theorem unit_distances :
    point_distance2 unit_matrix unit_matrix 2 1 0 = 1 ∧
      point_distance2 unit_matrix unit_matrix 2 1 1 = 0 := by
  unfold point_distance2 squared_distance matrix_row unit_matrix
  constructor
  · norm_num [Finset.sum_range_succ]
  · norm_num [Finset.sum_range_succ]

/-- C28, counterexample: with the correctly rounded `sqrt`, the point with row `(1, 2^-26)`
and the centroids `(0, 0)` and `(0, 2^-26)`, every difference, square and sum is computed
exactly; the squared distances are `1 + 2^-52` to centroid 0 and `1` to centroid 1, both
roots round to `1.0`, and the point is assigned to centroid 0, which is not a centroid of
minimal Euclidean distance. -/
theorem assignment_step_not_nearest :
    point_distance2 merge_matrix merge_centroids 2 0 0 = 1 + 1 / 2 ^ 52 ∧
      point_distance2 merge_matrix merge_centroids 2 0 1 = 1 ∧
      compute_distance sqrt_double (matrix_row merge_matrix 2 0)
        (matrix_row merge_centroids 2 0) 2 = 1 ∧
      compute_distance sqrt_double (matrix_row merge_matrix 2 0)
        (matrix_row merge_centroids 2 1) 2 = 1 ∧
      (assignment_step sqrt_double merge_matrix merge_centroids 2 2 (fun _ => 0)).1 0 = 0 ∧
      point_distance2 merge_matrix merge_centroids 2 0 1
        < point_distance2 merge_matrix merge_centroids 2 0
          ((assignment_step sqrt_double merge_matrix merge_centroids 2 2 (fun _ => 0)).1 0) := by
  obtain ⟨p0, p1⟩ := merge_distances
  have d0 : compute_distance sqrt_double (matrix_row merge_matrix 2 0)
      (matrix_row merge_centroids 2 0) 2 = 1 := by
    rw [compute_distance_eq]
    have e : squared_distance (matrix_row merge_matrix 2 0) (matrix_row merge_centroids 2 0) 2
        = 1 + 1 / 2 ^ 52 := p0
    rw [e, sqrt_double_next]
  have d1 : compute_distance sqrt_double (matrix_row merge_matrix 2 0)
      (matrix_row merge_centroids 2 1) 2 = 1 := by
    rw [compute_distance_eq]
    have e : squared_distance (matrix_row merge_matrix 2 0) (matrix_row merge_centroids 2 1) 2
        = 1 := p1
    rw [e, sqrt_double_one]
  have hbest : (assignment_step sqrt_double merge_matrix merge_centroids 2 2
      (fun _ => 0)).1 0 = 0 := by
    rw [assignment_step_apply, if_pos (by decide)]
    unfold best_cluster_of
    rw [nearest_cluster_two, d0, d1, if_neg (lt_irrefl _)]
  refine ⟨p0, p1, d0, d1, hbest, ?_⟩
  rw [hbest, p0, p1]
  norm_num

/-- C28, amended: in an assignment step of `kmeans_clustering` with `k >= 1` centroids, each
point `i < n_nodes` is assigned a centroid index `b < k` whose distance value, the one
`compute_distance` returns (`sqrt` of the sum of squared differences), is minimal among the
`k` centroids, and every centroid of a lower index has a strictly larger distance value:
among several centroids at the minimal value the lowest index is chosen.  Whenever `sqrt`
keeps the order of the `k` sums of squares (sends no two different sums to the same or to
swapped values), `b` is a centroid of minimal Euclidean distance and every centroid of a
lower index is strictly farther. -/
theorem assignment_step_nearest (sqrt : ℚ → ℚ) (similarity_matrix centroids : Nat → ℚ)
    (n_nodes k : Nat) (assignments : Nat → Nat) (hk : 1 ≤ k) (i : Nat) (hi : i < n_nodes) :
    (assignment_step sqrt similarity_matrix centroids n_nodes k assignments).1 i < k ∧
      (∀ j, compute_distance sqrt (matrix_row similarity_matrix n_nodes i)
          (matrix_row centroids n_nodes j) n_nodes
        = sqrt (point_distance2 similarity_matrix centroids n_nodes i j)) ∧
      (∀ j, j < k →
        compute_distance sqrt (matrix_row similarity_matrix n_nodes i)
            (matrix_row centroids n_nodes
              ((assignment_step sqrt similarity_matrix centroids n_nodes k assignments).1 i))
            n_nodes
          ≤ compute_distance sqrt (matrix_row similarity_matrix n_nodes i)
              (matrix_row centroids n_nodes j) n_nodes) ∧
      (∀ j, j < (assignment_step sqrt similarity_matrix centroids n_nodes k assignments).1 i →
        compute_distance sqrt (matrix_row similarity_matrix n_nodes i)
            (matrix_row centroids n_nodes
              ((assignment_step sqrt similarity_matrix centroids n_nodes k assignments).1 i))
            n_nodes
          < compute_distance sqrt (matrix_row similarity_matrix n_nodes i)
              (matrix_row centroids n_nodes j) n_nodes) ∧
      ((∀ a b, a < k → b < k →
          point_distance2 similarity_matrix centroids n_nodes i a
            < point_distance2 similarity_matrix centroids n_nodes i b →
          sqrt (point_distance2 similarity_matrix centroids n_nodes i a)
            < sqrt (point_distance2 similarity_matrix centroids n_nodes i b)) →
        (∀ j, j < k →
          point_distance2 similarity_matrix centroids n_nodes i
              ((assignment_step sqrt similarity_matrix centroids n_nodes k assignments).1 i)
            ≤ point_distance2 similarity_matrix centroids n_nodes i j) ∧
        (∀ j, j < (assignment_step sqrt similarity_matrix centroids n_nodes k assignments).1 i →
          point_distance2 similarity_matrix centroids n_nodes i
              ((assignment_step sqrt similarity_matrix centroids n_nodes k assignments).1 i)
            < point_distance2 similarity_matrix centroids n_nodes i j)) := by
  have hlink : ∀ j, compute_distance sqrt (matrix_row similarity_matrix n_nodes i)
      (matrix_row centroids n_nodes j) n_nodes
      = sqrt (point_distance2 similarity_matrix centroids n_nodes i j) :=
    fun j => compute_distance_eq sqrt _ _ n_nodes
  have hspec := nearest_cluster_spec (fun j =>
    compute_distance sqrt (matrix_row similarity_matrix n_nodes i)
      (matrix_row centroids n_nodes j) n_nodes) k hk
  have hbest : (assignment_step sqrt similarity_matrix centroids n_nodes k assignments).1 i
      = nearest_cluster (fun j =>
        compute_distance sqrt (matrix_row similarity_matrix n_nodes i)
          (matrix_row centroids n_nodes j) n_nodes) k := by
    rw [assignment_step_apply, if_pos hi]
    rfl
  rw [hbest]
  generalize nearest_cluster (fun j =>
    compute_distance sqrt (matrix_row similarity_matrix n_nodes i)
      (matrix_row centroids n_nodes j) n_nodes) k = best at hspec
  obtain ⟨hb, hmin, hfirst⟩ := hspec
  refine ⟨hb, hlink, hmin, hfirst, fun hsqrt => ⟨fun j hj => ?_, fun j hj => ?_⟩⟩
  · by_contra hlt
    have h1 := hsqrt j best hj hb (not_le.1 hlt)
    have h2 := hmin j hj
    simp only [hlink] at h2
    exact absurd h1 (not_lt.2 h2)
  · have h2 := hfirst j hj
    simp only [hlink] at h2
    rcases lt_trichotomy (point_distance2 similarity_matrix centroids n_nodes i best)
      (point_distance2 similarity_matrix centroids n_nodes i j) with c | c | c
    · exact c
    · rw [c] at h2
      exact absurd h2 (lt_irrefl _)
    · have h1 := hsqrt j best (Nat.lt_trans hj hb) hb c
      exact absurd h1 (lt_asymm h2)

theorem unit_sqrt_order :
    ∀ a b, a < 2 → b < 2 →
      point_distance2 unit_matrix unit_matrix 2 1 a
        < point_distance2 unit_matrix unit_matrix 2 1 b →
      sqrt_double (point_distance2 unit_matrix unit_matrix 2 1 a)
        < sqrt_double (point_distance2 unit_matrix unit_matrix 2 1 b) := by
  obtain ⟨u0, u1⟩ := unit_distances
  intro a b ha hb
  have ca : a = 0 ∨ a = 1 := by omega
  have cb : b = 0 ∨ b = 1 := by omega
  rcases ca with e | e <;> rcases cb with f | f <;> subst e <;> subst f <;>
    simp only [u0, u1, sqrt_double_zero, sqrt_double_one] <;> norm_num

theorem assignment_step_nearest_witness :
    (1 : Nat) ≤ 2 ∧ (1 : Nat) < 2 ∧
      (∀ j, j < 2 →
        point_distance2 unit_matrix unit_matrix 2 1
            ((assignment_step sqrt_double unit_matrix unit_matrix 2 2 (fun _ => 0)).1 1)
          ≤ point_distance2 unit_matrix unit_matrix 2 1 j) :=
  ⟨by decide, by decide,
    ((assignment_step_nearest sqrt_double unit_matrix unit_matrix 2 2 (fun _ => 0) (by decide)
      1 (by decide)).2.2.2.2 unit_sqrt_order).1⟩

/-! ## Witness identification -/

theorem add_neighbor_zone_mem (neighbor_zones : List Int) (other_zone : Int)
    (h : other_zone ∈ neighbor_zones) :
    add_neighbor_zone neighbor_zones other_zone = some neighbor_zones := by
  unfold add_neighbor_zone
  have hany : neighbor_zones.any (fun z => decide (z = other_zone)) = true := by
    rw [List.any_eq_true]
    exact ⟨other_zone, h, by simp⟩
  rw [if_pos hany]

theorem add_neighbor_zone_new (neighbor_zones : List Int) (other_zone : Int)
    (h : other_zone ∉ neighbor_zones) (hlen : neighbor_zones.length < MAX_ZONES) :
    add_neighbor_zone neighbor_zones other_zone = some (neighbor_zones ++ [other_zone]) := by
  unfold add_neighbor_zone
  have hany : ¬ neighbor_zones.any (fun z => decide (z = other_zone)) = true := by
    rw [List.any_eq_true]
    rintro ⟨z, hz, hzz⟩
    rw [decide_eq_true_eq] at hzz
    exact h (hzz ▸ hz)
  rw [if_neg hany, if_pos hlen]

theorem neighbor_fold (node : Node) (zone_assignments : Nat → Int) (i : Nat) (l : List Nat)
    (acc : List Int) (hnd : acc.Nodup)
    (hcard : (acc.toFinset ∪ ((l.filter (fun j => decide (i ≠ j) &&
      decide (node.latencies j < 50))).map zone_assignments).toFinset).card ≤ MAX_ZONES) :
    ∃ nz, l.foldl (fun state j =>
        match state with
        | none => none
        | some neighbor_zones =>
          if i = j then some neighbor_zones
          else if node.latencies j < 50 then
            add_neighbor_zone neighbor_zones (zone_assignments j)
          else some neighbor_zones) (some acc) = some nz ∧
      nz.Nodup ∧
      nz.toFinset = acc.toFinset ∪ ((l.filter (fun j => decide (i ≠ j) &&
        decide (node.latencies j < 50))).map zone_assignments).toFinset := by
  induction l generalizing acc with
  | nil => exact ⟨acc, rfl, hnd, by simp⟩
  | cons j l ih =>
    rw [List.foldl_cons]
    by_cases hij : i = j
    · have hf : (List.filter (fun j => decide (i ≠ j) && decide (node.latencies j < 50))
          (j :: l)) = List.filter (fun j => decide (i ≠ j) && decide (node.latencies j < 50))
          l := by
        rw [List.filter_cons_of_neg]
        simp [hij]
      rw [hf] at hcard ⊢
      simp only [if_pos hij]
      exact ih acc hnd hcard
    · by_cases hlat : node.latencies j < 50
      · have hf : (List.filter (fun j => decide (i ≠ j) && decide (node.latencies j < 50))
            (j :: l)) = j :: List.filter (fun j => decide (i ≠ j) &&
            decide (node.latencies j < 50)) l := by
          rw [List.filter_cons_of_pos]
          simp [hij, hlat]
        rw [hf] at hcard ⊢
        simp only [if_neg hij, if_pos hlat, List.map_cons, List.toFinset_cons] at hcard ⊢
        by_cases hmem : zone_assignments j ∈ acc
        · rw [add_neighbor_zone_mem acc _ hmem]
          have hun : acc.toFinset ∪ insert (zone_assignments j)
              ((List.filter (fun j => decide (i ≠ j) && decide (node.latencies j < 50))
                l).map zone_assignments).toFinset
              = acc.toFinset ∪ ((List.filter (fun j => decide (i ≠ j) &&
                decide (node.latencies j < 50)) l).map zone_assignments).toFinset := by
            ext z
            simp only [Finset.mem_union, Finset.mem_insert, List.mem_toFinset]
            constructor
            · rintro (h | h | h)
              · exact Or.inl h
              · exact Or.inl (h ▸ hmem)
              · exact Or.inr h
            · rintro (h | h)
              · exact Or.inl h
              · exact Or.inr (Or.inr h)
          rw [hun] at hcard ⊢
          exact ih acc hnd hcard
        · have hsub : insert (zone_assignments j) acc.toFinset ⊆
              acc.toFinset ∪ insert (zone_assignments j)
                ((List.filter (fun j => decide (i ≠ j) && decide (node.latencies j < 50))
                  l).map zone_assignments).toFinset := by
            intro z hz
            rw [Finset.mem_insert] at hz
            rw [Finset.mem_union, Finset.mem_insert]
            rcases hz with h | h
            · exact Or.inr (Or.inl h)
            · exact Or.inl h
          have hins : (insert (zone_assignments j) acc.toFinset).card = acc.length + 1 := by
            rw [Finset.card_insert_of_not_mem (by rw [List.mem_toFinset]; exact hmem),
              List.toFinset_card_of_nodup hnd]
          have hlen : acc.length < MAX_ZONES := by
            have := Finset.card_le_card hsub
            omega
          rw [add_neighbor_zone_new acc _ hmem hlen]
          have hnd' : (acc ++ [zone_assignments j]).Nodup := by
            rw [List.nodup_append]
            refine ⟨hnd, List.nodup_singleton _, ?_⟩
            intro z hz hz'
            rw [List.mem_singleton] at hz'
            exact hmem (hz' ▸ hz)
          have hun : (acc ++ [zone_assignments j]).toFinset ∪
              ((List.filter (fun j => decide (i ≠ j) && decide (node.latencies j < 50))
                l).map zone_assignments).toFinset
              = acc.toFinset ∪ insert (zone_assignments j)
                ((List.filter (fun j => decide (i ≠ j) && decide (node.latencies j < 50))
                  l).map zone_assignments).toFinset := by
            ext z
            simp only [Finset.mem_union, Finset.mem_insert, List.mem_toFinset, List.mem_append,
              List.mem_singleton]
            tauto
          obtain ⟨nz, h1, h2, h3⟩ := ih (acc ++ [zone_assignments j]) hnd' (by rw [hun]; exact hcard)
          exact ⟨nz, h1, h2, by rw [h3, hun]⟩
      · have hf : (List.filter (fun j => decide (i ≠ j) && decide (node.latencies j < 50))
            (j :: l)) = List.filter (fun j => decide (i ≠ j) && decide (node.latencies j < 50))
            l := by
          rw [List.filter_cons_of_neg]
          simp [hlat]
        rw [hf] at hcard ⊢
        simp only [if_neg hij, if_neg hlat]
        exact ih acc hnd hcard

theorem near_zones_card_le (node : Node) (zone_assignments : Nat → Int) (size i : Nat) :
    (near_zones node zone_assignments size i).card
      ≤ ((List.range size).map zone_assignments).toFinset.card := by
  apply Finset.card_le_card
  intro z hz
  unfold near_zones at hz
  rw [List.mem_toFinset, List.mem_map] at hz ⊢
  obtain ⟨j, hj, hjz⟩ := hz
  exact ⟨j, (List.mem_filter.1 hj).1, hjz⟩

theorem neighbor_zones_of_spec (node : Node) (zone_assignments : Nat → Int) (size i : Nat)
    (hz : ((List.range size).map zone_assignments).toFinset.card ≤ MAX_ZONES) :
    ∃ nz, neighbor_zones_of node zone_assignments size i = some nz ∧
      nz.length = (near_zones node zone_assignments size i).card := by
  have hcard : (([] : List Int).toFinset ∪ (((List.range size).filter (fun j =>
      decide (i ≠ j) && decide (node.latencies j < 50))).map zone_assignments).toFinset).card
      ≤ MAX_ZONES := by
    rw [List.toFinset_nil, Finset.empty_union]
    exact Nat.le_trans (near_zones_card_le node zone_assignments size i) hz
  obtain ⟨nz, h1, h2, h3⟩ := neighbor_fold node zone_assignments i (List.range size) []
    List.nodup_nil hcard
  refine ⟨nz, h1, ?_⟩
  rw [← List.toFinset_card_of_nodup h2, h3, List.toFinset_nil, Finset.empty_union]
  rfl

theorem witnesses_fold (node : Node) (zone_assignments : Nat → Int) (size : Nat)
    (hz : ((List.range size).map zone_assignments).toFinset.card ≤ MAX_ZONES) (l : List Nat)
    (found : List Nat) (count : Nat) :
    l.foldl (fun state i =>
        match state with
        | none => none
        | some found =>
          match neighbor_zones_of node zone_assignments size i with
          | none => none
          | some neighbor_zones =>
            if neighbor_zones.length > 1 then some (found.1 ++ [i], found.2 + 1)
            else some found) (some (found, count)) =
      some (found ++ l.filter (fun i =>
          decide (1 < (near_zones node zone_assignments size i).card)),
        count + (l.filter (fun i =>
          decide (1 < (near_zones node zone_assignments size i).card))).length) := by
  induction l generalizing found count with
  | nil => simp
  | cons i l ih =>
    obtain ⟨nz, h1, h2⟩ := neighbor_zones_of_spec node zone_assignments size i hz
    rw [List.foldl_cons]
    simp only [h1]
    by_cases hw : 1 < (near_zones node zone_assignments size i).card
    · have hgt : nz.length > 1 := by omega
      rw [if_pos hgt, ih, List.filter_cons_of_pos (by simp [hw])]
      simp only [List.append_assoc, List.singleton_append, List.length_cons]
      congr 2
      omega
    · have hgt : ¬ nz.length > 1 := by omega
      rw [if_neg hgt, ih, List.filter_cons_of_neg (by simp [hw])]

/-- C25: for zone assignments taking at most `MAX_ZONES` distinct values on `[0, size)`,
`identify_witnesses` returns, in increasing order, exactly the participants `i` in
`[0, size)` for which the peers `j != i` with `latencies[j] < 50` belong to more than one
distinct zone, and sets `count` to their number. -/
theorem identify_witnesses_spec (node : Node) (zone_assignments : Nat → Int) (size : Nat)
    (hz : ((List.range size).map zone_assignments).toFinset.card ≤ MAX_ZONES) :
    identify_witnesses node zone_assignments size =
        some (spec_witnesses node zone_assignments size,
          (spec_witnesses node zone_assignments size).length) ∧
      (spec_witnesses node zone_assignments size).Sorted (fun a b => a < b) ∧
      ∀ i, i ∈ spec_witnesses node zone_assignments size ↔
        i < size ∧ 1 < (near_zones node zone_assignments size i).card := by
  refine ⟨?_, ?_, ?_⟩
  · unfold identify_witnesses spec_witnesses
    rw [witnesses_fold node zone_assignments size hz (List.range size) [] 0]
    simp
  · unfold spec_witnesses
    exact List.Pairwise.filter _ (List.pairwise_lt_range size)
  · intro i
    unfold spec_witnesses
    rw [List.mem_filter, List.mem_range, decide_eq_true_eq]

theorem two_zones_card : ((List.range 5).map two_zones).toFinset.card ≤ MAX_ZONES := by
  decide

theorem identify_witnesses_spec_witness :
    ((List.range 5).map two_zones).toFinset.card ≤ MAX_ZONES ∧
      identify_witnesses hub_node two_zones 5 =
        some (spec_witnesses hub_node two_zones 5,
          (spec_witnesses hub_node two_zones 5).length) :=
  ⟨two_zones_card, (identify_witnesses_spec hub_node two_zones 5 two_zones_card).1⟩

/-! ## Seeding -/

theorem corner_seed_zero :
    Function.update (fun _ => 0 : Nat → Nat) 0 (0 % 2) = fun _ => 0 := by
  funext t
  by_cases h : t = 0
  · rw [h, Function.update_same]
  · rw [Function.update_noteq h]

theorem corner_max_similarity : max_similarity corner_matrix 2 = 3 / 5 := by
  unfold max_similarity
  norm_num [List.range_succ, corner_matrix]

theorem corner_seed_min_dist :
    seed_min_dist corner_matrix 2 (3 / 5) (fun _ => 0) 1 1 = 3 / 5 + 1 / 1000000 := by
  unfold seed_min_dist
  norm_num [List.range_succ, corner_matrix, DBL_MAX]

theorem corner_distances_zero :
    seed_distances corner_matrix 2 (3 / 5) (fun _ => 0) 1 0 = 0 := by
  unfold seed_distances already_selected
  simp [List.range_succ]

theorem corner_distances_one :
    seed_distances corner_matrix 2 (3 / 5) (fun _ => 0) 1 1
      = (3 / 5 + 1 / 1000000) * (3 / 5 + 1 / 1000000) := by
  unfold seed_distances already_selected
  rw [corner_seed_min_dist]
  simp [List.range_succ]

theorem corner_total :
    seed_total (seed_distances corner_matrix 2 (3 / 5) (fun _ => 0) 1) 2
      = (3 / 5 + 1 / 1000000) * (3 / 5 + 1 / 1000000) := by
  unfold seed_total
  simp only [List.range_succ, List.range_zero, List.nil_append, List.foldl_append,
    List.foldl_cons, List.foldl_nil, corner_distances_zero, corner_distances_one]
  norm_num

theorem corner_select :
    select_by_cumsum (seed_distances corner_matrix 2 (3 / 5) (fun _ => 0) 1) 2 0 = some 0 := by
  unfold select_by_cumsum
  simp only [List.range_succ, List.range_zero, List.nil_append, List.foldl_append,
    List.foldl_cons, List.foldl_nil, corner_distances_zero]
  norm_num

theorem corner_seeds :
    kmeans_plusplus_init corner_matrix 2 2 (fun _ => 0) (fun _ => 0) = fun _ => 0 := by
  unfold kmeans_plusplus_init
  have hr : List.range' 1 (2 - 1) = [1] := rfl
  rw [hr, corner_seed_zero, corner_max_similarity]
  simp only [List.foldl_cons, List.foldl_nil]
  unfold seed_step
  simp only [corner_total]
  have hbig : (3 / 5 + 1 / 1000000 : ℚ) * (3 / 5 + 1 / 1000000) > 1 / 10000000000 := by
    norm_num
  rw [if_pos hbig]
  have hr0 : (((0 : Nat) : ℚ) / (RAND_MAX : ℚ)) * ((3 / 5 + 1 / 1000000) * (3 / 5 + 1 / 1000000))
      = 0 := by
    norm_num
  rw [hr0, corner_select]
  funext t
  show Function.update (fun _ => 0 : Nat → Nat) 1 0 t = 0
  by_cases h : t = 1
  · rw [h, Function.update_same]
  · rw [Function.update_noteq h]

theorem select_fold_found (distances : Nat → ℚ) (r : ℚ) (l : List Nat) (cumsum : ℚ)
    (i : Nat) :
    (l.foldl (fun (state : ℚ × Option Nat) i =>
      match state.2 with
      | some _ => state
      | none =>
        let cumsum := state.1 + distances i
        if cumsum ≥ r then (cumsum, some i) else (cumsum, none)) (cumsum, some i)).2
      = some i := by
  induction l with
  | nil => rfl
  | cons j l ih => exact ih

theorem select_fold_positive (distances : Nat → ℚ) (r : ℚ) (l : List Nat) (cumsum : ℚ)
    (hc : cumsum < r) (i : Nat)
    (h : (l.foldl (fun (state : ℚ × Option Nat) i =>
      match state.2 with
      | some _ => state
      | none =>
        let cumsum := state.1 + distances i
        if cumsum ≥ r then (cumsum, some i) else (cumsum, none)) (cumsum, none)).2
      = some i) : 0 < distances i := by
  induction l generalizing cumsum with
  | nil => exact absurd h (by simp)
  | cons j l ih =>
    rw [List.foldl_cons] at h
    simp only [] at h
    by_cases hge : cumsum + distances j ≥ r
    · rw [if_pos hge, select_fold_found] at h
      have e : j = i := Option.some.inj h
      rw [← e]
      linarith
    · rw [if_neg hge] at h
      exact ih (cumsum + distances j) (not_le.1 hge) h

theorem select_by_cumsum_positive (distances : Nat → ℚ) (n_nodes : Nat) (r : ℚ) (hr : 0 < r)
    (i : Nat) (h : select_by_cumsum distances n_nodes r = some i) : 0 < distances i :=
  select_fold_positive distances r (List.range n_nodes) 0 hr i h

/-- C27, the code when `rand()` returns 0: on a 2 x 2 similarity matrix with participant 0
already chosen as the first seed, the mass `total` of `D` exceeds 1e-10 and `D[0] = 0`, yet
the draw 0 gives `r = 0` and the selection loop stops at index 0: the second seed is
participant 0 again, the two seeds are equal. -/
theorem seed_drawn_twice :
    kmeans_plusplus_init corner_matrix 2 2 (fun _ => 0) (fun _ => 0) 0 = 0 ∧
      kmeans_plusplus_init corner_matrix 2 2 (fun _ => 0) (fun _ => 0) 1 = 0 ∧
      seed_total (seed_distances corner_matrix 2 (max_similarity corner_matrix 2)
        (fun _ => 0) 1) 2 > 1 / 10000000000 ∧
      seed_distances corner_matrix 2 (max_similarity corner_matrix 2) (fun _ => 0) 1 0 = 0 ∧
      already_selected (fun _ => 0) 1 0 = true := by
  rw [corner_seeds, corner_max_similarity, corner_total, corner_distances_zero]
  refine ⟨rfl, rfl, by norm_num, rfl, ?_⟩
  unfold already_selected
  simp [List.range_succ]

/-! ## Rebalancing -/

theorem form_zones_zone_comm (sqrt : ℚ → ℚ) (node : Node) (k_zones : Int)
    (peer_similarities : Nat → ℚ) (root_samples samples : Nat → Nat) :
    (form_zones sqrt node k_zones peer_similarities root_samples samples).zone_comm
      = node.zone_comm := rfl

theorem rebalance_block_zone_comm (sqrt : ℚ → ℚ) (node : Node) (last_rebalance current_time : ℚ)
    (peer_similarities : Nat → ℚ) (root_samples samples : Nat → Nat) :
    (rebalance_block sqrt node last_rebalance current_time peer_similarities root_samples
      samples).1.zone_comm = node.zone_comm := by
  unfold rebalance_block
  split
  · exact form_zones_zone_comm sqrt node MAX_ZONES peer_similarities root_samples samples
  · rfl

theorem member_after_startup_comm :
    member_after_startup.zone_comm = some { size := 2, rank := 0 } := by
  rfl

/-- C23, the code at a rebalancing: whenever the condition fires the block re-runs
`form_zones` and stores the new `zone_id`, but for every input the zone group handle is the
one the node had before (`create_zone_communicator` is not called).  For participant 0 of
five, whose start-up group is that of zone 0 (size 2), a rebalancing that moves it to zone 1
leaves the handle of size 2, while the group of colour `zone_id` that
`create_zone_communicator` would build has size 1. -/
theorem rebalance_keeps_old_zone_group :
    (∀ (sqrt : ℚ → ℚ) (node : Node) (last_rebalance current_time : ℚ)
        (peer_similarities : Nat → ℚ) (root_samples samples : Nat → Nat),
        (rebalance_block sqrt node last_rebalance current_time peer_similarities root_samples
          samples).1.zone_comm = node.zone_comm ∧
        (current_time - last_rebalance > ZONE_REBALANCE_INTERVAL →
          rebalance_block sqrt node last_rebalance current_time peer_similarities root_samples
            samples
          = (form_zones sqrt node MAX_ZONES peer_similarities root_samples samples,
              current_time))) ∧
      member_after_startup.zone_id = 0 ∧
      member_after_startup.zone_comm = some { size := 2, rank := 0 } ∧
      (driver_step state_after_startup (DriverEvent.rebalance 1)).node.zone_id = 1 ∧
      (driver_step state_after_startup (DriverEvent.rebalance 1)).node.zone_comm
        = some { size := 2, rank := 0 } ∧
      (create_zone_communicator
          (driver_step state_after_startup (DriverEvent.rebalance 1)).node
          rebalanced_zone_ids).zone_comm
        = some { size := 1, rank := 0 } := by
  refine ⟨?_, rfl, member_after_startup_comm, rfl, member_after_startup_comm, ?_⟩
  · intro sqrt node last_rebalance current_time peer_similarities root_samples samples
    refine ⟨rebalance_block_zone_comm sqrt node last_rebalance current_time peer_similarities
      root_samples samples, ?_⟩
    intro hfire
    unfold rebalance_block
    rw [if_pos hfire]
  · rfl

/-! ## Fast voting in a zone of at least ten -/

theorem sample_votes_eq (tx : Transaction) (zone_size : Nat) (samples : Nat → Nat)
    (round : Nat) :
    sample_votes tx zone_size samples round =
      if validate_transaction tx = 1 then (10, 0) else (0, 10) := by
  rcases validate_transaction_zero_or_one tx with h | h
  · unfold sample_votes
    rw [h]
    rfl
  · unfold sample_votes
    rw [h]
    rfl

theorem fast_voting_rounds_decides (tx : Transaction) (zone_size : Nat) (samples : Nat → Nat)
    (extra : Nat) :
    fast_voting_rounds tx zone_size samples (FV_CONSECUTIVE_ROUNDS + extra) 0 (-1) 0
      = (validate_transaction tx, FV_CONSECUTIVE_ROUNDS) := by
  have e : FV_CONSECUTIVE_ROUNDS + extra = extra + 1 + 1 + 1 + 1 + 1 := by
    unfold FV_CONSECUTIVE_ROUNDS
    omega
  rw [e]
  rcases validate_transaction_zero_or_one tx with h | h
  · simp [fast_voting_rounds, sample_votes_eq, h, FV_QUORUM, FV_CONSECUTIVE_ROUNDS]
  · simp [fast_voting_rounds, sample_votes_eq, h, FV_QUORUM, FV_CONSECUTIVE_ROUNDS]

/-- C31: whenever the zone group has at least `FV_SAMPLE_SIZE = 10` members,
`fast_voting_consensus` returns exactly `validate_transaction(tx)` for every sequence of
random samples, and it returns when `FV_CONSECUTIVE_ROUNDS = 5` sampling rounds have been
executed.  The result is the same for every other sequence of samples, and it is the same
for every round budget of at least 5: the final return after the budget of 15 rounds is not
reached. -/
theorem fast_voting_large_zone (tx : Transaction) (node : Node) (comm : Comm)
    (samples : Nat → Nat) (hc : node.zone_comm = some comm)
    (hs : FV_SAMPLE_SIZE ≤ comm.size) :
    fast_voting_consensus tx node samples = some (validate_transaction tx) ∧
      fast_voting_run tx node samples
        = some (validate_transaction tx, FV_CONSECUTIVE_ROUNDS) ∧
      (∀ other : Nat → Nat,
        fast_voting_consensus tx node other = fast_voting_consensus tx node samples) ∧
      (∀ extra : Nat,
        fast_voting_rounds tx comm.size samples (FV_CONSECUTIVE_ROUNDS + extra) 0 (-1) 0
          = (validate_transaction tx, FV_CONSECUTIVE_ROUNDS)) := by
  have hrun : ∀ s : Nat → Nat, fast_voting_run tx node s
      = some (validate_transaction tx, FV_CONSECUTIVE_ROUNDS) := by
    intro s
    unfold fast_voting_run
    rw [hc]
    simp only [if_neg (not_lt.2 hs)]
    rw [fast_voting_rounds_decides tx comm.size s 10]
  have hres : ∀ s : Nat → Nat,
      fast_voting_consensus tx node s = some (validate_transaction tx) := by
    intro s
    unfold fast_voting_consensus
    rw [hrun s]
    rfl
  refine ⟨hres samples, hrun samples, fun other => ?_,
    fun extra => fast_voting_rounds_decides tx comm.size samples extra⟩
  rw [hres other, hres samples]

theorem fast_voting_large_zone_witness :
    (voter 12).zone_comm = some { size := 12, rank := 0 } ∧ FV_SAMPLE_SIZE ≤ 12 ∧
      fast_voting_consensus tx_A (voter 12) (fun k => 7 * k + 3) = some 1 ∧
      fast_voting_consensus negative_sender_tx (voter 12) (fun k => 7 * k + 3) = some 0 :=
  ⟨rfl, by decide,
    (fast_voting_large_zone tx_A (voter 12) { size := 12, rank := 0 } (fun k => 7 * k + 3) rfl
      (by decide)).1.trans (congrArg some validate_tx_A),
    (fast_voting_large_zone negative_sender_tx (voter 12) { size := 12, rank := 0 }
      (fun k => 7 * k + 3) rfl (by decide)).1.trans
      (congrArg some validate_negative_sender_tx)⟩

/-! ## The phase detector at a fixed load -/

theorem detect_phase_of_tps_idem (cur : Int) (tps : ℚ) :
    detect_phase_of_tps (detect_phase_of_tps cur tps) tps = detect_phase_of_tps cur tps := by
  by_cases hh : cur = PHASE_HIGH
  · subst hh
    rw [detect_phase_of_tps_high]
    by_cases h45 : tps < 45
    · rw [if_pos h45]
      by_cases h10 : tps > 10
      · rw [if_pos h10, detect_phase_of_tps_normal, if_neg (by linarith), if_neg (by linarith)]
      · rw [if_neg h10, detect_phase_of_tps_low, if_neg (by linarith)]
    · rw [if_neg h45, detect_phase_of_tps_high, if_neg h45]
  · by_cases hn : cur = PHASE_NORMAL
    · subst hn
      rw [detect_phase_of_tps_normal]
      by_cases h55 : tps > 55
      · rw [if_pos h55, detect_phase_of_tps_high, if_neg (by linarith)]
      · rw [if_neg h55]
        by_cases h9 : tps < 9
        · rw [if_pos h9, detect_phase_of_tps_low, if_neg (by linarith)]
        · rw [if_neg h9, detect_phase_of_tps_normal, if_neg h55, if_neg h9]
    · have hcur : detect_phase_of_tps cur tps
          = if tps > 11 then (if tps > 50 then PHASE_HIGH else PHASE_NORMAL) else cur := by
        unfold detect_phase_of_tps
        rw [if_neg hh, if_neg hn, threshold_low_up]
        rfl
      rw [hcur]
      by_cases h11 : tps > 11
      · rw [if_pos h11]
        by_cases h50 : tps > 50
        · rw [if_pos h50, detect_phase_of_tps_high, if_neg (by linarith)]
        · rw [if_neg h50, detect_phase_of_tps_normal, if_neg (by linarith),
            if_neg (by linarith)]
      · rw [if_neg h11, hcur, if_neg h11]

/-- C32: at a fixed tps the phase detector settles in one step.  For every current phase
`cur` (any `int`, not only the three phase codes) and every `tps`, applying the body of
`detect_phase` to its own result at the same `tps` returns that result again; for every node,
window and time, `detect_phase` on the node that has stored the detected phase returns the
same phase; and any number of further passes at the same `tps` leaves the phase where the
first pass put it. -/
theorem detect_phase_settles (cur : Int) (tps : ℚ) (node : Node) (window : SlidingWindow)
    (current_time : ℚ) :
    detect_phase_of_tps (detect_phase_of_tps cur tps) tps = detect_phase_of_tps cur tps ∧
      detect_phase { node with phase := detect_phase node window current_time } window
          current_time
        = detect_phase node window current_time ∧
      ∀ n : Nat, (fun phase => detect_phase_of_tps phase tps)^[n + 1] cur
        = detect_phase_of_tps cur tps := by
  refine ⟨detect_phase_of_tps_idem cur tps,
    detect_phase_of_tps_idem node.phase (calculate_tps window current_time), fun n => ?_⟩
  induction n with
  | zero => rfl
  | succ n ih =>
    rw [Function.iterate_succ_apply', ih]
    exact detect_phase_of_tps_idem cur tps

/-! ## The transaction counters of the node -/

theorem sum_update_succ (f : Nat → Int) (n i : Nat) (hi : i < n) :
    ∑ j in Finset.range n, Function.update f i (f i + 1) j
      = (∑ j in Finset.range n, f j) + 1 := by
  have e : Function.update f i (f i + 1) = fun j => f j + (if j = i then 1 else 0) := by
    funext j
    by_cases h : j = i
    · subst h
      simp
    · simp [h]
  rw [e, Finset.sum_add_distrib, Finset.sum_ite_eq', if_pos (Finset.mem_range.2 hi)]

theorem driver_step_total_nodes (st : DriverState) (event : DriverEvent) :
    (driver_step st event).node.total_nodes = st.node.total_nodes := by
  cases event with
  | detect current_time => rfl
  | generate receiver amount current_time => rfl
  | receive can_process received_tx current_time =>
    cases can_process with
    | false => rfl
    | true => rfl
  | weights => rfl
  | rebalance zone_id => rfl

theorem driver_step_counters (size : Int) (st : DriverState) (event : DriverEvent)
    (generated : Nat) (hsend : sender_in_range size event)
    (hsum : st.node.total_tx_count
      = (generated : Int) + ∑ j in Finset.range size.toNat, st.node.affinity_counts j) :
    (driver_step st event).node.total_tx_count
      = ((generated + generated_count [event] : Nat) : Int) +
        ∑ j in Finset.range size.toNat, (driver_step st event).node.affinity_counts j := by
  cases event with
  | detect current_time => exact hsum
  | generate receiver amount current_time =>
    show st.node.total_tx_count + 1 = _
    rw [hsum]
    show _ = ((generated + 1 : Nat) : Int) + ∑ j in Finset.range size.toNat,
      st.node.affinity_counts j
    push_cast
    ring
  | receive can_process received_tx current_time =>
    cases can_process with
    | false => exact hsum
    | true =>
      have hi : received_tx.sender.toNat < size.toNat := by
        have h := hsend
        unfold sender_in_range at h
        omega
      show st.node.total_tx_count + 1 = ((generated + 0 : Nat) : Int) +
        ∑ j in Finset.range size.toNat,
          Function.update st.node.affinity_counts received_tx.sender.toNat
            (st.node.affinity_counts received_tx.sender.toNat + 1) j
      rw [sum_update_succ _ _ _ hi, hsum]
      push_cast
      ring
  | weights => exact hsum
  | rebalance zone_id => exact hsum

theorem driver_step_bounds (st : DriverState) (event : DriverEvent) (bound : Int)
    (hcell : ∀ j, 0 ≤ st.node.affinity_counts j ∧
      st.node.affinity_counts j ≤ st.node.total_tx_count)
    (hbound : st.node.total_tx_count ≤ bound) :
    (∀ j, 0 ≤ (driver_step st event).node.affinity_counts j ∧
        (driver_step st event).node.affinity_counts j
          ≤ (driver_step st event).node.total_tx_count) ∧
      (driver_step st event).node.total_tx_count ≤ bound + 1 := by
  cases event with
  | detect current_time => exact ⟨hcell, by show st.node.total_tx_count ≤ _; omega⟩
  | generate receiver amount current_time =>
    refine ⟨fun j => ?_, ?_⟩
    · obtain ⟨h1, h2⟩ := hcell j
      show 0 ≤ st.node.affinity_counts j ∧
        st.node.affinity_counts j ≤ st.node.total_tx_count + 1
      omega
    · show st.node.total_tx_count + 1 ≤ _
      omega
  | receive can_process received_tx current_time =>
    cases can_process with
    | false => exact ⟨hcell, by show st.node.total_tx_count ≤ _; omega⟩
    | true =>
      refine ⟨fun j => ?_, ?_⟩
      · show 0 ≤ Function.update st.node.affinity_counts received_tx.sender.toNat
            (st.node.affinity_counts received_tx.sender.toNat + 1) j ∧
          Function.update st.node.affinity_counts received_tx.sender.toNat
            (st.node.affinity_counts received_tx.sender.toNat + 1) j
            ≤ st.node.total_tx_count + 1
        by_cases h : j = received_tx.sender.toNat
        · subst h
          obtain ⟨h1, h2⟩ := hcell received_tx.sender.toNat
          rw [Function.update_same]
          omega
        · obtain ⟨h1, h2⟩ := hcell j
          rw [Function.update_noteq h]
          omega
      · show st.node.total_tx_count + 1 ≤ _
        omega
  | weights => exact ⟨hcell, by show st.node.total_tx_count ≤ _; omega⟩
  | rebalance zone_id => exact ⟨hcell, by show st.node.total_tx_count ≤ _; omega⟩

theorem generated_count_cons (event : DriverEvent) (rest : List DriverEvent) :
    generated_count (event :: rest) = generated_count [event] + generated_count rest := by
  cases event with
  | detect current_time => simp [generated_count]
  | generate receiver amount current_time => simp [generated_count, Nat.add_comm]
  | receive can_process received_tx current_time => simp [generated_count]
  | weights => simp [generated_count]
  | rebalance zone_id => simp [generated_count]

theorem driver_run_counters (size : Int) (events : List DriverEvent) (st : DriverState)
    (generated : Nat) (bound : Int) (hsend : ∀ e ∈ events, sender_in_range size e)
    (hsum : st.node.total_tx_count
      = (generated : Int) + ∑ j in Finset.range size.toNat, st.node.affinity_counts j)
    (hcell : ∀ j, 0 ≤ st.node.affinity_counts j ∧
      st.node.affinity_counts j ≤ st.node.total_tx_count)
    (hbound : st.node.total_tx_count ≤ bound) :
    (driver_run st events).node.total_tx_count
        = ((generated + generated_count events : Nat) : Int) +
          ∑ j in Finset.range size.toNat, (driver_run st events).node.affinity_counts j ∧
      (∀ j, 0 ≤ (driver_run st events).node.affinity_counts j ∧
        (driver_run st events).node.affinity_counts j
          ≤ (driver_run st events).node.total_tx_count) ∧
      (driver_run st events).node.total_tx_count ≤ bound + (events.length : Int) := by
  induction events generalizing st generated bound with
  | nil =>
    refine ⟨hsum, hcell, ?_⟩
    show st.node.total_tx_count ≤ bound + 0
    omega
  | cons event rest ih =>
    obtain ⟨h1, h2⟩ := driver_step_bounds st event bound hcell hbound
    have h3 := driver_step_counters size st event generated
      (hsend event (List.mem_cons_self _ _)) hsum
    obtain ⟨k1, k2, k3⟩ := ih (driver_step st event) (generated + generated_count [event])
      (bound + 1) (fun e he => hsend e (List.mem_cons_of_mem _ he)) h3 h1 h2
    refine ⟨?_, k2, ?_⟩
    · rw [generated_count_cons, ← Nat.add_assoc]
      exact k1
    · have e : ((event :: rest).length : Int) = (rest.length : Int) + 1 := by
        simp
      rw [e]
      have k4 : (driver_run (driver_step st event) rest).node.total_tx_count
          ≤ bound + 1 + (rest.length : Int) := k3
      show (driver_run (driver_step st event) rest).node.total_tx_count ≤ _
      omega

theorem affinity_term_eq (node : Node) (j : Nat) :
    affinity_term node j =
      AFFINITY_WEIGHT * (if node.total_tx_count > 0 then
        (node.affinity_counts j : ℚ) / (node.total_tx_count : ℚ) else 0) := by
  unfold affinity_term compute_similarity
  ring

theorem affinity_term_bounds (node : Node) (j : Nat) (h0 : 0 ≤ node.affinity_counts j)
    (h1 : node.affinity_counts j ≤ node.total_tx_count) :
    0 ≤ affinity_term node j ∧ affinity_term node j ≤ AFFINITY_WEIGHT := by
  rw [affinity_term_eq]
  unfold AFFINITY_WEIGHT
  by_cases ht : node.total_tx_count > 0
  · rw [if_pos ht]
    have hc : (0 : ℚ) ≤ (node.affinity_counts j : ℚ) := by exact_mod_cast h0
    have hle : (node.affinity_counts j : ℚ) ≤ (node.total_tx_count : ℚ) := by exact_mod_cast h1
    have hpos : (0 : ℚ) < (node.total_tx_count : ℚ) := by exact_mod_cast ht
    have hq0 : (0 : ℚ) ≤ (node.affinity_counts j : ℚ) / (node.total_tx_count : ℚ) :=
      div_nonneg hc (le_of_lt hpos)
    have hq1 : (node.affinity_counts j : ℚ) / (node.total_tx_count : ℚ) ≤ 1 :=
      (div_le_one hpos).2 hle
    constructor
    · positivity
    · linarith
  · rw [if_neg ht]
    norm_num

/-- C33: in every state the loop reaches from a node whose counters are as `create_node`
leaves them (`total_tx_count = 0`, every `affinity_counts` cell 0), with every received
transaction carrying a sender among the `total_nodes` ranks, `total_tx_count` equals the
number of locally generated transactions plus the sum of `affinity_counts[j]` over the
`total_nodes` cells.  Every cell satisfies `0 <= affinity_counts[j] <= total_tx_count`, so
the affinity term of `compute_similarity` lies in `[0, AFFINITY_WEIGHT]` for every `j`; and
`total_tx_count` is at most the number of events handled. -/
theorem counters_invariant (st0 : DriverState) (events : List DriverEvent)
    (htotal : st0.node.total_tx_count = 0) (hcells : ∀ j, st0.node.affinity_counts j = 0)
    (hsend : ∀ e ∈ events, sender_in_range st0.node.total_nodes e) :
    (driver_run st0 events).node.total_tx_count
        = (generated_count events : Int) +
          ∑ j in Finset.range st0.node.total_nodes.toNat,
            (driver_run st0 events).node.affinity_counts j ∧
      (∀ j, 0 ≤ (driver_run st0 events).node.affinity_counts j ∧
        (driver_run st0 events).node.affinity_counts j
          ≤ (driver_run st0 events).node.total_tx_count) ∧
      (∀ j, 0 ≤ affinity_term (driver_run st0 events).node j ∧
        affinity_term (driver_run st0 events).node j ≤ AFFINITY_WEIGHT) ∧
      (driver_run st0 events).node.total_tx_count ≤ (events.length : Int) := by
  have hsum : st0.node.total_tx_count
      = ((0 : Nat) : Int) + ∑ j in Finset.range st0.node.total_nodes.toNat,
        st0.node.affinity_counts j := by
    rw [htotal, Finset.sum_eq_zero (fun j _ => hcells j)]
    rfl
  have hcell : ∀ j, 0 ≤ st0.node.affinity_counts j ∧
      st0.node.affinity_counts j ≤ st0.node.total_tx_count := by
    intro j
    rw [hcells j, htotal]
    exact ⟨Int.le_refl _, Int.le_refl _⟩
  obtain ⟨k1, k2, k3⟩ := driver_run_counters st0.node.total_nodes events st0 0 0 hsend hsum
    hcell (by rw [htotal])
  refine ⟨?_, k2, fun j => affinity_term_bounds _ j (k2 j).1 (k2 j).2, ?_⟩
  · rw [k1, Nat.zero_add]
  · rw [Int.zero_add] at k3
    exact k3

theorem mixed_events_senders :
    ∀ e ∈ mixed_events, sender_in_range (initial_state 0 4).node.total_nodes e := by
  intro e he
  simp only [mixed_events, List.mem_cons, List.mem_singleton, List.mem_nil_iff, or_false] at he
  rcases he with h | h | h
  · rw [h]
    trivial
  · rw [h]
    exact ⟨by decide, by decide⟩
  · rw [h]
    trivial

theorem counters_invariant_witness :
    (initial_state 0 4).node.total_tx_count = 0 ∧
      (∀ e ∈ mixed_events, sender_in_range (initial_state 0 4).node.total_nodes e) ∧
      (driver_run (initial_state 0 4) mixed_events).node.total_tx_count
        = (generated_count mixed_events : Int) +
          ∑ j in Finset.range (initial_state 0 4).node.total_nodes.toNat,
            (driver_run (initial_state 0 4) mixed_events).node.affinity_counts j ∧
      generated_count mixed_events = 2 ∧
      (driver_run (initial_state 0 4) mixed_events).node.total_tx_count = 3 ∧
      (driver_run (initial_state 0 4) mixed_events).node.affinity_counts 1 = 1 :=
  ⟨rfl, mixed_events_senders,
    (counters_invariant (initial_state 0 4) mixed_events rfl (fun _ => rfl)
      mixed_events_senders).1, rfl, rfl, rfl⟩

end Astp
